import Mathlib

/-!
Verification development for the Space Craft standalone server.

The simulation core is embedded from the lag-compensated, no-shield,
bounded-arena variant of the game logic (the normative variant per the
specification); the room runtime, network projection and delta builder are
embedded from the 60 Hz server entry point.

JavaScript numbers are modelled as exact rationals.  The transcendental
library functions (Math.sin, Math.cos, Math.exp, Math.hypot, Math.PI) and
the Math.random string stream have no exact rational counterpart; they are
abstracted into a `Prims` parameter so that every simulation operation is a
pure function of the state, the primitives and its arguments.  Theorems that
need analytic facts about Math.hypot state them as explicit hypotheses
(satisfied by the real hypot), and witnesses instantiate the primitives with
simple computable stand-ins.
-/

namespace SpaceCraft

/-- The clamp helper from the source: Math.max(min, Math.min(max, v)). -/
def clamp (v lo hi : ℚ) : ℚ := max lo (min hi v)

/-- JS Math.round: round half toward positive infinity.  (Rat.floor is the
kernel-computable floor; it agrees with Int.floor.) -/
def jsRound (q : ℚ) : ℤ := (q + 1/2).floor

/-- STATE_PRECISION = 10000. -/
def STATE_PRECISION : ℚ := 10000

/-- roundState v = Math.round(v * STATE_PRECISION) / STATE_PRECISION. -/
def roundState (v : ℚ) : ℚ := (jsRound (v * STATE_PRECISION) : ℚ) / STATE_PRECISION

/-- JS truncation toward zero, as used by the % operator. -/
def jsTrunc (q : ℚ) : ℤ := if 0 ≤ q then q.floor else q.ceil

/-- JS remainder a % b (takes the sign of the dividend). -/
def jsMod (a b : ℚ) : ℚ := a - b * (jsTrunc (a / b) : ℚ)

/-- POS_HISTORY_MAX: how many ticks of position history to keep per player. -/
def POS_HISTORY_MAX : ℕ := 30

/-- SIM_TICK_MS_REF: sim tick duration used for position rewind calculations. -/
def SIM_TICK_MS_REF : ℚ := 16

/-- Abstraction of the impure and transcendental JavaScript primitives used
by the simulation: Math.sin, Math.cos, Math.exp, Math.hypot, Math.PI, and
the stream of strings Math.random().toString(36).slice(2, 7) indexed by the
number of Math.random calls made so far. -/
structure Prims where
  sin : ℚ → ℚ
  cos : ℚ → ℚ
  exp : ℚ → ℚ
  hypot : ℚ → ℚ → ℚ
  pi : ℚ
  rand : ℕ → String

/-- CONFIG constants of the simulation variant under verification. -/
def CONFIG.arenaWidth : ℚ := 100

def CONFIG.arenaHeight : ℚ := 100

def CONFIG.turnRate : ℚ := 3.8

def CONFIG.accelForward : ℚ := 55

def CONFIG.accelReverse : ℚ := 28

def CONFIG.linearDragPerSecond : ℚ := 0.18

def CONFIG.maxSpeed : ℚ := 32

def CONFIG.projectileSpeed : ℚ := 70

def CONFIG.projectileTtlMs : ℚ := 1200

def CONFIG.projectileDamage : ℚ := 30

def CONFIG.fireCooldownMs : ℚ := 160

def CONFIG.maxLagCompensationMs : ℚ := 400

def CONFIG.maxHp : ℚ := 100

def CONFIG.pickupSpawnEveryTicks : ℕ := 120

def CONFIG.maxPickups : ℕ := 3

def CONFIG.playerRadius : ℚ := 2.5

def CONFIG.projectileRadius : ℚ := 0.8

def CONFIG.pickupRadius : ℚ := 2.8

def CONFIG.laserDps : ℚ := 80

def CONFIG.laserRangeUnits : ℚ := 55

def CONFIG.laserWidthUnits : ℚ := 1.2

def CONFIG.laserDurationMs : ℚ := 2000

def CONFIG.bombSpeed : ℚ := 50

def CONFIG.bombDamage : ℚ := 60

def CONFIG.bombRadius : ℚ := 8

def CONFIG.bombTtlMs : ℚ := 1600

def CONFIG.novaDamage : ℚ := 50

def CONFIG.novaRadius : ℚ := 15

def CONFIG.novaDurationMs : ℚ := 400

def CONFIG.specialUsesPerPickup : ℤ := 3

def CONFIG.roundDurationMs : ℚ := 180000

/-- HIT_DIST_SQ = (playerRadius + projectileRadius)^2. -/
def HIT_DIST_SQ : ℚ := (CONFIG.playerRadius + CONFIG.projectileRadius) ^ 2

/-- PICKUP_TYPES. -/
def PICKUP_TYPES : List String := ["laser", "bomb", "nova"]

/-- The per-ship input slot (the source object p.input). -/
structure Input where
  turn : ℚ
  thrust : ℚ
  fire : Bool
  firePressed : Bool
  fireSeq : Option ℤ
  lagCompMs : ℚ
  deriving DecidableEq

/-- Per-player stats record. -/
structure Stats where
  kills : ℕ
  deaths : ℕ
  damageDealt : ℚ
  pickups : ℕ
  deriving DecidableEq

/-- A ship, as stored in state.players.  specialWeapon models the source's
string-or-null field; posHistory is the lag-compensation ring. -/
structure Player where
  id : String
  x : ℚ
  y : ℚ
  vx : ℚ
  vy : ℚ
  angle : ℚ
  hp : ℚ
  shield : ℚ
  weaponLevel : ℚ
  fireCooldownMs : ℚ
  alive : Bool
  specialWeapon : Option String
  specialUses : ℤ
  laserActiveMs : ℚ
  novaCooldownMs : ℚ
  posHistory : List (ℚ × ℚ)
  input : Input
  stats : Stats
  deriving DecidableEq

/-- A projectile (bullet or bomb). -/
structure Projectile where
  id : String
  ownerId : String
  x : ℚ
  y : ℚ
  vx : ℚ
  vy : ℚ
  ttlMs : ℚ
  fireSeq : Option ℤ
  damage : ℚ
  isBomb : Bool
  lagCompMs : ℚ
  deriving DecidableEq

/-- An arena pickup. -/
structure Pickup where
  id : String
  x : ℚ
  y : ℚ
  type : String
  value : ℤ
  deriving DecidableEq

/-- A short-lived visual effect marker. -/
structure Effect where
  type : String
  x : ℚ
  y : ℚ
  radius : ℚ
  ownerId : String
  ttlMs : ℚ
  deriving DecidableEq

/-- The arena box. -/
structure Arena where
  width : ℚ
  height : ℚ
  deriving DecidableEq

/-- The world state.  players is a JS object modelled as an
insertion-ordered association list; randCalls counts the Math.random calls
made so far (making the impurity of projectile-id generation explicit). -/
structure GameState where
  phase : String
  seed : ℚ
  tick : ℕ
  remainingMs : ℚ
  arena : Arena
  players : List (String × Player)
  projectiles : List Projectile
  pickups : List Pickup
  effects : List Effect
  winnerIds : List String
  reason : Option String
  randCalls : ℕ
  deriving DecidableEq

/-- JS object property write: overwrite in place if the key exists
(keeping its insertion position), else append. -/
def setV {β : Type} (k : String) (v : β) : List (String × β) → List (String × β)
  | [] => [(k, v)]
  | (k2, v2) :: rest => if k2 = k then (k, v) :: rest else (k2, v2) :: setV k v rest

/-- Update an existing property; a no-op when the key is absent (the source
only ever updates players that exist). -/
def updV {β : Type} (k : String) (f : β → β) (l : List (String × β)) : List (String × β) :=
  match l.lookup k with
  | none => l
  | some v => setV k (f v) l

/-- Write one player back into the state (mutation of the live object). -/
def setPlayer (st : GameState) (pid : String) (p : Player) : GameState :=
  { st with players := setV pid p st.players }

/-- Update one player in place (mutation of the live object). -/
def updPlayer (st : GameState) (pid : String) (f : Player → Player) : GameState :=
  { st with players := updV pid f st.players }

/-- JS truthiness of the string-or-null specialWeapon field. -/
def jsTruthyStr : Option String → Bool
  | none => false
  | some s => s != ""

/-- The default input slot created by initState. -/
def defaultInput : Input :=
  { turn := 0, thrust := 0, fire := false, firePressed := false, fireSeq := none, lagCompMs := 0 }

/-- One freshly spawned ship. -/
def mkSpawnPlayer (id : String) (x y angle : ℚ) : Player :=
  { id := id, x := x, y := y, vx := 0, vy := 0, angle := angle,
    hp := CONFIG.maxHp, shield := 0, weaponLevel := 1, fireCooldownMs := 0,
    alive := true, specialWeapon := none, specialUses := 0,
    laserActiveMs := 0, novaCooldownMs := 0, posHistory := [],
    input := defaultInput,
    stats := { kills := 0, deaths := 0, damageDealt := 0, pickups := 0 } }

/-- initState(playerIds, seed): the first two ids get the symmetric spawns;
seed is stored as Number(seed || 1). -/
def initState (prims : Prims) (playerIds : List String) (seed : ℚ) : GameState :=
  let spawns : List (ℚ × ℚ × ℚ) := [(18, 50, 0), (82, 50, prims.pi)]
  let players := ((playerIds.take 2).zip spawns).foldl
    (fun acc pr => setV pr.1 (mkSpawnPlayer pr.1 pr.2.1 pr.2.2.1 pr.2.2.2) acc) []
  { phase := "playing"
    seed := if seed = 0 then 1 else seed
    tick := 0
    remainingMs := CONFIG.roundDurationMs
    arena := { width := CONFIG.arenaWidth, height := CONFIG.arenaHeight }
    players := players
    projectiles := []
    pickups := []
    effects := []
    winnerIds := []
    reason := none
    randCalls := 0 }

/-- The wire payload fields read by applyInput.  The JS numeric coercions
Number(x || 0) are identities on the rational model (absent/NaN fields are
not representable; 0 maps to 0). -/
structure InputPayload where
  turn : ℚ
  thrust : ℚ
  fire : Bool
  fire_pressed : Bool
  fire_seq : Option ℚ
  lag_comp_ms : ℚ
  deriving DecidableEq

/-- applyInput(state, playerId, payload): clamp and store the input slot;
no-op when the ship is absent or dead. -/
def applyInput (st : GameState) (playerId : String) (payload : InputPayload) : GameState :=
  match st.players.lookup playerId with
  | none => st
  | some p =>
    if p.alive = false then st
    else
      let fireSeq : Option ℤ :=
        match payload.fire_seq with
        | some q => if 0 < q then some q.floor else none
        | none => none
      setPlayer st playerId
        { p with input :=
          { turn := clamp payload.turn (-1) 1
            thrust := clamp payload.thrust (-1) 1
            fire := payload.fire
            firePressed := payload.fire_pressed
            fireSeq := fireSeq
            lagCompMs := clamp payload.lag_comp_ms 0 CONFIG.maxLagCompensationMs } }

/-- recordPosition(player): push (x, y), shift the oldest when over capacity. -/
def recordPosition (p : Player) : Player :=
  let hist := p.posHistory ++ [(p.x, p.y)]
  { p with posHistory := if POS_HISTORY_MAX < hist.length then hist.drop 1 else hist }

/-- getRewindPos(player, lagMs): the position from lagMs milliseconds ago,
looked up in the history ring; current position when unavailable. -/
def getRewindPos (p : Player) (lagMs : ℚ) : ℚ × ℚ :=
  if lagMs ≤ 0 ∨ p.posHistory.length = 0 then (p.x, p.y)
  else
    let ticksBack := jsRound (lagMs / SIM_TICK_MS_REF)
    let idx : ℤ := max 0 ((p.posHistory.length : ℤ) - 1 - ticksBack)
    p.posHistory.getD idx.toNat (p.x, p.y)

/-- normalizeAngle(a): reduce modulo TAU into [0, TAU) and quantize. -/
def normalizeAngle (prims : Prims) (a : ℚ) : ℚ :=
  let n := jsMod a (prims.pi * 2)
  roundState (if n < 0 then n + prims.pi * 2 else n)

/-- distSq(ax, ay, bx, by). -/
def distSq (ax ay bx by2 : ℚ) : ℚ :=
  (ax - bx) * (ax - bx) + (ay - by2) * (ay - by2)

/-- pseudoRandom(seed) = frac(sin(seed * 12.9898) * 43758.5453). -/
def pseudoRandom (prims : Prims) (seed : ℚ) : ℚ :=
  let x := prims.sin (seed * 12.9898) * 43758.5453
  x - (x.floor : ℚ)

/-- clampPlayerToArena(player, state): clamp the position into the arena
minus player radius, zeroing the velocity component pushing into the wall. -/
def clampPlayerToArena (p : Player) (st : GameState) : Player :=
  let minX := CONFIG.playerRadius
  let maxX := st.arena.width - CONFIG.playerRadius
  let minY := CONFIG.playerRadius
  let maxY := st.arena.height - CONFIG.playerRadius
  let p1 :=
    if p.x < minX then { p with x := minX, vx := if p.vx < 0 then 0 else p.vx }
    else if maxX < p.x then { p with x := maxX, vx := if 0 < p.vx then 0 else p.vx }
    else p
  if p1.y < minY then { p1 with y := minY, vy := if p1.vy < 0 then 0 else p1.vy }
  else if maxY < p1.y then { p1 with y := maxY, vy := if 0 < p1.vy then 0 else p1.vy }
  else p1

/-- isOutOfArena(x, y, state, radius). -/
def isOutOfArena (x y : ℚ) (st : GameState) (radius : ℚ) : Bool :=
  decide (x < radius) || decide (y < radius) ||
  decide (st.arena.width - radius < x) || decide (st.arena.height - radius < y)

/-- quantizePlayerState(player). -/
def quantizePlayerState (p : Player) : Player :=
  { p with x := roundState p.x, y := roundState p.y,
           vx := roundState p.vx, vy := roundState p.vy,
           angle := roundState p.angle }

/-- quantizeProjectileState(projectile). -/
def quantizeProjectileState (pr : Projectile) : Projectile :=
  { pr with x := roundState pr.x, y := roundState pr.y,
            vx := roundState pr.vx, vy := roundState pr.vy }

/-- The instant rewind hit-scan loop inside spawnProjectile: march the
projectile across the lag window, checking rewound positions of all other
alive ships; returns the hit ship and the impact point.  The fuel argument
is the remaining number of substeps, s the current substep index. -/
def rewindScan (players : List (String × Player)) (ownerId : String)
    (vx vy stepDt appliedLagMs minX maxX minY maxY : ℚ) :
    ℕ → ℕ → ℚ → ℚ → Option (String × ℚ × ℚ)
  | 0, _, _, _ => none
  | fuel + 1, s, checkX, checkY =>
    let cX := checkX + vx * stepDt
    let cY := checkY + vy * stepDt
    if cX < minX ∨ maxX < cX ∨ cY < minY ∨ maxY < cY then none
    else
      let rewindMs := appliedLagMs - ((s : ℚ) + 1) * SIM_TICK_MS_REF
      match players.find? (fun t =>
          t.2.alive && (t.1 != ownerId) &&
          decide (distSq cX cY (getRewindPos t.2 (max 0 rewindMs)).1
                    (getRewindPos t.2 (max 0 rewindMs)).2 ≤ HIT_DIST_SQ)) with
      | some t => some (t.1, cX, cY)
      | none =>
        rewindScan players ownerId vx vy stepDt appliedLagMs minX maxX minY maxY
          fuel (s + 1) cX cY

/-- Credit damage (and possibly a kill) to the owner's stats. -/
def creditOwner (st : GameState) (ownerId : String) (dmg : ℚ) (kill : Bool) : GameState :=
  updPlayer st ownerId (fun o =>
    { o with stats :=
      { o.stats with
        damageDealt := o.stats.damageDealt + dmg
        kills := if kill then o.stats.kills + 1 else o.stats.kills } })

/-- spawnProjectile(state, ownerId, p, lagCompMs, fireSeq): spawn at the
muzzle; when lag compensation applies, run the instant rewind hit-scan and
either apply damage immediately (pushing a 50 ms tracer projectile) or
advance the spawn position across the lag window. -/
def spawnProjectile (prims : Prims) (st : GameState) (ownerId : String) (p : Player)
    (lagCompMs : ℚ) (fireSeq : Option ℤ) : GameState :=
  let muzzle := CONFIG.playerRadius + 0.5
  let minX := CONFIG.projectileRadius
  let maxX := st.arena.width - CONFIG.projectileRadius
  let minY := CONFIG.projectileRadius
  let maxY := st.arena.height - CONFIG.projectileRadius
  let spawnX := clamp (p.x + prims.cos p.angle * muzzle) minX maxX
  let spawnY := clamp (p.y + prims.sin p.angle * muzzle) minY maxY
  let pr0 : Projectile :=
    { id := toString st.tick ++ ":" ++ ownerId ++ ":" ++ prims.rand st.randCalls
      ownerId := ownerId
      x := spawnX, y := spawnY
      vx := prims.cos p.angle * CONFIG.projectileSpeed
      vy := prims.sin p.angle * CONFIG.projectileSpeed
      ttlMs := CONFIG.projectileTtlMs
      fireSeq := fireSeq
      damage := CONFIG.projectileDamage
      isBomb := false
      lagCompMs := clamp lagCompMs 0 CONFIG.maxLagCompensationMs }
  let st := { st with randCalls := st.randCalls + 1 }
  let appliedLagMs := pr0.lagCompMs
  if 0 < appliedLagMs then
    let lagDt := appliedLagMs / 1000
    let steps : ℕ := (appliedLagMs / SIM_TICK_MS_REF).ceil.toNat
    let stepDt := lagDt / (steps : ℚ)
    match rewindScan st.players ownerId pr0.vx pr0.vy stepDt appliedLagMs
        minX maxX minY maxY steps 0 spawnX spawnY with
    | some hit =>
      let st1 :=
        match st.players.lookup hit.1 with
        | none => st
        | some target =>
          let target1 := { target with hp := max 0 (target.hp - pr0.damage) }
          let stA := setPlayer st hit.1 target1
          let kill := decide (target1.hp ≤ 0) && target.alive
          let stB :=
            if kill then
              updPlayer stA hit.1 (fun t =>
                { t with alive := false, stats := { t.stats with deaths := t.stats.deaths + 1 } })
            else stA
          creditOwner stB ownerId pr0.damage kill
      let prHit := quantizeProjectileState { pr0 with x := hit.2.1, y := hit.2.2, ttlMs := 50 }
      { st1 with projectiles := st1.projectiles ++ [prHit] }
    | none =>
      let pr1 := { pr0 with
        x := clamp (spawnX + pr0.vx * lagDt) minX maxX
        y := clamp (spawnY + pr0.vy * lagDt) minY maxY
        ttlMs := max 0 (pr0.ttlMs - appliedLagMs) }
      { st with projectiles := st.projectiles ++ [quantizeProjectileState pr1] }
  else
    { st with projectiles := st.projectiles ++ [quantizeProjectileState pr0] }

/-- One target of a nova burst (body of the nova loop in
fireSpecialWeapon). -/
def novaHitOne (prims : Prims) (acc : GameState) (pid : String) (p : Player)
    (tid : String) : GameState :=
  if tid = pid then acc
  else
    match acc.players.lookup tid with
    | none => acc
    | some target =>
      if target.alive = false then acc
      else
        let targetPos := getRewindPos target p.input.lagCompMs
        let d := prims.hypot (targetPos.1 - p.x) (targetPos.2 - p.y)
        if d ≤ CONFIG.novaRadius then
          let falloff := 1 - d / CONFIG.novaRadius * 0.5
          let dmg : ℚ := (jsRound (CONFIG.novaDamage * falloff) : ℚ)
          let target1 := { target with hp := max 0 (target.hp - dmg) }
          let acc1 := setPlayer acc tid target1
          let kill := decide (target1.hp ≤ 0) && target.alive
          let acc2 :=
            if kill then
              updPlayer acc1 tid (fun t =>
                { t with alive := false, stats := { t.stats with deaths := t.stats.deaths + 1 } })
            else acc1
          creditOwner acc2 pid dmg kill
        else acc

/-- Decrement specialUses and clear the special when exhausted, also
setting the given cooldown field updates (bomb and nova epilogues). -/
def consumeSpecialUse (st : GameState) (pid : String) (setCd : Player → Player) : GameState :=
  updPlayer st pid (fun q =>
    let q1 := setCd { q with specialUses := q.specialUses - 1 }
    if q1.specialUses ≤ 0 then { q1 with specialWeapon := none, specialUses := 0 } else q1)

/-- fireSpecialWeapon(state, pid, p): dispatch on the ship's special. -/
def fireSpecialWeapon (prims : Prims) (st : GameState) (pid : String) (p : Player) : GameState :=
  match p.specialWeapon with
  | none => st
  | some w =>
    if w = "bomb" then
      let muzzle := CONFIG.playerRadius + 1
      let pr : Projectile :=
        { id := "bomb:" ++ toString st.tick ++ ":" ++ pid
          ownerId := pid
          x := clamp (p.x + prims.cos p.angle * muzzle) CONFIG.projectileRadius
                 (st.arena.width - CONFIG.projectileRadius)
          y := clamp (p.y + prims.sin p.angle * muzzle) CONFIG.projectileRadius
                 (st.arena.height - CONFIG.projectileRadius)
          vx := prims.cos p.angle * CONFIG.bombSpeed
          vy := prims.sin p.angle * CONFIG.bombSpeed
          ttlMs := CONFIG.bombTtlMs
          fireSeq := p.input.fireSeq
          damage := CONFIG.bombDamage
          isBomb := true
          lagCompMs := p.input.lagCompMs }
      let st1 := { st with projectiles := st.projectiles ++ [quantizeProjectileState pr] }
      consumeSpecialUse st1 pid (fun q => { q with fireCooldownMs := CONFIG.fireCooldownMs * 2 })
    else if w = "nova" then
      if p.novaCooldownMs ≤ 0 then
        let st1 := (st.players.map Prod.fst).foldl (fun acc tid => novaHitOne prims acc pid p tid) st
        let st2 := { st1 with effects := st1.effects ++
          [{ type := "nova", x := p.x, y := p.y, radius := CONFIG.novaRadius,
             ownerId := pid, ttlMs := CONFIG.novaDurationMs }] }
        consumeSpecialUse st2 pid (fun q => { q with novaCooldownMs := CONFIG.fireCooldownMs * 3 })
      else st
    else st

/-- One target of the laser beam (body of the loop in applyLaserDamage). -/
def laserHitOne (prims : Prims) (acc : GameState) (pid : String) (p : Player)
    (dt : ℚ) (tid : String) : GameState :=
  if tid = pid then acc
  else
    match acc.players.lookup tid with
    | none => acc
    | some target =>
      if target.alive = false then acc
      else
        let targetPos := getRewindPos target p.input.lagCompMs
        let dx := targetPos.1 - p.x
        let dy := targetPos.2 - p.y
        let beamDirX := prims.cos p.angle
        let beamDirY := prims.sin p.angle
        let proj := dx * beamDirX + dy * beamDirY
        if proj < 0 ∨ CONFIG.laserRangeUnits < proj then acc
        else
          let perpDist := |dx * (-beamDirY) + dy * beamDirX|
          if CONFIG.laserWidthUnits / 2 + CONFIG.playerRadius < perpDist then acc
          else
            let dmg := CONFIG.laserDps * dt
            let target1 := { target with hp := max 0 (target.hp - dmg) }
            let acc1 := setPlayer acc tid target1
            let kill := decide (target1.hp ≤ 0) && target.alive
            let acc2 :=
              if kill then
                updPlayer acc1 tid (fun t =>
                  { t with alive := false, stats := { t.stats with deaths := t.stats.deaths + 1 } })
              else acc1
            creditOwner acc2 pid dmg kill

/-- applyLaserDamage(state, pid, p, dt). -/
def applyLaserDamage (prims : Prims) (st : GameState) (pid : String) (p : Player)
    (dt : ℚ) : GameState :=
  (st.players.map Prod.fst).foldl (fun acc tid => laserHitOne prims acc pid p dt tid) st

/-- The movement part of the per-ship tick step (steps a through h of the
loop body): steering, acceleration, drag, speed clamp, integration, arena
clamp, quantization, history recording, cooldown decay. -/
def movePlayer (prims : Prims) (dtMs dt : ℚ) (st : GameState) (p : Player) : Player :=
  let angle := normalizeAngle prims (p.angle + p.input.turn * CONFIG.turnRate * dt)
  let thrust := p.input.thrust
  let accel := if 0 < thrust then CONFIG.accelForward else CONFIG.accelReverse
  let vxA := if thrust ≠ 0 then p.vx + prims.cos angle * accel * thrust * dt else p.vx
  let vyA := if thrust ≠ 0 then p.vy + prims.sin angle * accel * thrust * dt else p.vy
  let drag := prims.exp (-CONFIG.linearDragPerSecond * dt)
  let vxB := vxA * drag
  let vyB := vyA * drag
  let speed := prims.hypot vxB vyB
  let vxC := if CONFIG.maxSpeed < speed then vxB * (CONFIG.maxSpeed / speed) else vxB
  let vyC := if CONFIG.maxSpeed < speed then vyB * (CONFIG.maxSpeed / speed) else vyB
  let pA := { p with angle := angle, vx := vxC, vy := vyC,
                     x := p.x + vxC * dt, y := p.y + vyC * dt }
  let pB := quantizePlayerState (clampPlayerToArena pA st)
  let pC := recordPosition pB
  { pC with fireCooldownMs := max 0 (pC.fireCooldownMs - dtMs),
            novaCooldownMs := max 0 (pC.novaCooldownMs - dtMs) }

/-- The firing step of the loop body (step i): dispatch to the special
weapon or spawn a standard projectile and arm the cooldown. -/
def firePhase (prims : Prims) (st1 : GameState) (pid : String) (p1 : Player) : GameState :=
  if p1.input.firePressed ∧ p1.fireCooldownMs ≤ 0 then
    if jsTruthyStr p1.specialWeapon ∧ 0 < p1.specialUses then
      fireSpecialWeapon prims st1 pid p1
    else
      let stS := spawnProjectile prims st1 pid p1 p1.input.lagCompMs p1.input.fireSeq
      updPlayer stS pid (fun q => { q with fireCooldownMs := CONFIG.fireCooldownMs })
  else st1

/-- The continuous laser block of the loop body (step j), reading the
then-current live ship. -/
def laserPhase (prims : Prims) (dtMs dt : ℚ) (st3 : GameState) (pid : String) : GameState :=
  match st3.players.lookup pid with
  | none => st3
  | some q =>
    if q.specialWeapon = some "laser" ∧ q.input.fire ∧ 0 < q.specialUses then
      let q1 := { q with laserActiveMs := q.laserActiveMs + dtMs }
      let stA := setPlayer st3 pid q1
      let stB := applyLaserDamage prims stA pid q1 dt
      if CONFIG.laserDurationMs ≤ q1.laserActiveMs then
        updPlayer stB pid (fun r =>
          let r1 := { r with specialUses := r.specialUses - 1, laserActiveMs := 0 }
          if r1.specialUses ≤ 0 then { r1 with specialWeapon := none, specialUses := 0 }
          else r1)
      else stB
    else updPlayer st3 pid (fun r => { r with laserActiveMs := 0 })

/-- One ship's slice of the tick loop: movement, firing, edge-flag
clearing, and the continuous laser block. -/
def tickOnePlayer (prims : Prims) (dtMs dt : ℚ) (st : GameState) (pid : String) : GameState :=
  match st.players.lookup pid with
  | none => st
  | some p =>
    if p.alive = false then st
    else
      let p1 := movePlayer prims dtMs dt st p
      let st1 := setPlayer st pid p1
      let st2 := firePhase prims st1 pid p1
      let st3 := updPlayer st2 pid (fun q =>
        { q with input := { q.input with firePressed := false, fireSeq := none } })
      laserPhase prims dtMs dt st3 pid

/-- One target of a bomb explosion (body of the loop in
triggerBombExplosion). -/
def bombHitOne (prims : Prims) (acc : GameState) (pr : Projectile) (pid : String) : GameState :=
  match acc.players.lookup pid with
  | none => acc
  | some p =>
    if p.alive = false then acc
    else
      let pos := if pid ≠ pr.ownerId then getRewindPos p pr.lagCompMs else (p.x, p.y)
      let d := prims.hypot (pos.1 - pr.x) (pos.2 - pr.y)
      if d ≤ CONFIG.bombRadius then
        let falloff := 1 - d / CONFIG.bombRadius * 0.6
        let dmg : ℚ := (jsRound (CONFIG.bombDamage * falloff) : ℚ)
        let actualDmg : ℚ := if pid = pr.ownerId then (jsRound (dmg * 0.5) : ℚ) else dmg
        let p1 := { p with hp := max 0 (p.hp - actualDmg) }
        let acc1 := setPlayer acc pid p1
        let kill := decide (p1.hp ≤ 0) && p.alive
        let acc2 :=
          if kill then
            updPlayer acc1 pid (fun t =>
              { t with alive := false, stats := { t.stats with deaths := t.stats.deaths + 1 } })
          else acc1
        if pid ≠ pr.ownerId then creditOwner acc2 pr.ownerId actualDmg kill else acc2
      else acc

/-- triggerBombExplosion(state, pr): splash damage with linear fall-off
(owner self-damage halved), then push an explosion effect. -/
def triggerBombExplosion (prims : Prims) (st : GameState) (pr : Projectile) : GameState :=
  let st1 := (st.players.map Prod.fst).foldl (fun acc pid => bombHitOne prims acc pr pid) st
  { st1 with effects := st1.effects ++
    [{ type := "explosion", x := pr.x, y := pr.y, radius := CONFIG.bombRadius,
       ownerId := pr.ownerId, ttlMs := 500 }] }

/-- One projectile's slice of updateProjectiles: ttl decay, integration,
bounds check, lag-compensated collision, and damage on hit.  The pair
accumulates (state, kept list). -/
def projStep (prims : Prims) (dtMs dt : ℚ) (acc : GameState × List Projectile)
    (pr0 : Projectile) : GameState × List Projectile :=
  let st := acc.1
  let kept := acc.2
  let prA : Projectile := { pr0 with ttlMs := pr0.ttlMs - dtMs }
  if prA.ttlMs ≤ 0 then
    (if prA.isBomb then triggerBombExplosion prims st prA else st, kept)
  else
    let prB : Projectile := { prA with x := prA.x + prA.vx * dt, y := prA.y + prA.vy * dt }
    if isOutOfArena prB.x prB.y st CONFIG.projectileRadius then
      (if prB.isBomb then triggerBombExplosion prims st prB else st, kept)
    else
      let prC := quantizeProjectileState prB
      let ownerLag := prC.lagCompMs
      match st.players.find? (fun t =>
          t.2.alive && (t.1 != prC.ownerId) &&
          (decide (distSq prC.x prC.y t.2.x t.2.y ≤ HIT_DIST_SQ) ||
           (decide (0 < ownerLag) &&
            decide (distSq prC.x prC.y (getRewindPos t.2 ownerLag).1
                      (getRewindPos t.2 ownerLag).2 ≤ HIT_DIST_SQ)))) with
      | none => (st, kept ++ [prC])
      | some t =>
        if prC.isBomb then (triggerBombExplosion prims st prC, kept)
        else
          let target := t.2
          let target1 := { target with hp := max 0 (target.hp - prC.damage) }
          let stA := setPlayer st t.1 target1
          let kill := decide (target1.hp ≤ 0) && target.alive
          let stB :=
            if kill then
              updPlayer stA t.1 (fun q =>
                { q with alive := false, stats := { q.stats with deaths := q.stats.deaths + 1 } })
            else stA
          (creditOwner stB prC.ownerId prC.damage kill, kept)

/-- updateProjectiles(state, dtMs). -/
def updateProjectiles (prims : Prims) (st : GameState) (dtMs : ℚ) : GameState :=
  let dt := dtMs / 1000
  let res := st.projectiles.foldl (projStep prims dtMs dt) (st, [])
  { res.1 with projectiles := res.2 }

/-- spawnPickups(state): every 120 ticks, up to 3, at positions and type
drawn from the seeded pseudo-random chain. -/
def spawnPickups (prims : Prims) (st : GameState) : GameState :=
  if st.tick % CONFIG.pickupSpawnEveryTicks ≠ 0 then st
  else if CONFIG.maxPickups ≤ st.pickups.length then st
  else
    let r1 := pseudoRandom prims (st.seed + (st.tick * 7919 : ℕ))
    let r2 := pseudoRandom prims (st.seed + (st.tick * 1543 : ℕ))
    let r3 := pseudoRandom prims (st.seed + (st.tick * 3571 : ℕ))
    let minX := CONFIG.pickupRadius + 5
    let maxX := st.arena.width - CONFIG.pickupRadius - 5
    let minY := CONFIG.pickupRadius + 5
    let maxY := st.arena.height - CONFIG.pickupRadius - 5
    let typeIndex := ((r3 * (PICKUP_TYPES.length : ℚ)).floor % (PICKUP_TYPES.length : ℤ)).toNat
    let pickupType := PICKUP_TYPES.getD typeIndex "laser"
    { st with pickups := st.pickups ++
      [{ id := "pu:" ++ toString st.tick ++ ":" ++ toString st.pickups.length
         x := roundState (minX + r1 * max 0.0001 (maxX - minX))
         y := roundState (minY + r2 * max 0.0001 (maxY - minY))
         type := pickupType
         value := CONFIG.specialUsesPerPickup }] }

/-- One pickup of the collectPickups loop: the first alive ship in range
collects it, otherwise it stays. -/
def collectOne (acc : GameState × List Pickup) (pu : Pickup) : GameState × List Pickup :=
  match acc.1.players.find? (fun t =>
      t.2.alive &&
      decide (distSq pu.x pu.y t.2.x t.2.y ≤
        (CONFIG.pickupRadius + CONFIG.playerRadius) ^ 2)) with
  | none => (acc.1, acc.2 ++ [pu])
  | some c =>
    (updPlayer acc.1 c.1 (fun col =>
      { col with specialWeapon := some pu.type, specialUses := pu.value,
                 laserActiveMs := 0,
                 stats := { col.stats with pickups := col.stats.pickups + 1 } }),
     acc.2)

/-- collectPickups(state): each pickup goes to the first alive ship in
range; the rest stay. -/
def collectPickups (st : GameState) : GameState :=
  let res := st.pickups.foldl collectOne (st, [])
  { res.1 with pickups := res.2 }

/-- Stable descending insertion by score (the JS Array.sort contract for
the comparator (a, b) => b.score - a.score; Array.sort is stable). -/
def insertDesc (x : String × ℚ) : List (String × ℚ) → List (String × ℚ)
  | [] => [x]
  | y :: ys => if y.2 < x.2 then x :: y :: ys else y :: insertDesc x ys

/-- Stable descending sort by score. -/
def sortByScoreDesc : List (String × ℚ) → List (String × ℚ)
  | [] => []
  | x :: xs => insertDesc x (sortByScoreDesc xs)

/-- resolveTerminal(state): elimination when at most one ship is alive,
else timeout ranking by hp when the clock has run out. -/
def resolveTerminal (st : GameState) : GameState :=
  let alive := (st.players.filter (fun t => t.2.alive)).map Prod.fst
  if alive.length ≤ 1 then
    { st with phase := "finished", winnerIds := alive, reason := some "elimination" }
  else if st.remainingMs ≤ 0 then
    let ranked := sortByScoreDesc (st.players.map (fun t => (t.1, t.2.hp)))
    let top := match ranked.head? with | some r => r.2 | none => 0
    { st with winnerIds := (ranked.filter (fun r => decide (|r.2 - top| < 0.0001))).map Prod.fst,
              phase := "finished", reason := some "timeout" }
  else st

/-- Clock bookkeeping at the top of tick: advance the tick counter and
count down the clock. -/
def advanceClock (st : GameState) (dtMs : ℚ) : GameState :=
  { st with tick := st.tick + 1, remainingMs := max 0 (st.remainingMs - dtMs) }

/-- Effect expiry at the top of tick. -/
def expireEffects (st : GameState) (dtMs : ℚ) : GameState :=
  let effs := (st.effects.map (fun e => { e with ttlMs := e.ttlMs - dtMs })).filter
    (fun e => decide (0 < e.ttlMs))
  { st with effects := effs }

/-- The per-ship loop of tick (Object.entries snapshots the key list at
loop entry; each iteration reads the then-current live objects). -/
def tickPlayers (prims : Prims) (dtMs dt : ℚ) (st : GameState) : GameState :=
  (st.players.map Prod.fst).foldl (fun acc pid => tickOnePlayer prims dtMs dt acc pid) st

/-- tick(state, dtMs): one full simulation step. -/
def tick (prims : Prims) (st : GameState) (dtMs : ℚ) : GameState :=
  if st.phase ≠ "playing" then st
  else
    let dt := dtMs / 1000
    resolveTerminal (collectPickups (spawnPickups prims
      (updateProjectiles prims (tickPlayers prims dtMs dt (expireEffects (advanceClock st dtMs) dtMs)) dtMs)))

/-! ## Server runtime (the 60 Hz entry point) -/

/-- A JSON-ish value as stored in a projected network entity.  undef models
a JS object property explicitly set to undefined (it is an own property and
participates in Object.keys and shallow comparison). -/
inductive NV where
  | num (q : ℚ)
  | str (s : String)
  | bool (b : Bool)
  | undef
  deriving DecidableEq

/-- A projected network entity: a JS object literal, i.e. an ordered list
of (key, value) properties with distinct keys. -/
abbrev Entity := List (String × NV)

/-- JS x || d for numbers (0 and NaN are falsy; NaN is not representable in
the rational model). -/
def jsOrNum (q d : ℚ) : ℚ := if q = 0 then d else q

/-- JS s || d for strings (the empty string is falsy). -/
def jsOrStr (s d : String) : String := if s = "" then d else s

/-- MAX_LAG_COMP_MS of the room runtime. -/
def MAX_LAG_COMP_MS : ℚ := 120

/-- MAX_CLIENT_INPUT_AGE_MS of the room runtime. -/
def MAX_CLIENT_INPUT_AGE_MS : ℚ := 2000

/-- MIN_PLAYERS. -/
def MIN_PLAYERS : ℕ := 2

/-- The per-player projection inside toNetworkState. -/
def toNetPlayer (pid : String) (p : Player) : Entity :=
  [("id", NV.str (jsOrStr p.id pid)),
   ("x", NV.num p.x),
   ("y", NV.num p.y),
   ("vx", NV.num p.vx),
   ("vy", NV.num p.vy),
   ("angle", NV.num p.angle),
   ("hp", NV.num p.hp),
   ("shield", NV.num p.shield),
   ("weaponLevel", NV.num (jsOrNum p.weaponLevel 1)),
   ("alive", NV.bool p.alive)]

/-- The per-projectile projection inside toNetworkState; fireSeq is kept as
an own property even when undefined. -/
def toNetProjectile (x : Projectile) : Entity :=
  [("id", NV.str x.id),
   ("ownerId", NV.str x.ownerId),
   ("x", NV.num x.x),
   ("y", NV.num x.y),
   ("vx", NV.num x.vx),
   ("vy", NV.num x.vy),
   ("ttlMs", NV.num x.ttlMs),
   ("fireSeq", match x.fireSeq with | some n => NV.num n | none => NV.undef)]

/-- The per-pickup projection inside toNetworkState. -/
def toNetPickup (x : Pickup) : Entity :=
  [("id", NV.str x.id),
   ("x", NV.num x.x),
   ("y", NV.num x.y),
   ("type", NV.str x.type)]

/-- A projected network state. -/
structure NetState where
  phase : String
  tick : ℚ
  remainingMs : ℚ
  players : List (String × Entity)
  projectiles : List Entity
  pickups : List Entity
  deriving DecidableEq

/-- toNetworkState(state): the network projection broadcast in
state_snapshot frames and diffed for state_delta frames. -/
def toNetworkState (st : GameState) : NetState :=
  { phase := jsOrStr st.phase "playing"
    tick := (st.tick : ℚ)
    remainingMs := st.remainingMs
    players := st.players.map (fun t => (t.1, toNetPlayer t.1 t.2))
    projectiles := st.projectiles.map toNetProjectile
    pickups := st.pickups.map toNetPickup }

/-- shallowEqualEntity(a, b): same number of keys, and b has every key of a
with an identical value.  (The a === b fast path of the source agrees with
this on the rational model.) -/
def shallowEqualEntity (a b : Entity) : Bool :=
  (a.length = b.length : Bool) &&
  a.all (fun kv => match b.lookup kv.1 with
    | some v => v = kv.2
    | none => false)

/-- The id of an entity, as used by entityMapById (ids of projected
entities are always strings). -/
def entityId (e : Entity) : Option String :=
  match e.lookup "id" with
  | some (NV.str s) => some s
  | _ => none

/-- entityMapById(items): an insertion-ordered map keyed by String(item.id),
skipping items without an id; later duplicates overwrite in place. -/
def entityMapById (items : List Entity) : List (String × Entity) :=
  items.foldl (fun out item =>
    (entityId item).elim out (fun i => setV i item out)) []

/-- The changed_entities object of a delta. -/
structure DeltaChanged where
  phase : Option String
  tick : Option ℚ
  remainingMs : Option ℚ
  players : Option (List (String × Entity))
  projectiles : Option (List Entity)
  pickups : Option (List Entity)
  deriving DecidableEq

/-- A delta frame body: changed_entities plus removed_entities
(projectile and pickup id lists). -/
structure Delta where
  changed_entities : DeltaChanged
  removed_projectiles : List String
  removed_pickups : List String
  deriving DecidableEq

/-- buildDelta(prevState, nextState). -/
def buildDelta (prevState : Option NetState) (nextState : NetState) : Delta :=
  match prevState with
  | none =>
    { changed_entities :=
      { phase := some nextState.phase
        tick := some nextState.tick
        remainingMs := some nextState.remainingMs
        players := some nextState.players
        projectiles := some nextState.projectiles
        pickups := some nextState.pickups }
      removed_projectiles := []
      removed_pickups := [] }
  | some prev =>
    let phase := if prev.phase ≠ nextState.phase then some nextState.phase else none
    let tick := if prev.tick ≠ nextState.tick then some nextState.tick else none
    let remainingMs :=
      if prev.remainingMs ≠ nextState.remainingMs then some nextState.remainingMs else none
    let playerPatch := nextState.players.filter (fun t =>
      ((prev.players.lookup t.1).map (fun pe => !(shallowEqualEntity pe t.2))).getD true)
    let players := if playerPatch.length ≠ 0 then some playerPatch else none
    let prevProj := entityMapById prev.projectiles
    let nextProj := entityMapById nextState.projectiles
    let projectilePatch := (nextProj.filter (fun t =>
      ((prevProj.lookup t.1).map (fun pe => !(shallowEqualEntity pe t.2))).getD true)).map
        Prod.snd
    let removedProj := (prevProj.filter (fun t => (nextProj.lookup t.1).isNone)).map Prod.fst
    let prevPu := entityMapById prev.pickups
    let nextPu := entityMapById nextState.pickups
    let pickupPatch := (nextPu.filter (fun t =>
      ((prevPu.lookup t.1).map (fun pe => !(shallowEqualEntity pe t.2))).getD true)).map
        Prod.snd
    let removedPu := (prevPu.filter (fun t => (nextPu.lookup t.1).isNone)).map Prod.fst
    { changed_entities :=
      { phase := phase
        tick := tick
        remainingMs := remainingMs
        players := players
        projectiles := if projectilePatch.length ≠ 0 then some projectilePatch else none
        pickups := if pickupPatch.length ≠ 0 then some pickupPatch else none }
      removed_projectiles := removedProj
      removed_pickups := removedPu }

/-- Delta application as described by the specification round-trip law:
replace scalar fields present in changed_entities, merge the player patch,
upsert changed projectiles and pickups by id, drop ids listed in
removed_entities.  (The server itself never applies deltas; this definition
follows the specification's words and is compared against buildDelta.) -/
def mergePatch (prev patch : List (String × Entity)) : List (String × Entity) :=
  (prev.map (fun t =>
    ((patch.lookup t.1).map (fun e => (t.1, e))).getD t)) ++
  patch.filter (fun t => (prev.lookup t.1).isNone)

/-- Upsert-by-id application for an id-keyed collection, per the
specification round-trip law. -/
def applyCollectionDelta (prev patch : List Entity) (removed : List String) : List Entity :=
  ((prev.filter (fun e =>
    ((entityId e).map (fun i => !(removed.contains i))).getD true)).map (fun e =>
      ((entityId e).map (fun i =>
        (patch.find? (fun c => entityId c == some i)).getD e)).getD e)) ++
  patch.filter (fun c =>
    ((entityId c).map (fun i => !(prev.any (fun e => entityId e == some i)))).getD true)

/-- applyDelta(prev, delta), per the specification round-trip law. -/
def applyDelta (prev : NetState) (d : Delta) : NetState :=
  { phase := d.changed_entities.phase.getD prev.phase
    tick := d.changed_entities.tick.getD prev.tick
    remainingMs := d.changed_entities.remainingMs.getD prev.remainingMs
    players := mergePatch prev.players (d.changed_entities.players.getD [])
    projectiles := applyCollectionDelta prev.projectiles
      (d.changed_entities.projectiles.getD []) d.removed_projectiles
    pickups := applyCollectionDelta prev.pickups
      (d.changed_entities.pickups.getD []) d.removed_pickups }

/-- The latest-input slot stored by the room runtime. -/
structure RoomInput where
  turn : ℚ
  thrust : ℚ
  fire : Bool
  fire_pressed : Bool
  lag_comp_ms : ℚ
  deriving DecidableEq

/-- The wire payload fields read by enqueueInput. -/
structure EnqueuePayload where
  turn : ℚ
  thrust : ℚ
  fire : Bool
  fire_pressed : Bool
  client_sent_at_ms : ℚ
  deriving DecidableEq

/-- The result object returned by enqueueInput. -/
structure EnqueueResult where
  accepted : Bool
  reason : Option String
  deriving DecidableEq

/-- The RoomRuntime fields relevant to input admission, joining and
broadcast (scheduler handles and wall-clock timestamps are outside the
model; sessions map session id to (user id, socket handle id)). -/
structure RoomRuntime where
  roomId : String
  serviceId : Option String
  minPlayers : ℕ
  sessions : List (String × String × String)
  connectedUserIds : List String
  running : Bool
  finished : Bool
  serverTick : ℕ
  networkTick : ℕ
  state : Option GameState
  latestInputByUser : List (String × RoomInput)
  lastSeqByUser : List (String × ℚ)
  ackSeqByPlayer : List (String × ℚ)
  smoothedLagByUser : List (String × ℚ)
  deriving DecidableEq

/-- Insertion-ordered set insertion (JS Set.add). -/
def addSet (l : List String) (x : String) : List String :=
  if l.contains x then l else l ++ [x]

/-- A fresh RoomRuntime (the constructor). -/
def newRoomRuntime (roomId : String) (serviceId : Option String) : RoomRuntime :=
  { roomId := roomId, serviceId := serviceId, minPlayers := MIN_PLAYERS,
    sessions := [], connectedUserIds := [], running := false, finished := false,
    serverTick := 0, networkTick := 0, state := none,
    latestInputByUser := [], lastSeqByUser := [], ackSeqByPlayer := [],
    smoothedLagByUser := [] }

/-- upsertSession(sessionId, userId, ws): register the session, add the
user, reset the sequence gates to 0, and seed an input slot if absent. -/
def upsertSession (r : RoomRuntime) (sessionId userId ws : String) : RoomRuntime :=
  { r with
    sessions := setV sessionId (userId, ws) r.sessions
    connectedUserIds := addSet r.connectedUserIds userId
    lastSeqByUser := setV userId 0 r.lastSeqByUser
    ackSeqByPlayer := setV userId 0 r.ackSeqByPlayer
    latestInputByUser :=
      if (r.latestInputByUser.lookup userId).isSome then r.latestInputByUser
      else
        setV userId
          ({ turn := 0, thrust := 0, fire := false, fire_pressed := false,
             lag_comp_ms := 0 } : RoomInput)
          r.latestInputByUser }

/-- enqueueInput(userId, seq, payload) at wall-clock time now. -/
def enqueueInput (r : RoomRuntime) (userId : String) (seq : ℚ)
    (payload : EnqueuePayload) (now : ℚ) : RoomRuntime × EnqueueResult :=
  if !r.running || r.finished then
    (r, { accepted := false, reason := some "ROOM_NOT_RUNNING" })
  else
    let safeSeq := seq
    let lastSeq := (r.lastSeqByUser.lookup userId).getD 0
    if safeSeq ≤ lastSeq then
      (r, { accepted := false, reason := some "STALE_INPUT" })
    else
      let r1 := { r with lastSeqByUser := setV userId safeSeq r.lastSeqByUser,
                         ackSeqByPlayer := setV userId safeSeq r.ackSeqByPlayer }
      let clientSentAtMs := payload.client_sent_at_ms
      let lagCompMs0 := (r1.smoothedLagByUser.lookup userId).getD 0
      let upd :=
        if 0 < clientSentAtMs then
          let ageMs := now - clientSentAtMs
          if 0 ≤ ageMs ∧ ageMs ≤ MAX_CLIENT_INPUT_AGE_MS then
            let prev := (r1.smoothedLagByUser.lookup userId).getD ageMs
            let l := max 0 (min MAX_LAG_COMP_MS (prev * 0.8 + ageMs * 0.2))
            (l, { r1 with smoothedLagByUser := setV userId l r1.smoothedLagByUser })
          else (lagCompMs0, r1)
        else (lagCompMs0, r1)
      let r2 := upd.2
      let slot : RoomInput :=
        { turn := payload.turn, thrust := payload.thrust, fire := payload.fire,
          fire_pressed := payload.fire_pressed, lag_comp_ms := upd.1 }
      ({ r2 with latestInputByUser := setV userId slot r2.latestInputByUser },
       { accepted := true, reason := none })

/-- An outbound frame, restricted to the payload fields the claims are
about (the static deploy-profile fields are constants and omitted). -/
inductive Frame where
  | joined (room_id : String) (player_id : String) (player_ids : List String)
      (waiting_for : ℕ)
  | player_joined (room_id : String) (player_id : String) (player_ids : List String)
      (waiting_for : ℕ)
  | game_start (room_id : String) (player_ids : List String)
  | error (code : String) (reason : Option String)
  deriving DecidableEq

/-- maybeStart(): start the match once enough players are connected,
broadcasting game_start.  The room-id hash (sha256 prefix) is passed in as
a pure function parameter. -/
def maybeStart (prims : Prims) (hash : String → ℚ) (r : RoomRuntime) :
    RoomRuntime × List Frame :=
  if r.running || r.finished then (r, [])
  else if r.connectedUserIds.length < r.minPlayers then (r, [])
  else
    let players := r.connectedUserIds.take 2
    ({ r with state := some (initState prims players (hash r.roomId)),
              running := true, serverTick := 0, networkTick := 0 },
     [Frame.game_start r.roomId players])

/-- The join branch of handleMessage: get or create the room, upsert the
session, reply joined, broadcast player_joined, and maybeStart.  Returns
(room after, frames sent to the joining socket, frames broadcast to the
room). -/
def handleJoin (prims : Prims) (hash : String → ℚ) (roomOpt : Option RoomRuntime)
    (sessRoomId sessUserId sessSessionId : String) (sessServiceId : Option String)
    (ws : String) : RoomRuntime × List Frame × List Frame :=
  let room :=
    match roomOpt with
    | some r => r
    | none => newRoomRuntime sessRoomId sessServiceId
  let room := upsertSession room sessSessionId sessUserId ws
  let waitingFor : ℕ := room.minPlayers - room.connectedUserIds.length
  let joinedFrame := Frame.joined room.roomId sessUserId room.connectedUserIds waitingFor
  let bj := Frame.player_joined room.roomId sessUserId room.connectedUserIds waitingFor
  let res := maybeStart prims hash room
  (res.1, [joinedFrame], [bj] ++ res.2)

/-- The input branch of handleMessage: forward to enqueueInput; the result
object is discarded and no reply frame is sent.  Returns (room after,
frames sent to the sending socket). -/
def handleInput (roomOpt : Option RoomRuntime) (userId : String) (seq : ℚ)
    (payload : EnqueuePayload) (now : ℚ) : Option RoomRuntime × List Frame :=
  match roomOpt with
  | none => (none, [])
  | some room =>
    let res := enqueueInput room userId seq payload now
    (some res.1, [])

/-- A rational is on the 1/10000 quantization grid. -/
def isQuantized (q : ℚ) : Prop := ∃ n : ℤ, q = (n : ℚ) / STATE_PRECISION

instance (q : ℚ) : Decidable (isQuantized q) :=
  decidable_of_iff ((q * STATE_PRECISION).den = 1) (by
    constructor
    · intro h
      refine ⟨(q * STATE_PRECISION).num, ?_⟩
      have hq : ((q * STATE_PRECISION).num : ℚ) = q * STATE_PRECISION := by
        rw [← Rat.den_eq_one_iff]
        exact h
      have hne : STATE_PRECISION ≠ 0 := by norm_num [STATE_PRECISION]
      field_simp
      linarith [hq]
    · rintro ⟨n, rfl⟩
      have : STATE_PRECISION ≠ 0 := by norm_num [STATE_PRECISION]
      rw [div_mul_cancel₀ _ this]
      exact Rat.den_intCast n)

/-! ## Concrete fixtures used by witnesses and counterexamples -/

/-- A concrete, computable instantiation of the abstract primitives
(hypot is the taxicab norm, which satisfies every analytic hypothesis the
invariant theorems place on Math.hypot). -/
def prims0 : Prims :=
  { sin := fun _ => 0, cos := fun _ => 0, exp := fun _ => 1,
    hypot := fun a b => |a| + |b|, pi := 355/113, rand := fun _ => "aaaaa" }

/-- prims0 with a different Math.random stream (same physics). -/
def prims1 : Prims := { prims0 with rand := fun _ => "bbbbb" }

/-- A concrete running room with one user whose last accepted seq is 3. -/
def room0 : RoomRuntime :=
  { newRoomRuntime "r" none with
    running := true,
    sessions := [("S", ("u", "w"))],
    connectedUserIds := ["u"],
    latestInputByUser := [("u", { turn := 0, thrust := 0, fire := false,
                                  fire_pressed := false, lag_comp_ms := 0 })],
    lastSeqByUser := [("u", 3)],
    ackSeqByPlayer := [("u", 3)] }

/-- A neutral input payload. -/
def payload0 : EnqueuePayload :=
  { turn := 0, thrust := 0, fire := false, fire_pressed := false, client_sent_at_ms := 0 }

/-! ## C6: a second join with the same session id -/

/-- A concrete running two-player room in which user u1 has session S and
last accepted seq 5. -/
def roomJ : RoomRuntime :=
  { roomId := "r", serviceId := none, minPlayers := 2,
    sessions := [("S", ("u1", "w1")), ("T", ("u2", "w2"))],
    connectedUserIds := ["u1", "u2"], running := true, finished := false,
    serverTick := 3, networkTick := 3,
    state := some (initState prims0 ["u1", "u2"] 1),
    latestInputByUser := [("u1", { turn := 0, thrust := 0, fire := false,
                                   fire_pressed := false, lag_comp_ms := 0 }),
                          ("u2", { turn := 0, thrust := 0, fire := false,
                                   fire_pressed := false, lag_comp_ms := 0 })],
    lastSeqByUser := [("u1", 5), ("u2", 2)],
    ackSeqByPlayer := [("u1", 5), ("u2", 2)],
    smoothedLagByUser := [] }

/-! ## C10: the network projection field whitelist -/

/-- The exact player fields emitted by toNetworkState. -/
def netPlayerKeys : List String :=
  ["id", "x", "y", "vx", "vy", "angle", "hp", "shield", "weaponLevel", "alive"]

/-- Server-only data that must never reach a state frame. -/
def serverOnlyFields : List String :=
  ["specialWeapon", "specialUses", "laserActiveMs", "novaCooldownMs",
   "fireCooldownMs", "stats", "posHistory", "input", "effects"]

/-! ## C9: quantization of the fields mutated by tick -/

/-- Equality of the five kinematic fields (position, velocity, angle). -/
def fiveEq (p q : Player) : Prop :=
  q.x = p.x ∧ q.y = p.y ∧ q.vx = p.vx ∧ q.vy = p.vy ∧ q.angle = p.angle

/-- The five kinematic fields are on the quantization grid. -/
def fiveQuant (q : Player) : Prop :=
  isQuantized q.x ∧ isQuantized q.y ∧ isQuantized q.vx ∧ isQuantized q.vy ∧
  isQuantized q.angle

/-- The kinematic fields of every ship entry after a step are either carried
over from a same-id entry before the step or quantized. -/
def KinPres (b a : GameState) : Prop :=
  ∀ t2 ∈ a.players, (∃ p, (t2.1, p) ∈ b.players ∧ fiveEq p t2.2) ∨ fiveQuant t2.2

/-- The four float fields of a projectile are on the quantization grid. -/
def projQuant (pr : Projectile) : Prop :=
  isQuantized pr.x ∧ isQuantized pr.y ∧ isQuantized pr.vx ∧ isQuantized pr.vy

/-- A fire-pressed payload used by concrete runs. -/
def firePayload0 : InputPayload :=
  { turn := 0, thrust := 0, fire := true, fire_pressed := true,
    fire_seq := none, lag_comp_ms := 0 }

/-- A concrete previous network state for the delta round trip. -/
def c7prev : NetState :=
  { phase := "playing"
    tick := 3
    remainingMs := 1000
    players := [("a", [("id", NV.str "a"), ("hp", NV.num 100)])]
    projectiles := [[("id", NV.str "p1"), ("x", NV.num 1)],
      [("id", NV.str "p2"), ("x", NV.num 2)]]
    pickups := [] }

/-- A concrete next network state: one player field changed, projectile p1
expired, p2 moved, p3 spawned, pickup u1 spawned. -/
def c7next : NetState :=
  { phase := "playing"
    tick := 4
    remainingMs := 900
    players := [("a", [("id", NV.str "a"), ("hp", NV.num 80)])]
    projectiles := [[("id", NV.str "p2"), ("x", NV.num 5)],
      [("id", NV.str "p3"), ("x", NV.num 7)]]
    pickups := [[("id", NV.str "u1"), ("x", NV.num 0)]] }

/-! ## C2: reachable-state ship invariants -/

/-- Analytic properties of Math.hypot assumed by the invariant theorem
(all satisfied by the Euclidean norm and by the taxicab stand-in of the
concrete fixtures). -/
structure HypotOK (prims : Prims) : Prop where
  nonneg : ∀ a b, 0 ≤ prims.hypot a b
  le_abs : ∀ a b, prims.hypot a b ≤ |a| + |b|
  homog : ∀ a b s, 0 ≤ s → prims.hypot (a * s) (b * s) = s * prims.hypot a b
  subadd : ∀ a b c d, prims.hypot (a + c) (b + d) ≤ prims.hypot a b + prims.hypot c d
  mono : ∀ a b c d, |a| ≤ |c| → |b| ≤ |d| → prims.hypot a b ≤ prims.hypot c d

/-- The per-ship invariant: hit points in [0, maxHp], speed at most
maxSpeed plus one quantization step, position inside the arena box minus
the player radius. -/
def POKP (prims : Prims) (p : Player) : Prop :=
  0 ≤ p.hp ∧ p.hp ≤ CONFIG.maxHp ∧
  prims.hypot p.vx p.vy ≤ CONFIG.maxSpeed + 1 / 10000 ∧
  CONFIG.playerRadius ≤ p.x ∧ p.x ≤ CONFIG.arenaWidth - CONFIG.playerRadius ∧
  CONFIG.playerRadius ≤ p.y ∧ p.y ≤ CONFIG.arenaHeight - CONFIG.playerRadius

/-- The world invariant: the 100 by 100 arena, every ship entry POKP, and
every live projectile carrying non-negative damage. -/
def WorldOK (prims : Prims) (st : GameState) : Prop :=
  st.arena.width = CONFIG.arenaWidth ∧ st.arena.height = CONFIG.arenaHeight ∧
  (∀ t ∈ st.players, POKP prims t.2) ∧ (∀ pr ∈ st.projectiles, 0 ≤ pr.damage)

/-- The states reachable from initState by applyInput calls and tick calls
with non-negative frame times (the room runtime always passes the elapsed
wall-clock milliseconds). -/
inductive Reachable (prims : Prims) : GameState → Prop
  | init (ids : List String) (seed : ℚ) : Reachable prims (initState prims ids seed)
  | input (st : GameState) (pid : String) (payload : InputPayload) :
      Reachable prims st → Reachable prims (applyInput st pid payload)
  | tick (st : GameState) (dtMs : ℚ) (hdt : 0 ≤ dtMs) :
      Reachable prims st → Reachable prims (tick prims st dtMs)

/-! ## C1: run-to-run determinism -/

/-- One externally observable simulation event: an applyInput call or a
tick(dtMs) call. -/
inductive SimStep where
  | input (pid : String) (payload : InputPayload)
  | tick (dtMs : ℚ)

/-- Apply one event to the state. -/
def runStep (prims : Prims) (st : GameState) : SimStep → GameState
  | SimStep.input pid payload => applyInput st pid payload
  | SimStep.tick dtMs => tick prims st dtMs

/-- A full run: initState followed by the event sequence. -/
def runSim (prims : Prims) (playerIds : List String) (seed : ℚ)
    (steps : List SimStep) : GameState :=
  steps.foldl (runStep prims) (initState prims playerIds seed)

/-- Replace a projectile's id string. -/
def setId (pr : Projectile) (i : String) : Projectile := { pr with id := i }

/-- Replace a state's projectile list. -/
def setProj (st : GameState) (P : List Projectile) : GameState :=
  { st with projectiles := P }

/-- Two projectiles equal in every field except possibly the
Math.random-derived id string. -/
def prEq (a b : Projectile) : Prop := b = setId a b.id

/-- Two world states bit-identical except possibly in their projectiles'
id strings: same projectile count and order, all other projectile fields
equal, and every non-projectile state component equal. -/
def SEq (a b : GameState) : Prop :=
  b = setProj a b.projectiles ∧ List.Forall₂ prEq a.projectiles b.projectiles

/-! ## Theorems -/

/-! ## Shared lemmas -/

theorem lookup_cons {β : Type} (a : String) (k : String) (b : β) (tl : List (String × β)) :
    ((k, b) :: tl).lookup a = if a = k then some b else tl.lookup a := by
  by_cases h : a = k
  · have hb : (a == k) = true := beq_iff_eq.mpr h
    simp [List.lookup, hb, h]
  · have hb : (a == k) = false := beq_eq_false_iff_ne.mpr h
    simp [List.lookup, hb, h]

theorem lookup_setV {β : Type} (k : String) (v : β) (l : List (String × β)) (k2 : String) :
    (setV k v l).lookup k2 = if k2 = k then some v else l.lookup k2 := by
  induction l with
  | nil =>
    by_cases h : k2 = k <;> simp [setV, lookup_cons, h]
  | cons hd tl ih =>
    cases hd with
    | mk a b =>
      by_cases h : a = k
      · subst h
        by_cases h2 : k2 = a <;> simp [setV, lookup_cons, h2]
      · by_cases h2 : k2 = a
        · have hk : ¬k2 = k := fun hc => h ((h2.symm.trans hc))
          simp [setV, h, lookup_cons, h2, hk]
        · simp [setV, h, lookup_cons, h2, ih]

theorem setV_eq_of_lookup {β : Type} (k : String) (v : β) (l : List (String × β))
    (h : l.lookup k = some v) : setV k v l = l := by
  induction l with
  | nil => simp [List.lookup] at h
  | cons hd tl ih =>
    cases hd with
    | mk a b =>
      by_cases h2 : a = k
      · subst h2
        rw [lookup_cons] at h
        simp at h
        simp [setV, h]
      · have h3 : ¬k = a := fun hc => h2 hc.symm
        rw [lookup_cons] at h
        simp [h3] at h
        simp [setV, h2, ih h]

theorem lookup_updV {β : Type} (k : String) (f : β → β) (l : List (String × β)) (k2 : String) :
    (updV k f l).lookup k2 =
      if k2 = k then (l.lookup k).map f else l.lookup k2 := by
  unfold updV
  cases hl : l.lookup k with
  | none =>
    by_cases h : k2 = k <;> simp [h, hl]
  | some v =>
    by_cases h : k2 = k <;> simp [lookup_setV, h, hl]

theorem clamp_mem (v lo hi : ℚ) (h : lo ≤ hi) : lo ≤ clamp v lo hi ∧ clamp v lo hi ≤ hi := by
  unfold clamp
  constructor
  · exact le_max_left lo (min hi v)
  · exact max_le h (min_le_left hi v)

theorem isQuantized_roundState (v : ℚ) : isQuantized (roundState v) :=
  ⟨jsRound (v * STATE_PRECISION), rfl⟩

/-! ## C4: applyInput clamping -/

/-- C4 counterexample: applyInput with payload lag_comp_ms = 200 stores
lag-comp 200, which is not within the claimed clamp range [0, 120]
(CONFIG.maxLagCompensationMs is 400, not 120). -/
theorem applyInput_lag_counterexample :
    ((applyInput (initState prims0 ["a", "b"] 7) "a"
        { turn := 0, thrust := 0, fire := false, fire_pressed := false,
          fire_seq := none, lag_comp_ms := 200 }).players.lookup "a").map
      (fun p => p.input.lagCompMs) = some 200 ∧ ¬((200 : ℚ) ≤ 120) := by
  constructor
  · decide
  · norm_num

/-- C4 (amended): for every world, user id and payload, applyInput stores
an input snapshot whose turn and thrust are clamped to [-1, 1] and whose
lag-comp is clamped to [0, CONFIG.maxLagCompensationMs] (= 400 ms, not the
claimed 120 ms), touching nothing but the ship's input slot; it is a no-op
(world unchanged) if the ship is absent or not alive. -/
theorem applyInput_clamps_and_noop (st : GameState) (pid : String) (payload : InputPayload) :
    (st.players.lookup pid = none → applyInput st pid payload = st) ∧
    (∀ p, st.players.lookup pid = some p → p.alive = false → applyInput st pid payload = st) ∧
    (∀ p, st.players.lookup pid = some p → p.alive = true →
      ∃ i2 : Input,
        applyInput st pid payload = setPlayer st pid { p with input := i2 } ∧
        -1 ≤ i2.turn ∧ i2.turn ≤ 1 ∧ -1 ≤ i2.thrust ∧ i2.thrust ≤ 1 ∧
        0 ≤ i2.lagCompMs ∧ i2.lagCompMs ≤ CONFIG.maxLagCompensationMs ∧
        i2.fire = payload.fire ∧ i2.firePressed = payload.fire_pressed) := by
  refine ⟨?_, ?_, ?_⟩
  · intro h
    simp [applyInput, h]
  · intro p hp ha
    simp [applyInput, hp, ha]
  · intro p hp ha
    refine ⟨{ turn := clamp payload.turn (-1) 1
              thrust := clamp payload.thrust (-1) 1
              fire := payload.fire
              firePressed := payload.fire_pressed
              fireSeq := match payload.fire_seq with
                | some q => if 0 < q then some q.floor else none
                | none => none
              lagCompMs := clamp payload.lag_comp_ms 0 CONFIG.maxLagCompensationMs },
      ?_, ?_, ?_, ?_, ?_, ?_, ?_, rfl, rfl⟩
    · simp [applyInput, hp, ha]
    · exact (clamp_mem payload.turn (-1) 1 (by norm_num)).1
    · exact (clamp_mem payload.turn (-1) 1 (by norm_num)).2
    · exact (clamp_mem payload.thrust (-1) 1 (by norm_num)).1
    · exact (clamp_mem payload.thrust (-1) 1 (by norm_num)).2
    · exact (clamp_mem payload.lag_comp_ms 0 CONFIG.maxLagCompensationMs
        (by norm_num [CONFIG.maxLagCompensationMs])).1
    · exact (clamp_mem payload.lag_comp_ms 0 CONFIG.maxLagCompensationMs
        (by norm_num [CONFIG.maxLagCompensationMs])).2

/-- C4 witness: the amended theorem applied at a concrete world. -/
theorem applyInput_clamps_and_noop_witness :
    ∃ i2 : Input,
      applyInput (initState prims0 ["a", "b"] 7) "a"
          { turn := 5, thrust := -7, fire := true, fire_pressed := true,
            fire_seq := none, lag_comp_ms := 999 } =
        setPlayer (initState prims0 ["a", "b"] 7) "a"
          { mkSpawnPlayer "a" 18 50 0 with input := i2 } ∧
      -1 ≤ i2.turn ∧ i2.turn ≤ 1 ∧ -1 ≤ i2.thrust ∧ i2.thrust ≤ 1 ∧
      0 ≤ i2.lagCompMs ∧ i2.lagCompMs ≤ CONFIG.maxLagCompensationMs ∧
      i2.fire = true ∧ i2.firePressed = true := by
  have h := (applyInput_clamps_and_noop (initState prims0 ["a", "b"] 7) "a"
    { turn := 5, thrust := -7, fire := true, fire_pressed := true,
      fire_seq := none, lag_comp_ms := 999 }).2.2
    (mkSpawnPlayer "a" 18 50 0) (by decide) (by decide)
  exact h

/-! ## C5: enqueueInput admission -/

/-- On acceptance, enqueueInput updates exactly the two sequence gates, the
smoothed-lag entry and the latest-input slot. -/
theorem enqueueInput_accept_shape (r : RoomRuntime) (userId : String) (seq : ℚ)
    (payload : EnqueuePayload) (now : ℚ)
    (hrun : r.running = true) (hfin : r.finished = false)
    (hseq : ¬ seq ≤ (r.lastSeqByUser.lookup userId).getD 0) :
    ∃ lag sm, enqueueInput r userId seq payload now =
      ({ r with lastSeqByUser := setV userId seq r.lastSeqByUser,
                ackSeqByPlayer := setV userId seq r.ackSeqByPlayer,
                smoothedLagByUser := sm,
                latestInputByUser := setV userId
                  ({ turn := payload.turn, thrust := payload.thrust, fire := payload.fire,
                     fire_pressed := payload.fire_pressed, lag_comp_ms := lag } : RoomInput)
                  r.latestInputByUser },
       { accepted := true, reason := none }) := by
  simp only [enqueueInput, hrun, hfin, Bool.not_true, Bool.or_false, Bool.false_eq_true,
    if_false, if_neg hseq]
  split
  · split
    · exact ⟨_, _, rfl⟩
    · exact ⟨_, _, rfl⟩
  · exact ⟨_, _, rfl⟩

/-- C5: an input is accepted iff the room is running, not finished, and seq
strictly exceeds the user's last accepted sequence; a non-running (or
finished) room rejects with ROOM_NOT_RUNNING, a non-increasing seq rejects
with STALE_INPUT; on acceptance both lastSeqByUser and ackSeqByPlayer are
set to seq (so the acknowledged sequence strictly increases, since the two
gates always agree) and the latest-input slot is replaced; on rejection the
room state is unchanged. -/
theorem enqueueInput_admission (r : RoomRuntime) (userId : String) (seq : ℚ)
    (payload : EnqueuePayload) (now : ℚ) :
    ((enqueueInput r userId seq payload now).2.accepted = true ↔
      (r.running = true ∧ r.finished = false ∧ (r.lastSeqByUser.lookup userId).getD 0 < seq)) ∧
    ((r.running = false ∨ r.finished = true) →
      (enqueueInput r userId seq payload now).2.reason = some "ROOM_NOT_RUNNING") ∧
    (r.running = true → r.finished = false →
      seq ≤ (r.lastSeqByUser.lookup userId).getD 0 →
      (enqueueInput r userId seq payload now).2.reason = some "STALE_INPUT") ∧
    ((enqueueInput r userId seq payload now).2.accepted = false →
      (enqueueInput r userId seq payload now).1 = r) ∧
    ((enqueueInput r userId seq payload now).2.accepted = true →
      (enqueueInput r userId seq payload now).1.lastSeqByUser.lookup userId = some seq ∧
      (enqueueInput r userId seq payload now).1.ackSeqByPlayer.lookup userId = some seq ∧
      (∃ slot : RoomInput,
        (enqueueInput r userId seq payload now).1.latestInputByUser.lookup userId = some slot ∧
        slot.turn = payload.turn ∧ slot.thrust = payload.thrust ∧
        slot.fire = payload.fire ∧ slot.fire_pressed = payload.fire_pressed)) ∧
    ((enqueueInput r userId seq payload now).2.accepted = true →
      (r.ackSeqByPlayer.lookup userId).getD 0 ≤ (r.lastSeqByUser.lookup userId).getD 0 →
      (r.ackSeqByPlayer.lookup userId).getD 0 < seq) := by
  by_cases hrun : r.running = true
  · by_cases hfin : r.finished = true
    · have hres : enqueueInput r userId seq payload now =
          (r, { accepted := false, reason := some "ROOM_NOT_RUNNING" }) := by
        simp [enqueueInput, hrun, hfin]
      rw [hres]
      refine ⟨by simp [hfin], fun _ => rfl, ?_, fun _ => rfl, by simp, by simp⟩
      intro _ hf _
      rw [hfin] at hf
      exact absurd hf (by simp)
    · have hfin2 : r.finished = false := by
        cases hf : r.finished
        · rfl
        · exact absurd hf hfin
      by_cases hseq : seq ≤ (r.lastSeqByUser.lookup userId).getD 0
      · have hres : enqueueInput r userId seq payload now =
            (r, { accepted := false, reason := some "STALE_INPUT" }) := by
          simp [enqueueInput, hrun, hfin2, hseq]
        rw [hres]
        refine ⟨?_, ?_, fun _ _ _ => rfl, fun _ => rfl, by simp, by simp⟩
        · simp
          intro _ _
          linarith
        · intro h
          rcases h with h | h
          · rw [hrun] at h
            exact absurd h (by simp)
          · rw [hfin2] at h
            exact absurd h (by simp)
      · have hlt : (r.lastSeqByUser.lookup userId).getD 0 < seq := lt_of_not_le hseq
        refine ⟨?_, ?_, ?_, ?_, ?_, ?_⟩
        · simp [enqueueInput, hrun, hfin2, hseq, hlt]
        · intro h
          rcases h with h | h
          · rw [hrun] at h
            exact absurd h (by simp)
          · rw [hfin2] at h
            exact absurd h (by simp)
        · intro _ _ hc
          exact absurd hc hseq
        · intro h
          simp [enqueueInput, hrun, hfin2, hseq] at h
        · intro _
          obtain ⟨lag, sm, hres⟩ :=
            enqueueInput_accept_shape r userId seq payload now hrun hfin2 hseq
          rw [hres]
          refine ⟨by simp [lookup_setV], by simp [lookup_setV], ?_⟩
          exact ⟨{ turn := payload.turn, thrust := payload.thrust, fire := payload.fire,
                   fire_pressed := payload.fire_pressed, lag_comp_ms := lag },
                 by simp [lookup_setV], rfl, rfl, rfl, rfl⟩
        · intro _ hle
          exact lt_of_le_of_lt hle hlt
  · have hrun2 : r.running = false := by
      cases hf : r.running
      · rfl
      · exact absurd hf hrun
    have hres : enqueueInput r userId seq payload now =
        (r, { accepted := false, reason := some "ROOM_NOT_RUNNING" }) := by
      simp [enqueueInput, hrun2]
    rw [hres]
    refine ⟨by simp [hrun2], fun _ => rfl, ?_, fun _ => rfl, by simp, by simp⟩
    intro hr _ _
    exact absurd hr hrun

/-- C5 witness: the admission theorem applied at a concrete room. -/
theorem enqueueInput_admission_witness :
    (enqueueInput room0 "u" 5 payload0 0).2.accepted = true ∧
    (enqueueInput room0 "u" 5 payload0 0).1.ackSeqByPlayer.lookup "u" = some 5 ∧
    (enqueueInput room0 "u" 2 payload0 0).2.reason = some "STALE_INPUT" := by
  have h := enqueueInput_admission room0 "u" 5 payload0 0
  have hacc : (enqueueInput room0 "u" 5 payload0 0).2.accepted = true :=
    h.1.mpr ⟨rfl, rfl, by norm_num [room0, newRoomRuntime, List.lookup]⟩
  have h2 := enqueueInput_admission room0 "u" 2 payload0 0
  exact ⟨hacc, ((h.2.2.2.2.1 hacc).2.1),
    h2.2.2.1 rfl rfl (by norm_num [room0, newRoomRuntime, List.lookup])⟩

/-! ## C8: rejected inputs are dropped silently -/

/-- C8 counterexample: accept seq = 5, then submit seq = 5 again; the
re-submission is rejected with internal reason STALE_INPUT, yet the input
branch of handleMessage sends no frame at all (in particular no
INPUT_REJECTED error frame) to the client. -/
theorem handleInput_counterexample :
    (enqueueInput room0 "u" 5 payload0 0).2.accepted = true ∧
    (enqueueInput (enqueueInput room0 "u" 5 payload0 0).1 "u" 5 payload0 0).2 =
      { accepted := false, reason := some "STALE_INPUT" } ∧
    (handleInput (some (enqueueInput room0 "u" 5 payload0 0).1) "u" 5 payload0 0).2 = [] := by
  refine ⟨by decide, by decide, by decide⟩

/-- C8 (amended): the input branch of handleMessage forwards to
enqueueInput and discards the result: no frame (in particular no error
frame) is ever sent back, whatever the admission outcome; re-submitting an
already accepted sequence number is silently dropped, with reason
STALE_INPUT only in the internal result object. -/
theorem handleInput_silent (roomOpt : Option RoomRuntime) (userId : String) (seq : ℚ)
    (payload : EnqueuePayload) (now : ℚ) :
    (handleInput roomOpt userId seq payload now).2 = [] ∧
    (∀ room, roomOpt = some room →
      (handleInput roomOpt userId seq payload now).1 =
        some (enqueueInput room userId seq payload now).1) ∧
    (∀ room, roomOpt = some room → room.running = true → room.finished = false →
      seq ≤ (room.lastSeqByUser.lookup userId).getD 0 →
      (enqueueInput room userId seq payload now).2.reason = some "STALE_INPUT" ∧
      (handleInput roomOpt userId seq payload now).1 = some room) := by
  refine ⟨?_, ?_, ?_⟩
  · cases roomOpt <;> simp [handleInput]
  · intro room h
    subst h
    simp [handleInput]
  · intro room h hrun hfin hseq
    subst h
    have hres : enqueueInput room userId seq payload now =
        (room, { accepted := false, reason := some "STALE_INPUT" }) := by
      simp [enqueueInput, hrun, hfin, hseq]
    constructor
    · rw [hres]
    · simp [handleInput, hres]

/-- C8 witness: the amended theorem applied at a concrete rejected
re-submission. -/
theorem handleInput_silent_witness :
    (handleInput (some room0) "u" 2 payload0 0).2 = [] ∧
    (enqueueInput room0 "u" 2 payload0 0).2.reason = some "STALE_INPUT" ∧
    (handleInput (some room0) "u" 2 payload0 0).1 = some room0 := by
  have h := handleInput_silent (some room0) "u" 2 payload0 0
  have h3 := h.2.2 room0 rfl rfl rfl (by norm_num [room0, newRoomRuntime, List.lookup])
  exact ⟨h.1, h3.1, h3.2⟩

/-- C6 counterexample: a second join with the already present session id S
re-broadcasts player_joined and resets u1's lastSeq and ackSeq gates from 5
to 0, so it does not leave the room state unchanged. -/
theorem handleJoin_rejoin_counterexample :
    (handleJoin prims0 (fun _ => 1) (some roomJ) "r" "u1" "S" none "w1").2.2 =
      [Frame.player_joined "r" "u1" ["u1", "u2"] 0] ∧
    roomJ.lastSeqByUser.lookup "u1" = some 5 ∧
    (handleJoin prims0 (fun _ => 1) (some roomJ) "r" "u1" "S" none "w1").1.lastSeqByUser.lookup
      "u1" = some 0 ∧
    (handleJoin prims0 (fun _ => 1) (some roomJ) "r" "u1" "S" none "w1").1.ackSeqByPlayer.lookup
      "u1" = some 0 := by
  refine ⟨by decide, by decide, by decide, by decide⟩

/-- C6 (amended): a second join carrying a session id already present in
the room (same user, same socket) produces a joined response whose
player_ids and waiting_for match the current room state, but it broadcasts
player_joined again and resets the user's lastSeqByUser and ackSeqByPlayer
gates to 0; the session table, participant set and latest-input slots are
unchanged (and a running room is not restarted). -/
theorem handleJoin_rejoin (prims : Prims) (hash : String → ℚ) (room : RoomRuntime)
    (roomId userId sessionId ws : String) (svc : Option String)
    (hs : room.sessions.lookup sessionId = some (userId, ws))
    (hc : room.connectedUserIds.contains userId = true)
    (hi : (room.latestInputByUser.lookup userId).isSome = true)
    (hr : room.running = true) :
    handleJoin prims hash (some room) roomId userId sessionId svc ws =
      ({ room with lastSeqByUser := setV userId 0 room.lastSeqByUser,
                   ackSeqByPlayer := setV userId 0 room.ackSeqByPlayer },
       [Frame.joined room.roomId userId room.connectedUserIds
          (room.minPlayers - room.connectedUserIds.length)],
       [Frame.player_joined room.roomId userId room.connectedUserIds
          (room.minPlayers - room.connectedUserIds.length)]) := by
  have hup : upsertSession room sessionId userId ws =
      { room with lastSeqByUser := setV userId 0 room.lastSeqByUser,
                  ackSeqByPlayer := setV userId 0 room.ackSeqByPlayer } := by
    have hmem : userId ∈ room.connectedUserIds := by simpa using hc
    simp [upsertSession, setV_eq_of_lookup _ _ _ hs, addSet, hc, hmem, hi]
  simp [handleJoin, hup, maybeStart, hr]

/-- C6 witness: the amended theorem applied at the concrete room. -/
theorem handleJoin_rejoin_witness :
    handleJoin prims0 (fun _ => 1) (some roomJ) "r" "u1" "S" none "w1" =
      ({ roomJ with lastSeqByUser := setV "u1" 0 roomJ.lastSeqByUser,
                    ackSeqByPlayer := setV "u1" 0 roomJ.ackSeqByPlayer },
       [Frame.joined "r" "u1" ["u1", "u2"] 0],
       [Frame.player_joined "r" "u1" ["u1", "u2"] 0]) := by
  have h := handleJoin_rejoin prims0 (fun _ => 1) roomJ "r" "u1" "S" "w1" none
    (by decide) (by decide) (by decide) rfl
  exact h

theorem lookup_map_entry {α β : Type} (f : String → α → β) (l : List (String × α)) (k : String) :
    (l.map (fun t => (t.1, f t.1 t.2))).lookup k = (l.lookup k).map (f k) := by
  induction l with
  | nil => simp
  | cons hd tl ih =>
    cases hd with
    | mk a v =>
      by_cases h : k = a
      · subst h
        rw [List.map_cons, lookup_cons, lookup_cons]
        simp
      · rw [List.map_cons, lookup_cons, lookup_cons]
        simp [h, ih]

/-- C10: every player entity in the network projection (and hence in every
state_snapshot frame and in every player patch of a state_delta frame,
whose entities are drawn from the projected next state) carries exactly the
fields id, x, y, vx, vy, angle, hp, shield, weaponLevel, alive; the
server-only fields (specialWeapon, specialUses, laserActiveMs,
novaCooldownMs, fireCooldownMs, stats, posHistory, input, and the world's
effects list, which the NetState record does not even contain) never appear
among the emitted keys. -/
theorem toNetworkState_whitelist :
    (∀ pid p, (toNetPlayer pid p).map Prod.fst = netPlayerKeys) ∧
    (∀ k, k ∈ serverOnlyFields → k ∉ netPlayerKeys) ∧
    (∀ st pid e, (toNetworkState st).players.lookup pid = some e →
      e.map Prod.fst = netPlayerKeys) ∧
    (∀ prev next patch, (buildDelta (some prev) next).changed_entities.players = some patch →
      ∀ t, t ∈ patch → t ∈ next.players) := by
  refine ⟨fun pid p => rfl, by decide, ?_, ?_⟩
  · intro st pid e h
    rw [show (toNetworkState st).players = st.players.map (fun t => (t.1, toNetPlayer t.1 t.2))
        from rfl, lookup_map_entry] at h
    cases hl : st.players.lookup pid with
    | none => rw [hl] at h; simp at h
    | some p =>
      rw [hl] at h
      simp at h
      rw [← h]
      rfl
  · intro prev next patch h t ht
    by_cases hlen : (next.players.filter (fun t =>
        ((prev.players.lookup t.1).map
          (fun pe => !(shallowEqualEntity pe t.2))).getD true)).length ≠ 0
    · simp only [buildDelta] at h
      rw [if_pos hlen] at h
      rw [Option.some_inj] at h
      subst h
      exact (List.mem_filter.mp ht).1
    · simp only [buildDelta] at h
      rw [if_neg hlen] at h
      exact absurd h (by simp)

/-- C10 witness: the whitelist theorem applied at a concrete state and a
concrete delta. -/
theorem toNetworkState_whitelist_witness :
    ((toNetworkState (initState prims0 ["a", "b"] 7)).players.lookup "a").all
      (fun e => e.map Prod.fst = netPlayerKeys) = true := by
  have h := toNetworkState_whitelist.2.2.1 (initState prims0 ["a", "b"] 7) "a"
  cases hl : (toNetworkState (initState prims0 ["a", "b"] 7)).players.lookup "a" with
  | none => simp
  | some e =>
    have := h e hl
    simp [this]

/-! ## C3: terminal resolution -/

theorem mem_insertDesc (x y : String × ℚ) (l : List (String × ℚ)) :
    y ∈ insertDesc x l ↔ y = x ∨ y ∈ l := by
  induction l with
  | nil => simp [insertDesc]
  | cons hd tl ih =>
    by_cases h : hd.2 < x.2
    · simp [insertDesc, h]
    · simp [insertDesc, h, ih]
      tauto

theorem mem_sortByScoreDesc (y : String × ℚ) (l : List (String × ℚ)) :
    y ∈ sortByScoreDesc l ↔ y ∈ l := by
  induction l with
  | nil => simp [sortByScoreDesc]
  | cons hd tl ih => simp [sortByScoreDesc, mem_insertDesc, ih]

theorem length_insertDesc (x : String × ℚ) (l : List (String × ℚ)) :
    (insertDesc x l).length = l.length + 1 := by
  induction l with
  | nil => simp [insertDesc]
  | cons hd tl ih =>
    by_cases h : hd.2 < x.2 <;> simp [insertDesc, h, ih]

theorem length_sortByScoreDesc (l : List (String × ℚ)) :
    (sortByScoreDesc l).length = l.length := by
  induction l with
  | nil => rfl
  | cons hd tl ih => simp [sortByScoreDesc, length_insertDesc, ih]

theorem sortByScoreDesc_head_max (l : List (String × ℚ)) (z : String × ℚ)
    (rest : List (String × ℚ)) (h : sortByScoreDesc l = z :: rest) :
    z ∈ l ∧ ∀ y ∈ l, y.2 ≤ z.2 := by
  induction l generalizing z rest with
  | nil => simp [sortByScoreDesc] at h
  | cons a t ih =>
    rw [sortByScoreDesc] at h
    cases hs : sortByScoreDesc t with
    | nil =>
      have ht : t = [] := by
        have := length_sortByScoreDesc t
        rw [hs] at this
        exact List.length_eq_zero.mp this.symm
      subst ht
      rw [hs] at h
      simp [insertDesc] at h
      refine ⟨by simp [h.1.symm], ?_⟩
      intro y hy
      simp at hy
      rw [hy, ← h.1]
    | cons b r =>
      have hb := ih b r hs
      rw [hs] at h
      by_cases hba : b.2 < a.2
      · rw [insertDesc, if_pos hba] at h
        have hz : z = a := List.head_eq_of_cons_eq h.symm
        subst hz
        refine ⟨List.mem_cons_self _ _, ?_⟩
        intro y hy
        rcases List.mem_cons.mp hy with hy | hy
        · rw [hy]
        · exact le_of_lt (lt_of_le_of_lt (hb.2 y hy) hba)
      · rw [insertDesc, if_neg hba] at h
        have hz : z = b := List.head_eq_of_cons_eq h.symm
        subst hz
        refine ⟨List.mem_cons_of_mem _ hb.1, ?_⟩
        intro y hy
        rcases List.mem_cons.mp hy with hy | hy
        · rw [hy]
          exact le_of_not_lt hba
        · exact hb.2 y hy

/-- C3: tick ends by applying resolveTerminal, and terminal resolution
satisfies the claimed trichotomy: when at most one ship is alive the phase
becomes finished with winnerIds the (possibly empty) alive list and reason
elimination (this branch takes priority over the timeout check); otherwise
when remainingMs ≤ 0 the phase becomes finished with reason timeout and
winnerIds exactly the ships whose hp lies strictly within 1e-4 of the
maximum hp; otherwise the state (in particular the phase, which stays
playing) is unchanged. -/
theorem resolveTerminal_trichotomy (st : GameState) :
    (∀ prims s dtMs, s.phase = "playing" →
      tick prims s dtMs = resolveTerminal (collectPickups (spawnPickups prims
        (updateProjectiles prims (tickPlayers prims dtMs (dtMs / 1000)
          (expireEffects (advanceClock s dtMs) dtMs)) dtMs)))) ∧
    (((st.players.filter (fun t => t.2.alive)).map Prod.fst).length ≤ 1 →
      resolveTerminal st =
        { st with
          phase := "finished"
          winnerIds := (st.players.filter (fun t => t.2.alive)).map Prod.fst
          reason := some "elimination" }) ∧
    (1 < ((st.players.filter (fun t => t.2.alive)).map Prod.fst).length →
      st.remainingMs ≤ 0 →
      (resolveTerminal st).phase = "finished" ∧
      (resolveTerminal st).reason = some "timeout" ∧
      ∃ top : ℚ, (∃ t, t ∈ st.players ∧ t.2.hp = top) ∧
        (∀ t, t ∈ st.players → t.2.hp ≤ top) ∧
        (∀ pid, pid ∈ (resolveTerminal st).winnerIds ↔
          ∃ p, (pid, p) ∈ st.players ∧ |p.hp - top| < 0.0001)) ∧
    (1 < ((st.players.filter (fun t => t.2.alive)).map Prod.fst).length →
      0 < st.remainingMs → resolveTerminal st = st) := by
  refine ⟨?_, ?_, ?_, ?_⟩
  · intro prims s dtMs hphase
    simp [tick, hphase]
  · intro h
    simp only [resolveTerminal]
    rw [if_pos h]
  · intro hgt hrem
    have hnot : ¬ (((st.players.filter (fun t => t.2.alive)).map Prod.fst).length ≤ 1) :=
      not_le.mpr hgt
    have hlenp : 1 < st.players.length := by
      calc 1 < ((st.players.filter (fun t => t.2.alive)).map Prod.fst).length := hgt
        _ = (st.players.filter (fun t => t.2.alive)).length := List.length_map _ _
        _ ≤ st.players.length := List.length_filter_le _ _
    have hlen : 1 < (sortByScoreDesc (st.players.map (fun t => (t.1, t.2.hp)))).length := by
      rw [length_sortByScoreDesc, List.length_map]
      exact hlenp
    simp only [resolveTerminal]
    rw [if_neg hnot, if_pos hrem]
    cases hs : sortByScoreDesc (st.players.map (fun t => (t.1, t.2.hp))) with
    | nil => rw [hs] at hlen; simp at hlen
    | cons z rest =>
      have hmax := sortByScoreDesc_head_max _ z rest hs
      have hzmem : z ∈ st.players.map (fun t => (t.1, t.2.hp)) := hmax.1
      refine ⟨rfl, rfl, z.2, ?_, ?_, ?_⟩
      · rcases List.mem_map.mp hzmem with ⟨t, ht, hzt⟩
        exact ⟨t, ht, by rw [← hzt]⟩
      · intro t ht
        exact hmax.2 (t.1, t.2.hp) (List.mem_map.mpr ⟨t, ht, rfl⟩)
      · intro pid
        simp only [List.head?]
        constructor
        · intro hmem
          rcases List.mem_map.mp hmem with ⟨r, hr, hrp⟩
          rcases List.mem_filter.mp hr with ⟨hr1, hr2⟩
          have hr3 : r ∈ st.players.map (fun t => (t.1, t.2.hp)) := by
            rw [← mem_sortByScoreDesc, hs]
            exact hr1
          rcases List.mem_map.mp hr3 with ⟨t, ht, hrt⟩
          refine ⟨t.2, ?_, ?_⟩
          · have : (pid, t.2) = t := by
              rw [← hrp, ← hrt]
            rw [this]
            exact ht
          · have hd := of_decide_eq_true hr2
            rw [← hrt] at hd
            simpa using hd
        · rintro ⟨p, hp, hlt⟩
          have hr : (pid, p.hp) ∈ sortByScoreDesc (st.players.map (fun t => (t.1, t.2.hp))) := by
            rw [mem_sortByScoreDesc]
            exact List.mem_map.mpr ⟨(pid, p), hp, rfl⟩
          rw [hs] at hr
          refine List.mem_map.mpr ⟨(pid, p.hp), List.mem_filter.mpr ⟨hr, ?_⟩, rfl⟩
          exact decide_eq_true (by simpa using hlt)
  · intro hgt hrem
    have hnot : ¬ (((st.players.filter (fun t => t.2.alive)).map Prod.fst).length ≤ 1) :=
      not_le.mpr hgt
    rw [resolveTerminal, if_neg hnot, if_neg (not_le.mpr hrem)]

/-- C3 witness: the trichotomy applied at concrete states (a fresh
two-player match is unchanged; a one-player match resolves by
elimination). -/
theorem resolveTerminal_trichotomy_witness :
    resolveTerminal (initState prims0 ["a", "b"] 7) = initState prims0 ["a", "b"] 7 ∧
    (resolveTerminal (initState prims0 ["a"] 7)).winnerIds = ["a"] ∧
    (resolveTerminal (initState prims0 ["a"] 7)).reason = some "elimination" := by
  refine ⟨(resolveTerminal_trichotomy (initState prims0 ["a", "b"] 7)).2.2.2
    (by decide) (by norm_num [initState, CONFIG.roundDurationMs]), ?_, ?_⟩
  · rw [(resolveTerminal_trichotomy (initState prims0 ["a"] 7)).2.1 (by decide)]
    decide
  · rw [(resolveTerminal_trichotomy (initState prims0 ["a"] 7)).2.1 (by decide)]

theorem fiveEq_refl (p : Player) : fiveEq p p := ⟨rfl, rfl, rfl, rfl, rfl⟩

theorem fiveEq_trans {p q r : Player} (h1 : fiveEq p q) (h2 : fiveEq q r) : fiveEq p r :=
  ⟨h2.1.trans h1.1, h2.2.1.trans h1.2.1, h2.2.2.1.trans h1.2.2.1,
   h2.2.2.2.1.trans h1.2.2.2.1, h2.2.2.2.2.trans h1.2.2.2.2⟩

theorem fiveQuant_of_fiveEq {p q : Player} (h1 : fiveEq p q) (h2 : fiveQuant p) : fiveQuant q :=
  ⟨h1.1 ▸ h2.1, h1.2.1 ▸ h2.2.1, h1.2.2.1 ▸ h2.2.2.1,
   h1.2.2.2.1 ▸ h2.2.2.2.1, h1.2.2.2.2 ▸ h2.2.2.2.2⟩

/-- Membership in a JS-object write: the new binding or an old one. -/
theorem mem_setV {β : Type} (k : String) (v : β) (l : List (String × β))
    (t : String × β) (h : t ∈ setV k v l) : t = (k, v) ∨ t ∈ l := by
  induction l with
  | nil => simpa [setV] using h
  | cons hd tl ih =>
    by_cases h2 : hd.1 = k
    · rw [setV, if_pos h2] at h
      rcases List.mem_cons.mp h with h | h
      · exact Or.inl h
      · exact Or.inr (List.mem_cons_of_mem hd h)
    · rw [setV, if_neg h2] at h
      rcases List.mem_cons.mp h with h | h
      · exact Or.inr (h ▸ List.mem_cons_self hd tl)
      · rcases ih h with h | h
        · exact Or.inl h
        · exact Or.inr (List.mem_cons_of_mem hd h)

/-- A successful lookup is a member. -/
theorem mem_of_lookup {β : Type} (k : String) (v : β) (l : List (String × β))
    (h : l.lookup k = some v) : (k, v) ∈ l := by
  induction l with
  | nil => simp [List.lookup] at h
  | cons hd tl ih =>
    cases hd with
    | mk a b =>
      by_cases h2 : k = a
      · rw [lookup_cons, if_pos h2] at h
        rw [Option.some_inj] at h
        subst h2
        subst h
        exact List.mem_cons_self _ _
      · rw [lookup_cons, if_neg h2] at h
        exact List.mem_cons_of_mem _ (ih h)

theorem fiveEq_update_hp (p : Player) (h : ℚ) : fiveEq p { p with hp := h } :=
  ⟨rfl, rfl, rfl, rfl, rfl⟩

theorem fiveEq_update_laser (p : Player) (h : ℚ) : fiveEq p { p with laserActiveMs := h } :=
  ⟨rfl, rfl, rfl, rfl, rfl⟩

theorem KinPres.of_players_eq {b a : GameState} (h : a.players = b.players) : KinPres b a := by
  intro t2 h2
  rw [h] at h2
  exact Or.inl ⟨t2.2, h2, fiveEq_refl t2.2⟩

theorem KinPres.rfl {a : GameState} : KinPres a a := KinPres.of_players_eq (Eq.refl _)

theorem KinPres.trans {a b c : GameState} (h1 : KinPres a b) (h2 : KinPres b c) :
    KinPres a c := by
  intro t2 hm
  rcases h2 t2 hm with ⟨pm, hmm, he⟩ | hq
  · rcases h1 (t2.1, pm) hmm with ⟨p, hb, he2⟩ | hq2
    · exact Or.inl ⟨p, hb, fiveEq_trans he2 he⟩
    · exact Or.inr (fiveQuant_of_fiveEq he hq2)
  · exact Or.inr hq

theorem kinPres_updPlayer (st : GameState) (pid : String) (f : Player → Player)
    (hf : ∀ p, fiveEq p (f p)) : KinPres st (updPlayer st pid f) := by
  intro t2 hm
  rw [show (updPlayer st pid f).players = updV pid f st.players from rfl] at hm
  unfold updV at hm
  cases hv : st.players.lookup pid with
  | none =>
    rw [hv] at hm
    exact Or.inl ⟨t2.2, hm, fiveEq_refl t2.2⟩
  | some v =>
    rw [hv] at hm
    rcases mem_setV _ _ _ _ hm with h | h
    · refine Or.inl ⟨v, ?_, ?_⟩
      · rw [h]
        exact mem_of_lookup _ _ _ hv
      · rw [h]
        exact hf v
    · exact Or.inl ⟨t2.2, h, fiveEq_refl t2.2⟩

theorem kinPres_setPlayer_mem (st : GameState) (pid : String) (p0 p1 : Player)
    (h0 : (pid, p0) ∈ st.players) (h1 : fiveEq p0 p1) :
    KinPres st (setPlayer st pid p1) := by
  intro t2 hm
  rw [show (setPlayer st pid p1).players = setV pid p1 st.players from rfl] at hm
  rcases mem_setV _ _ _ _ hm with h | h
  · refine Or.inl ⟨p0, ?_, ?_⟩
    · rw [h]
      exact h0
    · rw [h]
      exact h1
  · exact Or.inl ⟨t2.2, h, fiveEq_refl t2.2⟩

theorem kinPres_setPlayer_quant (st : GameState) (pid : String) (p1 : Player)
    (h1 : fiveQuant p1) : KinPres st (setPlayer st pid p1) := by
  intro t2 hm
  rw [show (setPlayer st pid p1).players = setV pid p1 st.players from rfl] at hm
  rcases mem_setV _ _ _ _ hm with h | h
  · exact Or.inr (by rw [h]; exact h1)
  · exact Or.inl ⟨t2.2, h, fiveEq_refl t2.2⟩

theorem kinPres_foldl {α : Type} (f : GameState → α → GameState)
    (h : ∀ acc x, KinPres acc (f acc x)) (l : List α) :
    ∀ st, KinPres st (l.foldl f st) := by
  induction l with
  | nil => intro st; exact KinPres.rfl
  | cons hd tl ih =>
    intro st
    exact (h st hd).trans (ih (f st hd))

theorem kinPres_foldl_pair {α β : Type} (f : GameState × β → α → GameState × β)
    (h : ∀ acc x, KinPres acc.1 (f acc x).1) (l : List α) :
    ∀ acc, KinPres acc.1 ((l.foldl f acc).1) := by
  induction l with
  | nil => intro acc; exact KinPres.rfl
  | cons hd tl ih =>
    intro acc
    exact (h acc hd).trans (ih (f acc hd))

theorem kinPres_creditOwner (st : GameState) (ownerId : String) (dmg : ℚ) (kill : Bool) :
    KinPres st (creditOwner st ownerId dmg kill) :=
  kinPres_updPlayer _ _ _ (by exact fun p => ⟨rfl, rfl, rfl, rfl, rfl⟩)

/-- The common hit pattern: write back the damaged target, mark the kill,
credit the owner. -/
theorem kinPres_damageChain (st : GameState) (tid ownerId : String) (target : Player)
    (hm : (tid, target) ∈ st.players) (hp2 dmg : ℚ) (kill : Bool) :
    KinPres st (creditOwner
      (if kill then
        updPlayer (setPlayer st tid { target with hp := hp2 }) tid
          (fun t =>
            { t with
              alive := false
              stats := { t.stats with deaths := t.stats.deaths + 1 } })
      else setPlayer st tid { target with hp := hp2 }) ownerId dmg kill) := by
  refine KinPres.trans (kinPres_setPlayer_mem st tid target { target with hp := hp2 } hm
    (fiveEq_update_hp target hp2)) ?_
  split
  · exact KinPres.trans (kinPres_updPlayer _ _ _ (by exact fun q => ⟨rfl, rfl, rfl, rfl, rfl⟩))
      (kinPres_creditOwner _ _ _ _)
  · exact kinPres_creditOwner _ _ _ _

theorem kinPres_novaHitOne (prims : Prims) (acc : GameState) (pid : String) (p : Player)
    (tid : String) : KinPres acc (novaHitOne prims acc pid p tid) := by
  by_cases ht : tid = pid
  · simp only [novaHitOne, if_pos ht]
    exact KinPres.rfl
  · cases hl : acc.players.lookup tid with
    | none =>
      simp only [novaHitOne, if_neg ht, hl]
      exact KinPres.rfl
    | some target =>
      simp only [novaHitOne, if_neg ht, hl]
      split
      · exact KinPres.rfl
      · split
        · exact kinPres_damageChain acc tid pid target (mem_of_lookup _ _ _ hl) _ _ _
        · exact KinPres.rfl

theorem kinPres_laserHitOne (prims : Prims) (acc : GameState) (pid : String) (p : Player)
    (dt : ℚ) (tid : String) : KinPres acc (laserHitOne prims acc pid p dt tid) := by
  by_cases ht : tid = pid
  · simp only [laserHitOne, if_pos ht]
    exact KinPres.rfl
  · cases hl : acc.players.lookup tid with
    | none =>
      simp only [laserHitOne, if_neg ht, hl]
      exact KinPres.rfl
    | some target =>
      simp only [laserHitOne, if_neg ht, hl]
      split
      · exact KinPres.rfl
      · split
        · exact KinPres.rfl
        · split
          · exact KinPres.rfl
          · exact kinPres_damageChain acc tid pid target (mem_of_lookup _ _ _ hl) _ _ _

theorem kinPres_bombHitOne (prims : Prims) (acc : GameState) (pr : Projectile)
    (pid : String) : KinPres acc (bombHitOne prims acc pr pid) := by
  cases hl : acc.players.lookup pid with
  | none =>
    simp only [bombHitOne, hl]
    exact KinPres.rfl
  | some p =>
    simp only [bombHitOne, hl]
    repeat' split
    all_goals
      first
      | exact KinPres.rfl
      | exact kinPres_setPlayer_mem acc pid p _
          (mem_of_lookup _ _ _ hl) (fiveEq_update_hp p _)
      | exact KinPres.trans (kinPres_setPlayer_mem acc pid p _
          (mem_of_lookup _ _ _ hl) (fiveEq_update_hp p _))
          (kinPres_updPlayer _ _ _ (by exact fun q => ⟨rfl, rfl, rfl, rfl, rfl⟩))
      | exact KinPres.trans (kinPres_setPlayer_mem acc pid p _
          (mem_of_lookup _ _ _ hl) (fiveEq_update_hp p _))
          (kinPres_creditOwner _ _ _ _)
      | exact KinPres.trans (kinPres_setPlayer_mem acc pid p _
          (mem_of_lookup _ _ _ hl) (fiveEq_update_hp p _))
          (KinPres.trans
            (kinPres_updPlayer _ _ _ (by exact fun q => ⟨rfl, rfl, rfl, rfl, rfl⟩))
            (kinPres_creditOwner _ _ _ _))

theorem kinPres_consumeSpecialUse (st : GameState) (pid : String) (setCd : Player → Player)
    (hcd : ∀ q, fiveEq q (setCd q)) : KinPres st (consumeSpecialUse st pid setCd) := by
  refine kinPres_updPlayer _ _ _ (fun q => ?_)
  have h1 : fiveEq q (setCd { q with specialUses := q.specialUses - 1 }) :=
    fiveEq_trans (p := q) (q := { q with specialUses := q.specialUses - 1 })
      ⟨rfl, rfl, rfl, rfl, rfl⟩ (hcd _)
  simp only [consumeSpecialUse]
  split
  · exact h1
  · exact h1

theorem kinPres_triggerBombExplosion (prims : Prims) (st : GameState) (pr : Projectile) :
    KinPres st (triggerBombExplosion prims st pr) :=
  KinPres.trans (kinPres_foldl _ (fun acc pid => kinPres_bombHitOne prims acc pr pid)
    _ st) (KinPres.of_players_eq rfl)

theorem kinPres_fireSpecialWeapon (prims : Prims) (st : GameState) (pid : String)
    (p : Player) : KinPres st (fireSpecialWeapon prims st pid p) := by
  cases hw : p.specialWeapon with
  | none =>
    simp only [fireSpecialWeapon, hw]
    exact KinPres.rfl
  | some w =>
    simp only [fireSpecialWeapon, hw]
    split
    · exact KinPres.trans (KinPres.of_players_eq rfl)
        (kinPres_consumeSpecialUse _ _ _ (by exact fun q => ⟨rfl, rfl, rfl, rfl, rfl⟩))
    · split
      · split
        · exact KinPres.trans (kinPres_foldl _
            (fun acc tid => kinPres_novaHitOne prims acc pid p tid) _ st)
            (KinPres.trans (KinPres.of_players_eq rfl)
              (kinPres_consumeSpecialUse _ _ _ (by exact fun q => ⟨rfl, rfl, rfl, rfl, rfl⟩)))
        · exact KinPres.rfl
      · exact KinPres.rfl

theorem kinPres_spawnProjectile (prims : Prims) (st : GameState) (ownerId : String)
    (p : Player) (lagCompMs : ℚ) (fireSeq : Option ℤ) :
    KinPres st (spawnProjectile prims st ownerId p lagCompMs fireSeq) := by
  refine KinPres.trans (KinPres.of_players_eq (b := st)
    (a := { st with randCalls := st.randCalls + 1 }) rfl) ?_
  simp only [spawnProjectile]
  split
  · split
    · rename_i hit heq
      refine KinPres.trans ?_ (KinPres.of_players_eq rfl)
      cases hl : ({ st with randCalls := st.randCalls + 1 } : GameState).players.lookup
          hit.1 with
      | none =>
        simp only [hl]
        exact KinPres.rfl
      | some target =>
        simp only [hl]
        exact kinPres_damageChain _ hit.1 ownerId target (mem_of_lookup _ _ _ hl) _ _ _
    · exact KinPres.of_players_eq rfl
  · exact KinPres.of_players_eq rfl

theorem fiveQuant_movePlayer (prims : Prims) (dtMs dt : ℚ) (st : GameState) (p : Player) :
    fiveQuant (movePlayer prims dtMs dt st p) :=
  ⟨isQuantized_roundState _, isQuantized_roundState _, isQuantized_roundState _,
   isQuantized_roundState _, isQuantized_roundState _⟩

theorem kinPres_applyLaserDamage (prims : Prims) (st : GameState) (pid : String)
    (p : Player) (dt : ℚ) : KinPres st (applyLaserDamage prims st pid p dt) :=
  kinPres_foldl _ (fun acc tid => kinPres_laserHitOne prims acc pid p dt tid) _ st

theorem kinPres_firePhase (prims : Prims) (st1 : GameState) (pid : String) (p1 : Player) :
    KinPres st1 (firePhase prims st1 pid p1) := by
  simp only [firePhase]
  split
  · split
    · exact kinPres_fireSpecialWeapon _ _ _ _
    · exact KinPres.trans (kinPres_spawnProjectile _ _ _ _ _ _)
        (kinPres_updPlayer _ _ _ (by exact fun q => ⟨rfl, rfl, rfl, rfl, rfl⟩))
  · exact KinPres.rfl

theorem kinPres_laserPhase (prims : Prims) (dtMs dt : ℚ) (st3 : GameState) (pid : String) :
    KinPres st3 (laserPhase prims dtMs dt st3 pid) := by
  cases hq : st3.players.lookup pid with
  | none =>
    simp only [laserPhase, hq]
    exact KinPres.rfl
  | some q =>
    simp only [laserPhase, hq]
    split
    · split
      · exact KinPres.trans (kinPres_setPlayer_mem _ pid q _
          (mem_of_lookup _ _ _ hq) (fiveEq_update_laser q _))
          (KinPres.trans (kinPres_applyLaserDamage _ _ _ _ _)
            (kinPres_updPlayer _ _ _ (by
              intro r
              split
              · exact ⟨rfl, rfl, rfl, rfl, rfl⟩
              · exact ⟨rfl, rfl, rfl, rfl, rfl⟩)))
      · exact KinPres.trans (kinPres_setPlayer_mem _ pid q _
          (mem_of_lookup _ _ _ hq) (fiveEq_update_laser q _))
          (kinPres_applyLaserDamage _ _ _ _ _)
    · exact kinPres_updPlayer _ _ _ (by exact fun r => ⟨rfl, rfl, rfl, rfl, rfl⟩)

theorem kinPres_tickOnePlayer (prims : Prims) (dtMs dt : ℚ) (st : GameState) (pid : String) :
    KinPres st (tickOnePlayer prims dtMs dt st pid) := by
  cases hl : st.players.lookup pid with
  | none =>
    simp only [tickOnePlayer, hl]
    exact KinPres.rfl
  | some p =>
    simp only [tickOnePlayer, hl]
    split
    · exact KinPres.rfl
    · exact KinPres.trans (kinPres_setPlayer_quant st pid _
        (fiveQuant_movePlayer prims dtMs dt st p))
        (KinPres.trans (kinPres_firePhase _ _ _ _)
          (KinPres.trans
            (kinPres_updPlayer _ _ _ (by exact fun q => ⟨rfl, rfl, rfl, rfl, rfl⟩))
            (kinPres_laserPhase _ _ _ _ _)))

theorem kinPres_projStep (prims : Prims) (dtMs dt : ℚ) (acc : GameState × List Projectile)
    (pr0 : Projectile) : KinPres acc.1 (projStep prims dtMs dt acc pr0).1 := by
  simp only [projStep]
  split
  · split
    · exact kinPres_triggerBombExplosion _ _ _
    · exact KinPres.rfl
  · split
    · split
      · exact kinPres_triggerBombExplosion _ _ _
      · exact KinPres.rfl
    · split
      · exact KinPres.rfl
      · rename_i t heq
        split
        · exact kinPres_triggerBombExplosion _ _ _
        · exact kinPres_damageChain _ t.1 _ t.2 (List.mem_of_find?_eq_some heq) _ _ _

theorem kinPres_tickPlayers (prims : Prims) (dtMs dt : ℚ) (st : GameState) :
    KinPres st (tickPlayers prims dtMs dt st) :=
  kinPres_foldl _ (fun acc pid => kinPres_tickOnePlayer prims dtMs dt acc pid) _ st

theorem kinPres_updateProjectiles (prims : Prims) (st : GameState) (dtMs : ℚ) :
    KinPres st (updateProjectiles prims st dtMs) := by
  intro t2 hm
  exact kinPres_foldl_pair _
    (fun acc pr => kinPres_projStep prims dtMs (dtMs / 1000) acc pr)
    st.projectiles (st, []) t2 hm

theorem kinPres_collectPickups (st : GameState) : KinPres st (collectPickups st) := by
  intro t2 hm
  refine kinPres_foldl_pair _ (fun acc pu => ?_) st.pickups (st, []) t2 hm
  cases hf : acc.1.players.find? (fun t =>
      t.2.alive &&
      decide (distSq pu.x pu.y t.2.x t.2.y ≤
        (CONFIG.pickupRadius + CONFIG.playerRadius) ^ 2)) with
  | none =>
    simp only [collectOne, hf]
    exact KinPres.rfl
  | some c =>
    simp only [collectOne, hf]
    exact kinPres_updPlayer _ _ _ (by exact fun col => ⟨rfl, rfl, rfl, rfl, rfl⟩)

theorem spawnPickups_players (prims : Prims) (st : GameState) :
    (spawnPickups prims st).players = st.players := by
  simp only [spawnPickups]
  repeat' split
  all_goals rfl

theorem resolveTerminal_players (st : GameState) :
    (resolveTerminal st).players = st.players := by
  simp only [resolveTerminal]
  repeat' split
  all_goals rfl

theorem spawnPickups_projectiles (prims : Prims) (st : GameState) :
    (spawnPickups prims st).projectiles = st.projectiles := by
  simp only [spawnPickups]
  repeat' split
  all_goals rfl

theorem resolveTerminal_projectiles (st : GameState) :
    (resolveTerminal st).projectiles = st.projectiles := by
  simp only [resolveTerminal]
  repeat' split
  all_goals rfl

theorem collectPickups_projectiles (st : GameState) :
    (collectPickups st).projectiles = st.projectiles := by
  have h : ∀ (l : List Pickup) (acc : GameState × List Pickup),
      ((l.foldl collectOne acc).1).projectiles = acc.1.projectiles := by
    intro l
    induction l with
    | nil => intro acc; rfl
    | cons hd tl ih =>
      intro acc
      rw [List.foldl_cons, ih]
      cases hf : acc.1.players.find? (fun t =>
          t.2.alive &&
          decide (distSq hd.x hd.y t.2.x t.2.y ≤
            (CONFIG.pickupRadius + CONFIG.playerRadius) ^ 2)) with
      | none => simp only [collectOne, hf]
      | some c =>
        simp only [collectOne, hf]
        rfl
  exact h st.pickups (st, [])

theorem projQuant_quantize (pr : Projectile) : projQuant (quantizeProjectileState pr) :=
  ⟨isQuantized_roundState _, isQuantized_roundState _,
   isQuantized_roundState _, isQuantized_roundState _⟩

theorem projStep_kept (prims : Prims) (dtMs dt : ℚ) (acc : GameState × List Projectile)
    (pr0 : Projectile) :
    (projStep prims dtMs dt acc pr0).2 = acc.2 ∨
    ∃ q, (projStep prims dtMs dt acc pr0).2 = acc.2 ++ [quantizeProjectileState q] := by
  simp only [projStep]
  repeat' split
  all_goals first
    | exact Or.inl rfl
    | exact Or.inr ⟨_, rfl⟩

theorem updateProjectiles_quant (prims : Prims) (st : GameState) (dtMs : ℚ) :
    ∀ pr ∈ (updateProjectiles prims st dtMs).projectiles, projQuant pr := by
  have h : ∀ (l : List Projectile) (acc : GameState × List Projectile),
      (∀ pr ∈ acc.2, projQuant pr) →
      ∀ pr ∈ (l.foldl (projStep prims dtMs (dtMs / 1000)) acc).2, projQuant pr := by
    intro l
    induction l with
    | nil => intro acc h pr hm; exact h pr hm
    | cons hd tl ih =>
      intro acc hacc pr hm
      refine ih (projStep prims dtMs (dtMs / 1000) acc hd) ?_ pr hm
      intro pr2 hm2
      rcases projStep_kept prims dtMs (dtMs / 1000) acc hd with hk | ⟨q, hk⟩
      · rw [hk] at hm2
        exact hacc pr2 hm2
      · rw [hk] at hm2
        rcases List.mem_append.mp hm2 with hm2 | hm2
        · exact hacc pr2 hm2
        · rw [List.mem_singleton.mp hm2]
          exact projQuant_quantize q
  intro pr hm
  exact h st.projectiles (st, []) (by intro pr2 hm2; simp at hm2) pr hm

/-- C9 counterexample: a tick of dtMs = 50/3 ms (the exact 60 Hz period)
mutates remainingMs to 180000 - 50/3, which is not a multiple of 1/10000:
millisecond timers are updated in raw arithmetic, never re-quantized. -/
theorem tick_quantization_counterexample :
    (tick prims0 (initState prims0 ["a", "b"] 7) (50/3)).remainingMs ≠
      (initState prims0 ["a", "b"] 7).remainingMs ∧
    ¬ isQuantized (tick prims0 (initState prims0 ["a", "b"] 7) (50/3)).remainingMs := by
  constructor
  · with_unfolding_all decide
  · with_unfolding_all decide

/-- C9 (amended): after every tick of a playing world, the position,
velocity and angle fields of every ship entry are either carried over
unchanged from a same-id entry of the pre-tick world or multiples of
1/10000, and every projectile's position and velocity are multiples of
1/10000; the millisecond timer fields (remainingMs, cooldowns, ttls,
laserActiveMs) and hp under laser damage are updated in raw arithmetic and
are not re-quantized. -/
theorem tick_quantizes (prims : Prims) (st : GameState) (dtMs : ℚ)
    (hphase : st.phase = "playing") :
    (∀ t2 ∈ (tick prims st dtMs).players,
      (∃ p, (t2.1, p) ∈ st.players ∧
        (t2.2.x = p.x ∧ t2.2.y = p.y ∧ t2.2.vx = p.vx ∧ t2.2.vy = p.vy ∧
         t2.2.angle = p.angle)) ∨
      (isQuantized t2.2.x ∧ isQuantized t2.2.y ∧ isQuantized t2.2.vx ∧
       isQuantized t2.2.vy ∧ isQuantized t2.2.angle)) ∧
    (∀ pr ∈ (tick prims st dtMs).projectiles,
      isQuantized pr.x ∧ isQuantized pr.y ∧ isQuantized pr.vx ∧ isQuantized pr.vy) := by
  have htick : tick prims st dtMs = resolveTerminal (collectPickups (spawnPickups prims
      (updateProjectiles prims (tickPlayers prims dtMs (dtMs / 1000)
        (expireEffects (advanceClock st dtMs) dtMs)) dtMs))) := by
    simp [tick, hphase]
  constructor
  · have hk : KinPres st (tick prims st dtMs) := by
      rw [htick]
      refine KinPres.trans (KinPres.of_players_eq (b := st)
          (a := expireEffects (advanceClock st dtMs) dtMs) rfl)
        (KinPres.trans (kinPres_tickPlayers prims dtMs (dtMs / 1000) _)
          (KinPres.trans (kinPres_updateProjectiles prims _ dtMs)
            (KinPres.trans (KinPres.of_players_eq (spawnPickups_players prims _))
              (KinPres.trans (kinPres_collectPickups _)
                (KinPres.of_players_eq (resolveTerminal_players _))))))
    exact hk
  · intro pr hm
    rw [htick, resolveTerminal_projectiles, collectPickups_projectiles,
        spawnPickups_projectiles] at hm
    exact updateProjectiles_quant prims _ dtMs pr hm

/-- C9 witness: the amended theorem applied to a concrete fired shot. -/
theorem tick_quantizes_witness :
    ((tick prims0 (applyInput (initState prims0 ["a", "b"] 7) "a" firePayload0)
        16).projectiles.all
      (fun pr => decide (isQuantized pr.x ∧ isQuantized pr.y ∧
        isQuantized pr.vx ∧ isQuantized pr.vy))) = true := by
  have h := (tick_quantizes prims0
    (applyInput (initState prims0 ["a", "b"] 7) "a" firePayload0) 16
    (by with_unfolding_all decide)).2
  rw [List.all_eq_true]
  intro pr hpr
  exact decide_eq_true (h pr hpr)

/-! ## C7: delta round trip -/

theorem lookup_eq_none {β : Type} (k : String) (l : List (String × β))
    (h : k ∉ l.map Prod.fst) : l.lookup k = none := by
  induction l with
  | nil => rfl
  | cons hd tl ih =>
    simp only [List.map_cons, List.mem_cons, not_or] at h
    rw [show hd = (hd.1, hd.2) from rfl, lookup_cons, if_neg h.1, ih h.2]

theorem lookup_isSome_iff {β : Type} (k : String) (l : List (String × β)) :
    (l.lookup k).isSome = true ↔ k ∈ l.map Prod.fst := by
  induction l with
  | nil => simp [List.lookup]
  | cons hd tl ih =>
    rw [show hd = (hd.1, hd.2) from rfl, lookup_cons]
    by_cases h : k = hd.1
    · simp [h]
    · simp [h, ih]

theorem lookup_of_mem_nodup {β : Type} (k : String) (v : β) (l : List (String × β))
    (hnd : (l.map Prod.fst).Nodup) (hm : (k, v) ∈ l) : l.lookup k = some v := by
  induction l with
  | nil => cases hm
  | cons hd tl ih =>
    simp only [List.map_cons, List.nodup_cons] at hnd
    rcases List.mem_cons.mp hm with he | hm2
    · rw [← he, lookup_cons, if_pos rfl]
    · have hk : ¬ k = hd.1 := fun he2 =>
        hnd.1 (he2 ▸ List.mem_map.mpr ⟨(k, v), hm2, rfl⟩)
      rw [show hd = (hd.1, hd.2) from rfl, lookup_cons, if_neg hk]
      exact ih hnd.2 hm2

theorem map_fst_filter_subset {β : Type} (f : String × β → Bool) (l : List (String × β)) :
    (l.filter f).map Prod.fst ⊆ l.map Prod.fst := by
  intro k hk
  rcases List.mem_map.mp hk with ⟨t, ht, he⟩
  exact List.mem_map.mpr ⟨t, (List.mem_filter.mp ht).1, he⟩

theorem lookup_filter_nodup {β : Type} (k : String) (v : β) (f : String × β → Bool)
    (l : List (String × β)) (hnd : (l.map Prod.fst).Nodup) (hm : (k, v) ∈ l) :
    (l.filter f).lookup k = if f (k, v) = true then some v else none := by
  induction l with
  | nil => cases hm
  | cons hd tl ih =>
    simp only [List.map_cons, List.nodup_cons] at hnd
    rcases List.mem_cons.mp hm with he | hm2
    · subst he
      rw [List.filter_cons]
      by_cases hf : f (k, v) = true
      · rw [if_pos hf, if_pos hf, lookup_cons, if_pos rfl]
      · rw [if_neg hf, if_neg hf]
        exact lookup_eq_none _ _ (fun hmem => hnd.1 (map_fst_filter_subset f tl hmem))
    · have hk : ¬ k = hd.1 := fun he2 =>
        hnd.1 (he2 ▸ List.mem_map.mpr ⟨(k, v), hm2, rfl⟩)
      rw [List.filter_cons]
      by_cases hf : f hd = true
      · rw [if_pos hf, show hd = (hd.1, hd.2) from rfl, lookup_cons, if_neg hk]
        exact ih hnd.2 hm2
      · rw [if_neg hf]
        exact ih hnd.2 hm2

theorem shallowEqual_parts {a b : Entity} (h : shallowEqualEntity a b = true) :
    a.length = b.length ∧ ∀ kv ∈ a, b.lookup kv.1 = some kv.2 := by
  unfold shallowEqualEntity at h
  rw [Bool.and_eq_true, List.all_eq_true] at h
  refine ⟨of_decide_eq_true h.1, ?_⟩
  intro kv hkv
  have h2 := h.2 kv hkv
  cases hb : b.lookup kv.1 with
  | none => rw [hb] at h2; exact absurd h2 (by simp)
  | some v =>
    rw [hb] at h2
    have h3 : v = kv.2 := of_decide_eq_true h2
    rw [h3]

theorem shallowEqual_eq : ∀ (K : List String), K.Nodup →
    ∀ (a b : Entity), a.map Prod.fst = K → b.map Prod.fst = K →
      shallowEqualEntity a b = true → a = b := by
  intro K
  induction K with
  | nil =>
    intro _ a b ha hb _
    cases a with
    | nil =>
      cases b with
      | nil => rfl
      | cons hd tl => simp at hb
    | cons hd tl => simp at ha
  | cons k K ih =>
    intro hnd a b ha hb hse
    cases a with
    | nil => simp at ha
    | cons ahd atl =>
      cases b with
      | nil => simp at hb
      | cons bhd btl =>
        simp only [List.map_cons, List.cons.injEq] at ha hb
        rw [List.nodup_cons] at hnd
        obtain ⟨hse1, hse2⟩ := shallowEqual_parts hse
        have hhead := hse2 ahd (List.mem_cons_self _ _)
        rw [show bhd = (bhd.1, bhd.2) from rfl, lookup_cons, ha.1, hb.1, if_pos rfl] at hhead
        have hv : bhd.2 = ahd.2 := Option.some_inj.mp hhead
        have htl : shallowEqualEntity atl btl = true := by
          unfold shallowEqualEntity
          rw [Bool.and_eq_true, List.all_eq_true]
          constructor
          · exact decide_eq_true (Nat.succ_injective (by simpa using hse1))
          · intro kv hkv
            have h2 := hse2 kv (List.mem_cons_of_mem _ hkv)
            have hkne : ¬ kv.1 = bhd.1 := by
              rw [hb.1]
              intro he
              apply hnd.1
              rw [← he]
              exact ha.2 ▸ List.mem_map.mpr ⟨kv, hkv, rfl⟩
            rw [show bhd = (bhd.1, bhd.2) from rfl, lookup_cons, if_neg hkne] at h2
            rw [h2]
            exact decide_eq_true rfl
        have hrest := ih hnd.2 atl btl ha.2 hb.2 htl
        have hhd : ahd = bhd := by
          rw [show ahd = (ahd.1, ahd.2) from rfl, show bhd = (bhd.1, bhd.2) from rfl,
            ha.1, hb.1, hv]
        rw [hhd, hrest]

theorem getD_if_length {α : Type} (x : List α) :
    (if x.length ≠ 0 then some x else none).getD [] = x := by
  cases x <;> simp

theorem scalar_getD {α : Type} [DecidableEq α] (a b : α) :
    (if a ≠ b then some b else none).getD a = b := by
  by_cases h : a = b <;> simp [h]

theorem filter_none_of_all_some {β : Type} (prevl patch : List (String × β))
    (h : ∀ t ∈ patch, (prevl.lookup t.1).isSome = true) :
    patch.filter (fun t => (prevl.lookup t.1).isNone) = [] := by
  induction patch with
  | nil => rfl
  | cons hd tl ih =>
    have h1 := h hd (List.mem_cons_self _ _)
    have h2 : ¬ ((prevl.lookup hd.1).isNone = true) := by
      cases hc : prevl.lookup hd.1 with
      | none => rw [hc] at h1; simp at h1
      | some v => simp
    simp only [List.filter_cons]
    rw [if_neg h2, ih (fun t ht => h t (List.mem_cons_of_mem _ ht))]

theorem map_eq_of_pointwise {β : Type} (φ : (String × β) → (String × β)) :
    ∀ (P N : List (String × β)),
    P.map Prod.fst = N.map Prod.fst →
    (∀ t ∈ P, ∀ ne, (t.1, ne) ∈ N → φ t = (t.1, ne)) →
    P.map φ = N := by
  intro P
  induction P with
  | nil =>
    intro N h _
    cases N with
    | nil => rfl
    | cons hd tl => simp at h
  | cons hd tl ih =>
    intro N hk hpt
    cases N with
    | nil => simp at hk
    | cons nhd ntl =>
      simp only [List.map_cons, List.cons.injEq] at hk
      rw [List.map_cons]
      refine congrArg₂ List.cons ?_ (ih ntl hk.2
        (fun t ht ne hne => hpt t (List.mem_cons_of_mem _ ht) ne
          (List.mem_cons_of_mem _ hne)))
      have hh := hpt hd (List.mem_cons_self hd tl) nhd.2
        (by rw [hk.1]; exact List.mem_cons_self nhd ntl)
      rw [hh, hk.1]

theorem mergePatch_roundtrip (P N : List (String × Entity)) (K : List String)
    (hKnd : K.Nodup)
    (hPk : ∀ t ∈ P, t.2.map Prod.fst = K) (hNk : ∀ t ∈ N, t.2.map Prod.fst = K)
    (hkeys : P.map Prod.fst = N.map Prod.fst)
    (hnd : (P.map Prod.fst).Nodup) :
    mergePatch P (N.filter (fun t =>
      ((P.lookup t.1).map (fun pe => !(shallowEqualEntity pe t.2))).getD true)) = N := by
  have hndN : (N.map Prod.fst).Nodup := hkeys ▸ hnd
  unfold mergePatch
  have happ : (N.filter (fun t =>
      ((P.lookup t.1).map (fun pe => !(shallowEqualEntity pe t.2))).getD true)).filter
        (fun t => (P.lookup t.1).isNone) = [] := by
    apply filter_none_of_all_some
    intro t ht
    have htN : t ∈ N := (List.mem_filter.mp ht).1
    have hmem : t.1 ∈ P.map Prod.fst := by
      rw [hkeys]; exact List.mem_map.mpr ⟨t, htN, rfl⟩
    exact (lookup_isSome_iff _ _).mpr hmem
  rw [happ, List.append_nil]
  refine map_eq_of_pointwise _ P N hkeys ?_
  intro t ht ne hne
  have hlp : P.lookup t.1 = some t.2 := lookup_of_mem_nodup _ _ _ hnd ht
  have hfilter := lookup_filter_nodup t.1 ne (fun t =>
      ((P.lookup t.1).map (fun pe => !(shallowEqualEntity pe t.2))).getD true) N hndN hne
  have hfilter2 : (N.filter (fun t =>
      ((P.lookup t.1).map (fun pe => !(shallowEqualEntity pe t.2))).getD true)).lookup t.1 =
      if ((P.lookup t.1).map (fun pe => !(shallowEqualEntity pe ne))).getD true = true
        then some ne else none := hfilter
  rw [hlp] at hfilter2
  simp only [Option.map_some', Option.getD_some] at hfilter2
  by_cases hse : shallowEqualEntity t.2 ne = true
  · have heq : t.2 = ne := shallowEqual_eq K hKnd t.2 ne (hPk t ht) (hNk (t.1, ne) hne) hse
    have hnone : (N.filter (fun t =>
        ((P.lookup t.1).map (fun pe => !(shallowEqualEntity pe t.2))).getD true)).lookup t.1 =
        none := hfilter2.trans (if_neg (by simp [hse]))
    rw [hnone]
    simp only [Option.map_none', Option.getD_none]
    rw [← heq]
  · have hb : shallowEqualEntity t.2 ne = false := by
      cases h2 : shallowEqualEntity t.2 ne with
      | true => exact absurd h2 hse
      | false => rfl
    have hsome : (N.filter (fun t =>
        ((P.lookup t.1).map (fun pe => !(shallowEqualEntity pe t.2))).getD true)).lookup t.1 =
        some ne := hfilter2.trans (if_pos (by simp [hb]))
    rw [hsome]
    simp only [Option.map_some', Option.getD_some]

theorem setV_append {β : Type} (k : String) (v : β) : ∀ (l : List (String × β)),
    k ∉ l.map Prod.fst → setV k v l = l ++ [(k, v)] := by
  intro l
  induction l with
  | nil => intro _; rfl
  | cons hd tl ih =>
    intro h
    simp only [List.map_cons, List.mem_cons, not_or] at h
    cases hd with
    | mk a b =>
      rw [setV, if_neg (fun he => h.1 he.symm), ih h.2, List.cons_append]

theorem entityMapById_foldl : ∀ (l : List Entity) (ids : List String)
    (acc : List (String × Entity)),
    l.map entityId = ids.map some →
    (acc.map Prod.fst ++ ids).Nodup →
    l.foldl (fun out item => (entityId item).elim out (fun i => setV i item out)) acc =
      acc ++ ids.zip l := by
  intro l
  induction l with
  | nil =>
    intro ids acc hid _
    cases ids with
    | nil => simp
    | cons i tl => simp at hid
  | cons e l ih =>
    intro ids acc hid hnd
    cases ids with
    | nil => simp at hid
    | cons i ids =>
      simp only [List.map_cons, List.cons.injEq] at hid
      have hni : i ∉ acc.map Prod.fst := by
        intro hmem
        rcases List.nodup_append.mp hnd with ⟨_, _, hdisj⟩
        exact hdisj hmem (List.mem_cons_self _ _)
      have hstep : (entityId e).elim acc (fun j => setV j e acc) = acc ++ [(i, e)] := by
        rw [hid.1]
        exact setV_append i e acc hni
      rw [List.foldl_cons, hstep, ih ids (acc ++ [(i, e)]) hid.2 (by
        rw [List.map_append]
        have : (acc.map Prod.fst ++ [(i, e)].map Prod.fst) ++ ids =
            acc.map Prod.fst ++ (i :: ids) := by simp
        rw [this]
        exact hnd)]
      simp [List.zip_cons_cons]

theorem entityMapById_zip (l : List Entity) (ids : List String)
    (hid : l.map entityId = ids.map some) (hnd : ids.Nodup) :
    entityMapById l = ids.zip l := by
  unfold entityMapById
  have h := entityMapById_foldl l ids [] hid (by simpa using hnd)
  simpa using h

theorem mem_zip_align : ∀ (ids : List String) (l : List Entity),
    l.map entityId = ids.map some →
    ∀ i e, (i, e) ∈ ids.zip l → entityId e = some i := by
  intro ids
  induction ids with
  | nil => intro l _ i e hm; simp at hm
  | cons j tl ih =>
    intro l hid i e hm
    cases l with
    | nil => simp at hm
    | cons me l =>
      simp only [List.map_cons, List.cons.injEq] at hid
      rw [List.zip_cons_cons] at hm
      rcases List.mem_cons.mp hm with he | hm2
      · rw [Prod.mk.injEq] at he
        rw [he.2, hid.1, he.1]
      · exact ih l hid.2 i e hm2

theorem mem_zip_of_mem_right : ∀ (ids : List String) (l : List Entity),
    l.map entityId = ids.map some →
    ∀ e ∈ l, ∃ i, (i, e) ∈ ids.zip l := by
  intro ids
  induction ids with
  | nil =>
    intro l hid e he
    cases l with
    | nil => cases he
    | cons me l => simp at hid
  | cons j tl ih =>
    intro l hid e he
    cases l with
    | nil => cases he
    | cons me l =>
      simp only [List.map_cons, List.cons.injEq] at hid
      rw [List.zip_cons_cons]
      rcases List.mem_cons.mp he with he2 | he2
      · exact ⟨j, by rw [he2]; exact List.mem_cons_self _ _⟩
      · rcases ih l hid.2 e he2 with ⟨i, hi⟩
        exact ⟨i, List.mem_cons_of_mem _ hi⟩

theorem ent_inj : ∀ (N : List Entity) (Nids : List String),
    N.map entityId = Nids.map some → Nids.Nodup →
    ∀ a ∈ N, ∀ b ∈ N, entityId a = entityId b → a = b := by
  intro N
  induction N with
  | nil => intro Nids _ _ a ha; cases ha
  | cons e N ih =>
    intro Nids hid hnd a ha b hb heq
    cases Nids with
    | nil => simp at hid
    | cons i Nids =>
      simp only [List.map_cons, List.cons.injEq] at hid
      rw [List.nodup_cons] at hnd
      have hmemid : ∀ c ∈ N, ∀ j, entityId c = some j → j ∈ Nids := by
        intro c hc j hj
        have : some j ∈ N.map entityId := List.mem_map.mpr ⟨c, hc, hj⟩
        rw [hid.2] at this
        rcases List.mem_map.mp this with ⟨j2, hj2, he⟩
        rw [Option.some_inj] at he
        rw [← he]
        exact hj2
      rcases List.mem_cons.mp ha with ha2 | ha2 <;> rcases List.mem_cons.mp hb with hb2 | hb2
      · rw [ha2, hb2]
      · exfalso
        apply hnd.1
        apply hmemid b hb2 i
        rw [← heq, ha2, hid.1]
      · exfalso
        apply hnd.1
        apply hmemid a ha2 i
        rw [heq, hb2, hid.1]
      · exact ih Nids hid.2 hnd.2 a ha2 b hb2 heq

theorem findById_unique (N : List Entity) (Nids : List String)
    (hid : N.map entityId = Nids.map some) (hnd : Nids.Nodup)
    (a : Entity) (ha : a ∈ N) (i : String) (hai : entityId a = some i) :
    N.find? (fun c => entityId c == some i) = some a := by
  cases hf : N.find? (fun c => entityId c == some i) with
  | none =>
    rw [List.find?_eq_none] at hf
    have hfa := hf a ha
    rw [hai] at hfa
    simp at hfa
  | some c =>
    have hc : entityId c = some i := by
      have := List.find?_some hf
      simpa using this
    have hcN := List.mem_of_find?_eq_some hf
    rw [ent_inj N Nids hid hnd c hcN a ha (by rw [hc, hai])]

theorem kept_eq_canonical (N : List Entity) (Nids : List String)
    (hid : N.map entityId = Nids.map some) (hnd : Nids.Nodup) :
    ∀ (kept : List Entity) (ids : List String),
    kept.map entityId = ids.map some →
    (∀ x ∈ kept, x ∈ N) →
    kept = ids.map (fun i => (N.find? (fun c => entityId c == some i)).getD []) := by
  intro kept
  induction kept with
  | nil =>
    intro ids h _
    cases ids with
    | nil => rfl
    | cons i tl => simp at h
  | cons ke kept ih =>
    intro ids h hsub
    cases ids with
    | nil => simp at h
    | cons i ids =>
      simp only [List.map_cons, List.cons.injEq] at h
      rw [List.map_cons]
      refine congrArg₂ List.cons ?_ (ih ids h.2
        (fun x hx => hsub x (List.mem_cons_of_mem _ hx)))
      rw [findById_unique N Nids hid hnd ke (hsub ke (List.mem_cons_self _ _)) i h.1]
      rfl

theorem contains_iff_mem : ∀ (l : List String) (a : String), l.contains a = true ↔ a ∈ l := by
  intro l a
  induction l with
  | nil => simp
  | cons hd tl ih =>
    by_cases h : a = hd
    · simp [h]
    · simp [h, ih]

theorem anyId_iff : ∀ (P : List Entity) (Pids : List String),
    P.map entityId = Pids.map some →
    ∀ i, ((P.any (fun e => entityId e == some i)) = true ↔ i ∈ Pids) := by
  intro P
  induction P with
  | nil =>
    intro Pids h i
    cases Pids with
    | nil => simp
    | cons j tl => simp at h
  | cons e P ih =>
    intro Pids h i
    cases Pids with
    | nil => simp at h
    | cons j Pids =>
      simp only [List.map_cons, List.cons.injEq] at h
      rw [List.any_cons, Bool.or_eq_true, h.1]
      simp only [List.mem_cons, ih Pids h.2 i, beq_iff_eq, Option.some_inj]
      constructor
      · rintro (he | hm)
        · exact Or.inl he.symm
        · exact Or.inr hm
      · rintro (he | hm)
        · exact Or.inl he.symm
        · exact Or.inr hm

theorem find?_zip_patch (q : String × Entity → Bool) :
    ∀ (zs : List (String × Entity)),
    (zs.map Prod.fst).Nodup →
    (∀ t ∈ zs, entityId t.2 = some t.1) →
    ∀ i ne, (i, ne) ∈ zs →
    (((zs.filter q).map Prod.snd).find? (fun c => entityId c == some i)) =
      if q (i, ne) = true then some ne else none := by
  intro zs
  induction zs with
  | nil => intro _ _ i ne hm; cases hm
  | cons hd tl ih =>
    intro hnd halign i ne hm
    simp only [List.map_cons, List.nodup_cons] at hnd
    have halign2 : ∀ t ∈ tl, entityId t.2 = some t.1 :=
      fun t ht => halign t (List.mem_cons_of_mem _ ht)
    rcases List.mem_cons.mp hm with he | hm2
    · subst he
      rw [List.filter_cons]
      by_cases hq : q (i, ne) = true
      · rw [if_pos hq, if_pos hq, List.map_cons]
        have ha : entityId ne = some i := halign (i, ne) (List.mem_cons_self _ _)
        rw [List.find?_cons_of_pos _ (by rw [ha]; simp)]
      · rw [if_neg hq, if_neg hq, List.find?_eq_none]
        intro c hc hbeq
        rcases List.mem_map.mp hc with ⟨t, htf, hce⟩
        have htl := (List.mem_filter.mp htf).1
        have hta := halign2 t htl
        rw [← hce, hta] at hbeq
        simp only [beq_iff_eq, Option.some_inj] at hbeq
        exact hnd.1 (hbeq ▸ List.mem_map.mpr ⟨t, htl, rfl⟩)
    · have hine : i ∈ tl.map Prod.fst := List.mem_map.mpr ⟨(i, ne), hm2, rfl⟩
      have hne : ¬ hd.1 = i := fun he => hnd.1 (he ▸ hine)
      rw [List.filter_cons]
      by_cases hq : q hd = true
      · rw [if_pos hq, List.map_cons, List.find?_cons_of_neg _ ?_,
          ih hnd.2 halign2 i ne hm2]
        have hda : entityId hd.2 = some hd.1 := halign hd (List.mem_cons_self _ _)
        rw [hda]
        simp only [beq_iff_eq, Option.some_inj]
        exact hne
      · rw [if_neg hq]
        exact ih hnd.2 halign2 i ne hm2

theorem aligned_filter (fB : Entity → Bool) (gB : String → Bool) :
    ∀ (ids : List String) (l : List Entity),
    l.map entityId = ids.map some →
    (∀ i e, (i, e) ∈ ids.zip l → fB e = gB i) →
    (l.filter fB).map entityId = (ids.filter gB).map some := by
  intro ids
  induction ids with
  | nil =>
    intro l hid _
    cases l with
    | nil => rfl
    | cons e l => simp at hid
  | cons j ids ih =>
    intro l hid hpt
    cases l with
    | nil => simp at hid
    | cons e l =>
      simp only [List.map_cons, List.cons.injEq] at hid
      have hfe : fB e = gB j := hpt j e
        (by rw [List.zip_cons_cons]; exact List.mem_cons_self _ _)
      have hrest := ih l hid.2 (fun i e2 hm => hpt i e2
        (by rw [List.zip_cons_cons]; exact List.mem_cons_of_mem _ hm))
      by_cases hg : gB j = true
      · have hf : fB e = true := hfe.trans hg
        rw [List.filter_cons, List.filter_cons, if_pos hf, if_pos hg,
          List.map_cons, List.map_cons, hid.1, hrest]
      · have hf : ¬ fB e = true := fun hc => hg (hfe.symm.trans hc)
        rw [List.filter_cons, List.filter_cons, if_neg hf, if_neg hg, hrest]

theorem zip_filter_fst (p : String → Bool) : ∀ (ids : List String) (l : List Entity),
    ids.length ≤ l.length →
    ((ids.zip l).filter (fun t => p t.1)).map Prod.fst = ids.filter p := by
  intro ids
  induction ids with
  | nil => intro l _; simp
  | cons j ids ih =>
    intro l hlen
    cases l with
    | nil => simp at hlen
    | cons e l =>
      simp only [List.length_cons, Nat.succ_le_succ_iff] at hlen
      rw [List.zip_cons_cons, List.filter_cons, List.filter_cons]
      by_cases hp : p j = true
      · rw [if_pos hp, if_pos hp, List.map_cons, ih l hlen]
      · rw [if_neg hp, if_neg hp, ih l hlen]

theorem lookup_eq_none_iff {β : Type} (k : String) (l : List (String × β)) :
    l.lookup k = none ↔ k ∉ l.map Prod.fst := by
  constructor
  · intro h hmem
    have hs := (lookup_isSome_iff k l).mpr hmem
    rw [h] at hs
    simp at hs
  · exact lookup_eq_none k l

set_option maxHeartbeats 1600000 in
theorem applyCollectionDelta_roundtrip
    (P N kept newE : List Entity) (K Pids keptIds newIds : List String)
    (hKnd : K.Nodup)
    (hPK : ∀ e ∈ P, e.map Prod.fst = K)
    (hNK : ∀ e ∈ N, e.map Prod.fst = K)
    (hPid : P.map entityId = Pids.map some)
    (hkid : kept.map entityId = keptIds.map some)
    (hwid : newE.map entityId = newIds.map some)
    (hPnd : Pids.Nodup)
    (hNnd : (keptIds ++ newIds).Nodup)
    (hN : N = kept ++ newE)
    (hkeptIds : keptIds = Pids.filter (fun i => decide (i ∈ keptIds ++ newIds)))
    (hnew : ∀ i ∈ newIds, i ∉ Pids) :
    applyCollectionDelta P
      (((entityMapById N).filter (fun t =>
        (((entityMapById P).lookup t.1).map
          (fun pe => !(shallowEqualEntity pe t.2))).getD true)).map Prod.snd)
      (((entityMapById P).filter (fun t =>
        ((entityMapById N).lookup t.1).isNone)).map Prod.fst) = N := by
  have hNid : N.map entityId = (keptIds ++ newIds).map some := by
    rw [hN, List.map_append, hkid, hwid, List.map_append]
  have hPlen : Pids.length ≤ P.length := by
    have := congrArg List.length hPid
    simp only [List.length_map] at this
    exact this.ge
  have hNlen : (keptIds ++ newIds).length ≤ N.length := by
    have := congrArg List.length hNid
    simp only [List.length_map] at this
    exact this.ge
  have hklen : keptIds.length = kept.length := by
    have := congrArg List.length hkid
    simp only [List.length_map] at this
    exact this.symm
  have hwlen : newE.length ≤ newIds.length := by
    have := congrArg List.length hwid
    simp only [List.length_map] at this
    exact this.le
  have hPmap : entityMapById P = Pids.zip P := entityMapById_zip P Pids hPid hPnd
  have hNmap : entityMapById N = (keptIds ++ newIds).zip N :=
    entityMapById_zip N (keptIds ++ newIds) hNid hNnd
  have hPkeys : (Pids.zip P).map Prod.fst = Pids := List.map_fst_zip Pids P hPlen
  have hNkeys : ((keptIds ++ newIds).zip N).map Prod.fst = keptIds ++ newIds :=
    List.map_fst_zip _ N hNlen
  have hPknd : ((Pids.zip P).map Prod.fst).Nodup := by rw [hPkeys]; exact hPnd
  have hNknd : (((keptIds ++ newIds).zip N).map Prod.fst).Nodup := by
    rw [hNkeys]; exact hNnd
  have halignP : ∀ t ∈ Pids.zip P, entityId t.2 = some t.1 :=
    fun t ht => mem_zip_align Pids P hPid t.1 t.2 ht
  have halignN : ∀ t ∈ (keptIds ++ newIds).zip N, entityId t.2 = some t.1 :=
    fun t ht => mem_zip_align _ N hNid t.1 t.2 ht
  rw [hPmap, hNmap]
  set RM : List String := ((Pids.zip P).filter (fun t =>
    (((keptIds ++ newIds).zip N).lookup t.1).isNone)).map Prod.fst with hRM
  set PT : List Entity := (((keptIds ++ newIds).zip N).filter (fun t =>
    (((Pids.zip P).lookup t.1).map (fun pe => !(shallowEqualEntity pe t.2))).getD
      true)).map Prod.snd with hPT
  have hremoved : RM = Pids.filter (fun i => (((keptIds ++ newIds).zip N).lookup i).isNone) := by
    rw [hRM]
    exact zip_filter_fst (fun i => (((keptIds ++ newIds).zip N).lookup i).isNone) Pids P hPlen
  have hmem_removed : ∀ i, i ∈ RM ↔ (i ∈ Pids ∧ i ∉ keptIds ++ newIds) := by
    intro i
    rw [hremoved, List.mem_filter]
    constructor
    · intro h
      refine ⟨h.1, ?_⟩
      have h2 := h.2
      rw [Option.isNone_iff_eq_none, lookup_eq_none_iff, hNkeys] at h2
      exact h2
    · intro h
      refine ⟨h.1, ?_⟩
      rw [Option.isNone_iff_eq_none, lookup_eq_none_iff, hNkeys]
      exact h.2
  have hzipN : (keptIds ++ newIds).zip N = keptIds.zip kept ++ newIds.zip newE := by
    rw [hN]
    exact List.zip_append hklen
  have halignK : ∀ t ∈ keptIds.zip kept, entityId t.2 = some t.1 :=
    fun t ht => mem_zip_align keptIds kept hkid t.1 t.2 ht
  have halignW : ∀ t ∈ newIds.zip newE, entityId t.2 = some t.1 :=
    fun t ht => mem_zip_align newIds newE hwid t.1 t.2 ht
  have hpatch : PT = ((keptIds.zip kept).filter (fun t =>
      (((Pids.zip P).lookup t.1).map (fun pe => !(shallowEqualEntity pe t.2))).getD
        true)).map Prod.snd ++ newE := by
    rw [hPT, hzipN, List.filter_append, List.map_append]
    have hall : (newIds.zip newE).filter (fun t =>
        (((Pids.zip P).lookup t.1).map (fun pe => !(shallowEqualEntity pe t.2))).getD
          true) = newIds.zip newE := by
      rw [List.filter_eq_self]
      intro t ht
      have hti : t.1 ∈ newIds := (List.of_mem_zip (a := t.1) (b := t.2) ht).1
      have hlook : (Pids.zip P).lookup t.1 = none := by
        rw [lookup_eq_none_iff, hPkeys]
        exact hnew t.1 hti
      show (((Pids.zip P).lookup t.1).map (fun pe => !(shallowEqualEntity pe t.2))).getD
        true = true
      rw [hlook]
      rfl
    rw [hall, List.map_snd_zip newIds newE hwlen]
  have hpart2 : PT.filter (fun c => ((entityId c).map (fun i => !(P.any (fun e => entityId e == some i)))).getD true) = newE := by
    rw [hpatch, List.filter_append]
    have hk0 : ((((keptIds.zip kept).filter (fun t =>
        (((Pids.zip P).lookup t.1).map (fun pe => !(shallowEqualEntity pe t.2))).getD
          true)).map Prod.snd).filter (fun c => ((entityId c).map (fun i => !(P.any (fun e => entityId e == some i)))).getD true)) = [] := by
      rw [List.filter_eq_nil_iff]
      intro c hc
      rcases List.mem_map.mp hc with ⟨t, htf, hce⟩
      have htK := (List.mem_filter.mp htf).1
      have ha : entityId t.2 = some t.1 := halignK t htK
      have ht1 : t.1 ∈ keptIds := (List.of_mem_zip (a := t.1) (b := t.2) htK).1
      have ht1P : t.1 ∈ Pids := by
        rw [hkeptIds] at ht1
        exact (List.mem_filter.mp ht1).1
      have hany : (P.any (fun e => entityId e == some t.1)) = true :=
        (anyId_iff P Pids hPid t.1).mpr ht1P
      rw [← hce]
      show ¬ (((entityId t.2).map
        (fun i => !(P.any (fun e => entityId e == some i)))).getD true = true)
      rw [ha]
      simp only [Option.map_some', Option.getD_some, hany]
      simp
    have hw0 : newE.filter (fun c => ((entityId c).map (fun i => !(P.any (fun e => entityId e == some i)))).getD true) = newE := by
      rw [List.filter_eq_self]
      intro c hc
      obtain ⟨i, hm⟩ := mem_zip_of_mem_right newIds newE hwid c hc
      have ha : entityId c = some i := halignW (i, c) hm
      have hiW : i ∈ newIds := (List.of_mem_zip hm).1
      have hnotP : i ∉ Pids := hnew i hiW
      have hany : (P.any (fun e => entityId e == some i)) = false := by
        cases hq : (P.any (fun e => entityId e == some i)) with
        | false => rfl
        | true => exact absurd ((anyId_iff P Pids hPid i).mp hq) hnotP
      show ((entityId c).map
        (fun i => !(P.any (fun e => entityId e == some i)))).getD true = true
      rw [ha]
      simp only [Option.map_some', Option.getD_some, hany]
      rfl
    rw [hk0, hw0, List.nil_append]
  have hkeepF_pt : ∀ i e, (i, e) ∈ Pids.zip P →
      ((entityId e).map (fun j => !(RM.contains j))).getD true =
        decide (i ∈ keptIds ++ newIds) := by
    intro i e hm
    have ha : entityId e = some i := halignP (i, e) hm
    have hiP : i ∈ Pids := (List.of_mem_zip hm).1
    rw [ha]
    simp only [Option.map_some', Option.getD_some]
    by_cases hi : i ∈ keptIds ++ newIds
    · have hnotrem : i ∉ RM := fun hc => ((hmem_removed i).mp hc).2 hi
      have hcont : RM.contains i = false := by
        cases hc : RM.contains i with
        | false => rfl
        | true => exact absurd ((contains_iff_mem _ _).mp hc) hnotrem
      rw [hcont]
      simp [hi]
    · have hrem : i ∈ RM := (hmem_removed i).mpr ⟨hiP, hi⟩
      rw [(contains_iff_mem _ _).mpr hrem]
      simp [hi]
  have hfilter_ids : (P.filter (fun e => ((entityId e).map (fun i => !(RM.contains i))).getD true)).map entityId = keptIds.map some := by
    have h1 := aligned_filter (fun e => ((entityId e).map (fun i => !(RM.contains i))).getD true)
      (fun i => decide (i ∈ keptIds ++ newIds)) Pids P hPid hkeepF_pt
    rw [h1, ← hkeptIds]
  have hrepl : ∀ e ∈ P.filter (fun e => ((entityId e).map (fun i => !(RM.contains i))).getD true),
      ((((entityId e).map (fun j => (PT.find? (fun c => entityId c == some j)).getD e)).getD e) ∈ N ∧ entityId (((entityId e).map (fun j => (PT.find? (fun c => entityId c == some j)).getD e)).getD e) = entityId e) := by
    intro e hef
    have heP : e ∈ P := (List.mem_filter.mp hef).1
    have hkeep := (List.mem_filter.mp hef).2
    obtain ⟨i, hm⟩ := mem_zip_of_mem_right Pids P hPid e heP
    have ha : entityId e = some i := halignP (i, e) hm
    have hiN : i ∈ keptIds ++ newIds := by
      have h1 := hkeepF_pt i e hm
      rw [hkeep] at h1
      exact of_decide_eq_true h1.symm
    have hsome : (((keptIds ++ newIds).zip N).lookup i).isSome = true := by
      rw [lookup_isSome_iff, hNkeys]
      exact hiN
    obtain ⟨ne, hlookne⟩ := Option.isSome_iff_exists.mp hsome
    have hmne : (i, ne) ∈ ((keptIds ++ newIds).zip N) := mem_of_lookup _ _ _ hlookne
    have hneN : ne ∈ N := (List.of_mem_zip hmne).2
    have haN : entityId ne = some i := halignN (i, ne) hmne
    have hfind := find?_zip_patch (fun t =>
      (((Pids.zip P).lookup t.1).map (fun pe => !(shallowEqualEntity pe t.2))).getD true)
      ((keptIds ++ newIds).zip N) hNknd halignN i ne hmne
    have hlookP : (Pids.zip P).lookup i = some e := lookup_of_mem_nodup _ _ _ hPknd hm
    have hfind2 : (PT.find? (fun c => entityId c == some i)) =
        if (((Pids.zip P).lookup i).map (fun pe => !(shallowEqualEntity pe ne))).getD true = true
        then some ne else none := hfind
    rw [hlookP] at hfind2
    simp only [Option.map_some', Option.getD_some] at hfind2
    by_cases hse : shallowEqualEntity e ne = true
    · have hEq : e = ne := shallowEqual_eq K hKnd e ne (hPK e heP) (hNK ne hneN) hse
      have hnone : (PT.find? (fun c => entityId c == some i)) = none :=
        hfind2.trans (if_neg (by simp [hse]))
      constructor
      · rw [ha]
        simp only [Option.map_some', Option.getD_some]
        rw [hnone]
        simp only [Option.getD_none]
        rw [hEq]
        exact hneN
      · rw [ha]
        simp only [Option.map_some', Option.getD_some]
        rw [hnone]
        simp only [Option.getD_none]
        exact ha
    · have hsomef : (PT.find? (fun c => entityId c == some i)) = some ne :=
        hfind2.trans (if_pos (by
          cases h2 : shallowEqualEntity e ne with
          | true => exact absurd h2 hse
          | false => simp [h2]))
      constructor
      · rw [ha]
        simp only [Option.map_some', Option.getD_some]
        rw [hsomef]
        simp only [Option.getD_some]
        exact hneN
      · rw [ha]
        simp only [Option.map_some', Option.getD_some]
        rw [hsomef]
        simp only [Option.getD_some, haN]
  have hsub1 : ∀ x ∈ (P.filter (fun e => ((entityId e).map (fun i => !(RM.contains i))).getD true)).map (fun e => ((entityId e).map (fun i => (PT.find? (fun c => entityId c == some i)).getD e)).getD e), x ∈ N := by
    intro x hx
    rcases List.mem_map.mp hx with ⟨e, he, heq⟩
    rw [← heq]
    exact (hrepl e he).1
  have hids1 : ((P.filter (fun e => ((entityId e).map (fun i => !(RM.contains i))).getD true)).map (fun e => ((entityId e).map (fun i => (PT.find? (fun c => entityId c == some i)).getD e)).getD e)).map entityId = keptIds.map some := by
    rw [List.map_map]
    have hcg := List.map_congr_left (l := P.filter (fun e => ((entityId e).map (fun i => !(RM.contains i))).getD true))
      (f := entityId ∘ (fun e => ((entityId e).map (fun i => (PT.find? (fun c => entityId c == some i)).getD e)).getD e)) (g := entityId) (fun e he => (hrepl e he).2)
    rw [hcg, hfilter_ids]
  have hcanon1 := kept_eq_canonical N (keptIds ++ newIds) hNid hNnd
    ((P.filter (fun e => ((entityId e).map (fun i => !(RM.contains i))).getD true)).map (fun e => ((entityId e).map (fun i => (PT.find? (fun c => entityId c == some i)).getD e)).getD e)) keptIds hids1 hsub1
  have hcanon2 := kept_eq_canonical N (keptIds ++ newIds) hNid hNnd
    kept keptIds hkid (fun x hx => by rw [hN]; exact List.mem_append_left newE hx)
  have hpart1 : (P.filter (fun e => ((entityId e).map (fun i => !(RM.contains i))).getD true)).map (fun e => ((entityId e).map (fun i => (PT.find? (fun c => entityId c == some i)).getD e)).getD e) = kept := hcanon1.trans hcanon2.symm
  calc applyCollectionDelta P PT RM
      = ((P.filter (fun e => ((entityId e).map (fun i => !(RM.contains i))).getD true)).map (fun e => ((entityId e).map (fun i => (PT.find? (fun c => entityId c == some i)).getD e)).getD e)) ++ (PT.filter (fun c => ((entityId c).map (fun i => !(P.any (fun e => entityId e == some i)))).getD true)) := rfl
    _ = kept ++ newE := congrArg₂ (fun a b : List Entity => a ++ b) hpart1 hpart2
    _ = N := hN.symm

theorem netState_ext (a b : NetState)
    (h1 : a.phase = b.phase) (h2 : a.tick = b.tick)
    (h3 : a.remainingMs = b.remainingMs) (h4 : a.players = b.players)
    (h5 : a.projectiles = b.projectiles) (h6 : a.pickups = b.pickups) : a = b := by
  cases a
  cases b
  simp only at h1 h2 h3 h4 h5 h6
  rw [h1, h2, h3, h4, h5, h6]

/-- C7: the delta round-trip law.  For a consecutive pair of network
projections of one world (same player key sequence with no duplicate keys,
entities of each kind sharing their canonical key list, string entity ids
without duplicates, and the next collections consisting of surviving
entities in previous relative order followed by freshly spawned entities
with new ids), applying buildDelta(prev, next) to prev -- replacing scalar
fields present in changed_entities, merging the player patch, upserting
changed projectiles and pickups by id and dropping removed ids --
reconstructs next exactly. -/
theorem applyDelta_buildDelta_roundtrip
    (prev next : NetState)
    (KPl KPr KPu : List String)
    (PidsPr keptIdsPr newIdsPr : List String) (keptPr newPr : List Entity)
    (PidsPu keptIdsPu newIdsPu : List String) (keptPu newPu : List Entity)
    (hKPlnd : KPl.Nodup)
    (hpk : ∀ t ∈ prev.players, t.2.map Prod.fst = KPl)
    (hnk : ∀ t ∈ next.players, t.2.map Prod.fst = KPl)
    (hkeys : prev.players.map Prod.fst = next.players.map Prod.fst)
    (hpnd : (prev.players.map Prod.fst).Nodup)
    (hKPrnd : KPr.Nodup)
    (hprK : ∀ e ∈ prev.projectiles, e.map Prod.fst = KPr)
    (hnrK : ∀ e ∈ next.projectiles, e.map Prod.fst = KPr)
    (hprId : prev.projectiles.map entityId = PidsPr.map some)
    (hkrId : keptPr.map entityId = keptIdsPr.map some)
    (hwrId : newPr.map entityId = newIdsPr.map some)
    (hprNd : PidsPr.Nodup)
    (hnrNd : (keptIdsPr ++ newIdsPr).Nodup)
    (hNr : next.projectiles = keptPr ++ newPr)
    (hkrIds : keptIdsPr = PidsPr.filter (fun i => decide (i ∈ keptIdsPr ++ newIdsPr)))
    (hnewr : ∀ i ∈ newIdsPr, i ∉ PidsPr)
    (hKPund : KPu.Nodup)
    (hpuK : ∀ e ∈ prev.pickups, e.map Prod.fst = KPu)
    (hnuK : ∀ e ∈ next.pickups, e.map Prod.fst = KPu)
    (hpuId : prev.pickups.map entityId = PidsPu.map some)
    (hkuId : keptPu.map entityId = keptIdsPu.map some)
    (hwuId : newPu.map entityId = newIdsPu.map some)
    (hpuNd : PidsPu.Nodup)
    (hnuNd : (keptIdsPu ++ newIdsPu).Nodup)
    (hNu : next.pickups = keptPu ++ newPu)
    (hkuIds : keptIdsPu = PidsPu.filter (fun i => decide (i ∈ keptIdsPu ++ newIdsPu)))
    (hnewu : ∀ i ∈ newIdsPu, i ∉ PidsPu) :
    applyDelta prev (buildDelta (some prev) next) = next := by
  have hply := mergePatch_roundtrip prev.players next.players KPl hKPlnd hpk hnk
    hkeys hpnd
  have hprj := applyCollectionDelta_roundtrip prev.projectiles next.projectiles
    keptPr newPr KPr PidsPr keptIdsPr newIdsPr hKPrnd hprK hnrK hprId hkrId hwrId
    hprNd hnrNd hNr hkrIds hnewr
  have hpku := applyCollectionDelta_roundtrip prev.pickups next.pickups
    keptPu newPu KPu PidsPu keptIdsPu newIdsPu hKPund hpuK hnuK hpuId hkuId hwuId
    hpuNd hnuNd hNu hkuIds hnewu
  refine netState_ext _ _ ?_ ?_ ?_ ?_ ?_ ?_
  · simp only [applyDelta, buildDelta]
    exact scalar_getD prev.phase next.phase
  · simp only [applyDelta, buildDelta]
    exact scalar_getD prev.tick next.tick
  · simp only [applyDelta, buildDelta]
    exact scalar_getD prev.remainingMs next.remainingMs
  · simp only [applyDelta, buildDelta]
    rw [getD_if_length]
    exact hply
  · simp only [applyDelta, buildDelta]
    rw [getD_if_length]
    exact hprj
  · simp only [applyDelta, buildDelta]
    rw [getD_if_length]
    exact hpku

/-- C7 witness: the round-trip law applied to a concrete consecutive pair
in which a player entity changes, a projectile expires, another moves, and
a projectile and a pickup spawn. -/
theorem applyDelta_buildDelta_roundtrip_witness :
    applyDelta c7prev (buildDelta (some c7prev) c7next) = c7next :=
  applyDelta_buildDelta_roundtrip c7prev c7next
    ["id", "hp"] ["id", "x"] ["id", "x"]
    ["p1", "p2"] ["p2"] ["p3"]
    [[("id", NV.str "p2"), ("x", NV.num 5)]]
    [[("id", NV.str "p3"), ("x", NV.num 7)]]
    [] [] ["u1"] []
    [[("id", NV.str "u1"), ("x", NV.num 0)]]
    (by with_unfolding_all decide) (by with_unfolding_all decide)
    (by with_unfolding_all decide) (by with_unfolding_all decide)
    (by with_unfolding_all decide) (by with_unfolding_all decide)
    (by with_unfolding_all decide) (by with_unfolding_all decide)
    (by with_unfolding_all decide) (by with_unfolding_all decide)
    (by with_unfolding_all decide) (by with_unfolding_all decide)
    (by with_unfolding_all decide) (by with_unfolding_all decide)
    (by with_unfolding_all decide) (by with_unfolding_all decide)
    (by with_unfolding_all decide) (by with_unfolding_all decide)
    (by with_unfolding_all decide) (by with_unfolding_all decide)
    (by with_unfolding_all decide) (by with_unfolding_all decide)
    (by with_unfolding_all decide) (by with_unfolding_all decide)
    (by with_unfolding_all decide) (by with_unfolding_all decide)
    (by with_unfolding_all decide)

theorem ratFloor_eq_intFloor (q : ℚ) : q.floor = ⌊q⌋ := by
  rw [Rat.floor_def', Rat.floor_def]

theorem jsRound_le (q : ℚ) : (jsRound q : ℚ) ≤ q + 1 / 2 := by
  rw [jsRound, ratFloor_eq_intFloor]
  exact Int.floor_le (q + 1 / 2)

theorem lt_jsRound (q : ℚ) : q - 1 / 2 < (jsRound q : ℚ) := by
  rw [jsRound, ratFloor_eq_intFloor]
  have := Int.sub_one_lt_floor (q + 1 / 2)
  linarith

theorem jsRound_mono {a b : ℚ} (h : a ≤ b) : jsRound a ≤ jsRound b := by
  rw [jsRound, jsRound, ratFloor_eq_intFloor, ratFloor_eq_intFloor]
  exact Int.floor_le_floor (by linarith)

theorem jsRound_nonneg {q : ℚ} (h : 0 ≤ q) : (0 : ℚ) ≤ (jsRound q : ℚ) := by
  have h0 : jsRound 0 = 0 := by
    rw [jsRound, ratFloor_eq_intFloor]
    norm_num
  have := jsRound_mono h
  rw [h0] at this
  exact_mod_cast this

theorem roundState_mono {a b : ℚ} (h : a ≤ b) : roundState a ≤ roundState b := by
  rw [roundState, roundState]
  have hm : jsRound (a * STATE_PRECISION) ≤ jsRound (b * STATE_PRECISION) :=
    jsRound_mono (by
      have : (0 : ℚ) < STATE_PRECISION := by norm_num [STATE_PRECISION]
      nlinarith)
  have hSP : (0 : ℚ) < STATE_PRECISION := by norm_num [STATE_PRECISION]
  exact (div_le_div_iff_of_pos_right hSP).mpr (by exact_mod_cast hm)

theorem roundState_sub_abs (v : ℚ) : |roundState v - v| ≤ 1 / 20000 := by
  have h1 := jsRound_le (v * STATE_PRECISION)
  have h2 := lt_jsRound (v * STATE_PRECISION)
  have hSP : (STATE_PRECISION : ℚ) = 10000 := rfl
  rw [hSP] at h1 h2
  rw [abs_le]
  rw [show roundState v = (jsRound (v * 10000) : ℚ) / 10000 from rfl]
  constructor <;> [linarith; linarith]

theorem roundState_quantized {v : ℚ} (h : isQuantized v) : roundState v = v := by
  obtain ⟨n, rfl⟩ := h
  rw [roundState, jsRound, ratFloor_eq_intFloor]
  have hSP : (STATE_PRECISION : ℚ) ≠ 0 := by norm_num [STATE_PRECISION]
  rw [div_mul_cancel₀ _ hSP]
  have : ⌊(n : ℚ) + 1 / 2⌋ = n := by
    rw [Int.floor_int_add]
    norm_num
  rw [this]

theorem hypot_zero (prims : Prims) (hok : HypotOK prims) : prims.hypot 0 0 = 0 := by
  have := hok.homog 0 0 0 le_rfl
  simpa using this

theorem clampArena_spec (q : Player) (st : GameState)
    (hw : st.arena.width = CONFIG.arenaWidth) (hh : st.arena.height = CONFIG.arenaHeight) :
    CONFIG.playerRadius ≤ (clampPlayerToArena q st).x ∧
    (clampPlayerToArena q st).x ≤ CONFIG.arenaWidth - CONFIG.playerRadius ∧
    CONFIG.playerRadius ≤ (clampPlayerToArena q st).y ∧
    (clampPlayerToArena q st).y ≤ CONFIG.arenaHeight - CONFIG.playerRadius ∧
    ((clampPlayerToArena q st).vx = q.vx ∨ (clampPlayerToArena q st).vx = 0) ∧
    ((clampPlayerToArena q st).vy = q.vy ∨ (clampPlayerToArena q st).vy = 0) ∧
    (clampPlayerToArena q st).hp = q.hp := by
  have hr : CONFIG.playerRadius = 5 / 2 := by norm_num [CONFIG.playerRadius]
  have hwv : CONFIG.arenaWidth = 100 := rfl
  have hhv : CONFIG.arenaHeight = 100 := rfl
  simp only [clampPlayerToArena, hw, hh, hwv, hhv, hr]
  split_ifs <;> simp_all
  all_goals norm_num

theorem hypot_speedClamp (prims : Prims) (hok : HypotOK prims) (vxB vyB : ℚ) :
    prims.hypot
      (if CONFIG.maxSpeed < prims.hypot vxB vyB then
        vxB * (CONFIG.maxSpeed / prims.hypot vxB vyB) else vxB)
      (if CONFIG.maxSpeed < prims.hypot vxB vyB then
        vyB * (CONFIG.maxSpeed / prims.hypot vxB vyB) else vyB) ≤ CONFIG.maxSpeed := by
  by_cases hs : CONFIG.maxSpeed < prims.hypot vxB vyB
  · rw [if_pos hs, if_pos hs]
    have hpos : (0 : ℚ) < prims.hypot vxB vyB := by
      have : (0 : ℚ) < CONFIG.maxSpeed := by norm_num [CONFIG.maxSpeed]
      linarith
    have hsn : (0 : ℚ) ≤ CONFIG.maxSpeed / prims.hypot vxB vyB :=
      le_of_lt (div_pos (by norm_num [CONFIG.maxSpeed]) hpos)
    rw [hok.homog _ _ _ hsn]
    rw [div_mul_cancel₀ _ (ne_of_gt hpos)]
  · rw [if_neg hs, if_neg hs]
    exact not_lt.mp hs

theorem hypot_quantize_le (prims : Prims) (hok : HypotOK prims) (vx vy b : ℚ)
    (h : prims.hypot vx vy ≤ b) :
    prims.hypot (roundState vx) (roundState vy) ≤ b + 1 / 10000 := by
  have hx := roundState_sub_abs vx
  have hy := roundState_sub_abs vy
  have he : prims.hypot (roundState vx) (roundState vy) =
      prims.hypot (vx + (roundState vx - vx)) (vy + (roundState vy - vy)) := by
    congr 1 <;> ring
  rw [he]
  calc prims.hypot (vx + (roundState vx - vx)) (vy + (roundState vy - vy)) ≤
      prims.hypot vx vy + prims.hypot (roundState vx - vx) (roundState vy - vy) :=
        hok.subadd _ _ _ _
    _ ≤ prims.hypot vx vy + (|roundState vx - vx| + |roundState vy - vy|) :=
        add_le_add_left (hok.le_abs _ _) _
    _ ≤ b + (1 / 20000 + 1 / 20000) := add_le_add h (add_le_add hx hy)
    _ = b + 1 / 10000 := by ring

theorem pok_quantClamp (prims : Prims) (hok : HypotOK prims) (st : GameState) (q : Player)
    (hw : st.arena.width = CONFIG.arenaWidth) (hh : st.arena.height = CONFIG.arenaHeight)
    (hsp : prims.hypot q.vx q.vy ≤ CONFIG.maxSpeed)
    (h0 : 0 ≤ q.hp) (h1 : q.hp ≤ CONFIG.maxHp) :
    POKP prims (quantizePlayerState (clampPlayerToArena q st)) := by
  obtain ⟨hx1, hx2, hy1, hy2, hvx, hvy, hhp⟩ := clampArena_spec q st hw hh
  have hcs : prims.hypot (clampPlayerToArena q st).vx (clampPlayerToArena q st).vy ≤
      CONFIG.maxSpeed := by
    refine le_trans (hok.mono _ _ q.vx q.vy ?_ ?_) hsp
    · rcases hvx with h | h <;> rw [h]
      simp [abs_nonneg]
    · rcases hvy with h | h <;> rw [h]
      simp [abs_nonneg]
  have hfixlo : roundState CONFIG.playerRadius = CONFIG.playerRadius :=
    roundState_quantized ⟨25000, by norm_num [CONFIG.playerRadius, STATE_PRECISION]⟩
  have hfixhiW : roundState (CONFIG.arenaWidth - CONFIG.playerRadius) =
      CONFIG.arenaWidth - CONFIG.playerRadius :=
    roundState_quantized ⟨975000, by
      norm_num [CONFIG.playerRadius, CONFIG.arenaWidth, STATE_PRECISION]⟩
  have hfixhiH : roundState (CONFIG.arenaHeight - CONFIG.playerRadius) =
      CONFIG.arenaHeight - CONFIG.playerRadius :=
    roundState_quantized ⟨975000, by
      norm_num [CONFIG.playerRadius, CONFIG.arenaHeight, STATE_PRECISION]⟩
  refine ⟨?_, ?_, ?_, ?_, ?_, ?_, ?_⟩
  · show 0 ≤ (clampPlayerToArena q st).hp
    rw [hhp]; exact h0
  · show (clampPlayerToArena q st).hp ≤ CONFIG.maxHp
    rw [hhp]; exact h1
  · exact hypot_quantize_le prims hok _ _ _ hcs
  · show CONFIG.playerRadius ≤ roundState (clampPlayerToArena q st).x
    rw [← hfixlo]
    exact roundState_mono hx1
  · show roundState (clampPlayerToArena q st).x ≤ CONFIG.arenaWidth - CONFIG.playerRadius
    rw [← hfixhiW]
    exact roundState_mono hx2
  · show CONFIG.playerRadius ≤ roundState (clampPlayerToArena q st).y
    rw [← hfixlo]
    exact roundState_mono hy1
  · show roundState (clampPlayerToArena q st).y ≤ CONFIG.arenaHeight - CONFIG.playerRadius
    rw [← hfixhiH]
    exact roundState_mono hy2

theorem pok_movePlayer (prims : Prims) (hok : HypotOK prims) (dtMs dt : ℚ)
    (st : GameState) (p : Player)
    (hw : st.arena.width = CONFIG.arenaWidth) (hh : st.arena.height = CONFIG.arenaHeight)
    (h0 : 0 ≤ p.hp) (h1 : p.hp ≤ CONFIG.maxHp) :
    POKP prims (movePlayer prims dtMs dt st p) := by
  simp only [movePlayer]
  have hrec : ∀ r : Player, POKP prims r → POKP prims
      { recordPosition r with
        fireCooldownMs := max 0 ((recordPosition r).fireCooldownMs - dtMs)
        novaCooldownMs := max 0 ((recordPosition r).novaCooldownMs - dtMs) } :=
    fun r hr => hr
  apply hrec
  refine pok_quantClamp prims hok st _ hw hh ?_ ?_ ?_
  · exact hypot_speedClamp prims hok _ _
  · exact h0
  · exact h1

theorem wok_setPlayer (prims : Prims) (st : GameState) (pid : String) (p1 : Player)
    (h : WorldOK prims st) (hp1 : POKP prims p1) : WorldOK prims (setPlayer st pid p1) := by
  refine ⟨h.1, h.2.1, ?_, h.2.2.2⟩
  intro t hm
  rw [show (setPlayer st pid p1).players = setV pid p1 st.players from rfl] at hm
  rcases mem_setV _ _ _ _ hm with h2 | h2
  · rw [h2]
    exact hp1
  · exact h.2.2.1 t h2

theorem wok_updPlayer (prims : Prims) (st : GameState) (pid : String) (f : Player → Player)
    (h : WorldOK prims st) (hf : ∀ q, POKP prims q → POKP prims (f q)) :
    WorldOK prims (updPlayer st pid f) := by
  refine ⟨h.1, h.2.1, ?_, h.2.2.2⟩
  intro t hm
  rw [show (updPlayer st pid f).players = updV pid f st.players from rfl] at hm
  unfold updV at hm
  cases hv : st.players.lookup pid with
  | none =>
    rw [hv] at hm
    exact h.2.2.1 t hm
  | some v =>
    rw [hv] at hm
    rcases mem_setV _ _ _ _ hm with h2 | h2
    · rw [h2]
      exact hf v (h.2.2.1 (pid, v) (mem_of_lookup _ _ _ hv))
    · exact h.2.2.1 t h2

theorem wok_creditOwner (prims : Prims) (st : GameState) (ownerId : String) (dmg : ℚ)
    (kill : Bool) (h : WorldOK prims st) : WorldOK prims (creditOwner st ownerId dmg kill) :=
  wok_updPlayer _ _ _ _ h (by exact fun q hq => hq)

theorem pokp_damaged (prims : Prims) (target : Player) (d : ℚ) (hd : 0 ≤ d)
    (htp : POKP prims target) : POKP prims { target with hp := max 0 (target.hp - d) } := by
  refine ⟨le_max_left _ _, ?_, htp.2.2⟩
  refine max_le (by norm_num [CONFIG.maxHp]) ?_
  have := htp.2.1
  linarith

theorem wok_hitCore (prims : Prims) (st : GameState) (tid : String) (target : Player)
    (hm : (tid, target) ∈ st.players) (d : ℚ) (hd : 0 ≤ d) (kill : Bool)
    (h : WorldOK prims st) :
    WorldOK prims
      (if kill then
        updPlayer (setPlayer st tid { target with hp := max 0 (target.hp - d) }) tid
          (fun t =>
            { t with
              alive := false
              stats := { t.stats with deaths := t.stats.deaths + 1 } })
      else setPlayer st tid { target with hp := max 0 (target.hp - d) }) := by
  have h2 := wok_setPlayer prims st tid _ h
    (pokp_damaged prims target d hd (h.2.2.1 (tid, target) hm))
  split
  · exact wok_updPlayer _ _ _ _ h2 (by exact fun q hq => hq)
  · exact h2

theorem wok_damageChain (prims : Prims) (st : GameState) (tid ownerId : String)
    (target : Player) (hm : (tid, target) ∈ st.players) (d dmg : ℚ) (hd : 0 ≤ d)
    (kill : Bool) (h : WorldOK prims st) :
    WorldOK prims (creditOwner
      (if kill then
        updPlayer (setPlayer st tid { target with hp := max 0 (target.hp - d) }) tid
          (fun t =>
            { t with
              alive := false
              stats := { t.stats with deaths := t.stats.deaths + 1 } })
      else setPlayer st tid { target with hp := max 0 (target.hp - d) }) ownerId dmg kill) :=
  wok_creditOwner _ _ _ _ _ (wok_hitCore prims st tid target hm d hd kill h)

theorem wok_foldl {α : Type} (prims : Prims) (f : GameState → α → GameState)
    (h : ∀ acc x, WorldOK prims acc → WorldOK prims (f acc x)) (l : List α) :
    ∀ st, WorldOK prims st → WorldOK prims (l.foldl f st) := by
  induction l with
  | nil => intro st hst; exact hst
  | cons hd tl ih =>
    intro st hst
    exact ih (f st hd) (h st hd hst)

theorem wok_novaHitOne (prims : Prims) (hok : HypotOK prims) (acc : GameState)
    (pid : String) (p : Player) (tid : String) (h : WorldOK prims acc) :
    WorldOK prims (novaHitOne prims acc pid p tid) := by
  by_cases ht : tid = pid
  · simp only [novaHitOne, if_pos ht]
    exact h
  · cases hl : acc.players.lookup tid with
    | none =>
      simp only [novaHitOne, if_neg ht, hl]
      exact h
    | some target =>
      simp only [novaHitOne, if_neg ht, hl]
      split
      · exact h
      · split
        · rename_i hdle
          refine wok_damageChain prims acc tid pid target (mem_of_lookup _ _ _ hl) _ _ ?_ _ h
          apply jsRound_nonneg
          have hd0 := hok.nonneg ((getRewindPos target p.input.lagCompMs).1 - p.x)
            ((getRewindPos target p.input.lagCompMs).2 - p.y)
          have h15 : CONFIG.novaRadius = 15 := rfl
          rw [h15] at hdle
          have h50 : CONFIG.novaDamage = 50 := rfl
          rw [h50, h15]
          have h05 : (0.5 : ℚ) = 1 / 2 := by norm_num
          rw [h05]
          linarith
        · exact h

theorem wok_laserHitOne (prims : Prims) (acc : GameState) (pid : String) (p : Player)
    (dt : ℚ) (hdt : 0 ≤ dt) (tid : String) (h : WorldOK prims acc) :
    WorldOK prims (laserHitOne prims acc pid p dt tid) := by
  by_cases ht : tid = pid
  · simp only [laserHitOne, if_pos ht]
    exact h
  · cases hl : acc.players.lookup tid with
    | none =>
      simp only [laserHitOne, if_neg ht, hl]
      exact h
    | some target =>
      simp only [laserHitOne, if_neg ht, hl]
      split
      · exact h
      · split
        · exact h
        · split
          · exact h
          · refine wok_damageChain prims acc tid pid target (mem_of_lookup _ _ _ hl) _ _ ?_ _ h
            have : CONFIG.laserDps = 80 := rfl
            rw [this]
            linarith

theorem wok_bombHitOne (prims : Prims) (hok : HypotOK prims) (acc : GameState)
    (pr : Projectile) (pid : String) (h : WorldOK prims acc) :
    WorldOK prims (bombHitOne prims acc pr pid) := by
  cases hl : acc.players.lookup pid with
  | none =>
    simp only [bombHitOne, hl]
    exact h
  | some p =>
    simp only [bombHitOne, hl]
    split
    · exact h
    · by_cases hown : pid = pr.ownerId
      · have h1 : ¬ (pid ≠ pr.ownerId) := by simpa using hown
        rw [if_neg h1, if_pos hown, if_neg h1]
        split
        · rename_i hdle
          refine wok_hitCore prims acc pid p (mem_of_lookup _ _ _ hl) _ ?_ _ h
          have hd0 := hok.nonneg (p.x - pr.x) (p.y - pr.y)
          have hdmg : (0 : ℚ) ≤ (jsRound (CONFIG.bombDamage *
              (1 - prims.hypot (p.x - pr.x) (p.y - pr.y) / CONFIG.bombRadius * 0.6)) : ℚ) := by
            apply jsRound_nonneg
            have h8 : CONFIG.bombRadius = 8 := rfl
            have h60 : CONFIG.bombDamage = 60 := rfl
            rw [h8] at hdle
            rw [h60, h8]
            have h06 : (0.6 : ℚ) = 3 / 5 := by norm_num
            rw [h06]
            linarith
          apply jsRound_nonneg
          have h05 : (0.5 : ℚ) = 1 / 2 := by norm_num
          rw [h05]
          linarith
        · exact h
      · have h1 : pid ≠ pr.ownerId := hown
        rw [if_pos h1, if_neg hown, if_pos h1]
        split
        · rename_i hdle
          refine wok_damageChain prims acc pid pr.ownerId p (mem_of_lookup _ _ _ hl) _ _ ?_ _ h
          apply jsRound_nonneg
          have hd0 := hok.nonneg ((getRewindPos p pr.lagCompMs).1 - pr.x)
            ((getRewindPos p pr.lagCompMs).2 - pr.y)
          have h8 : CONFIG.bombRadius = 8 := rfl
          have h60 : CONFIG.bombDamage = 60 := rfl
          rw [h8] at hdle
          rw [h60, h8]
          have h06 : (0.6 : ℚ) = 3 / 5 := by norm_num
          rw [h06]
          linarith
        · exact h

theorem wok_consumeSpecialUse (prims : Prims) (st : GameState) (pid : String)
    (setCd : Player → Player) (h : WorldOK prims st)
    (hcd : ∀ q, POKP prims q → POKP prims (setCd q)) :
    WorldOK prims (consumeSpecialUse st pid setCd) := by
  refine wok_updPlayer _ _ _ _ h (fun q hq => ?_)
  have h1 : POKP prims (setCd { q with specialUses := q.specialUses - 1 }) := hcd _ hq
  by_cases hc : (setCd { q with specialUses := q.specialUses - 1 }).specialUses ≤ 0
  · simp only [if_pos hc]
    exact h1
  · simp only [if_neg hc]
    exact h1

theorem wok_triggerBombExplosion (prims : Prims) (hok : HypotOK prims) (st : GameState)
    (pr : Projectile) (h : WorldOK prims st) :
    WorldOK prims (triggerBombExplosion prims st pr) := by
  have h1 := wok_foldl prims _ (fun acc pid hacc => wok_bombHitOne prims hok acc pr pid hacc)
    (st.players.map Prod.fst) st h
  exact ⟨h1.1, h1.2.1, h1.2.2.1, h1.2.2.2⟩

theorem wok_appendProj (prims : Prims) (st : GameState) (pr : Projectile)
    (h : WorldOK prims st) (hd : 0 ≤ pr.damage) :
    WorldOK prims { st with projectiles := st.projectiles ++ [pr] } := by
  refine ⟨h.1, h.2.1, h.2.2.1, ?_⟩
  intro x hx
  rcases List.mem_append.mp hx with hx | hx
  · exact h.2.2.2 x hx
  · rw [List.mem_singleton.mp hx]
    exact hd

theorem wok_spawnProjectile (prims : Prims) (st : GameState) (ownerId : String)
    (p : Player) (lagCompMs : ℚ) (fireSeq : Option ℤ) (h : WorldOK prims st) :
    WorldOK prims (spawnProjectile prims st ownerId p lagCompMs fireSeq) := by
  have hrand : WorldOK prims ({ st with randCalls := st.randCalls + 1 } : GameState) :=
    ⟨h.1, h.2.1, h.2.2.1, h.2.2.2⟩
  have hd30 : (0 : ℚ) ≤ CONFIG.projectileDamage := by norm_num [CONFIG.projectileDamage]
  simp only [spawnProjectile]
  split
  · split
    · rename_i hit heq
      cases hl : ({ st with randCalls := st.randCalls + 1 } : GameState).players.lookup
          hit.1 with
      | none =>
        simp only [hl]
        exact wok_appendProj prims _ _ hrand hd30
      | some target =>
        simp only [hl]
        refine wok_appendProj prims _ _ ?_ hd30
        exact wok_damageChain prims _ hit.1 ownerId target (mem_of_lookup _ _ _ hl)
          _ _ hd30 _ hrand
    · exact wok_appendProj prims _ _ hrand hd30
  · exact wok_appendProj prims _ _ hrand hd30

theorem wok_fireSpecialWeapon (prims : Prims) (hok : HypotOK prims) (st : GameState)
    (pid : String) (p : Player) (h : WorldOK prims st) :
    WorldOK prims (fireSpecialWeapon prims st pid p) := by
  have hd60 : (0 : ℚ) ≤ CONFIG.bombDamage := by norm_num [CONFIG.bombDamage]
  cases hw : p.specialWeapon with
  | none =>
    simp only [fireSpecialWeapon, hw]
    exact h
  | some w =>
    simp only [fireSpecialWeapon, hw]
    split
    · refine wok_consumeSpecialUse prims _ pid _ ?_ (by exact fun q hq => hq)
      exact wok_appendProj prims _ _ h hd60
    · split
      · split
        · have h1 := wok_foldl prims _
            (fun acc tid hacc => wok_novaHitOne prims hok acc pid p tid hacc)
            (st.players.map Prod.fst) st h
          refine wok_consumeSpecialUse prims _ pid _ ?_ (by exact fun q hq => hq)
          exact ⟨h1.1, h1.2.1, h1.2.2.1, h1.2.2.2⟩
        · exact h
      · exact h

theorem wok_applyLaserDamage (prims : Prims) (st : GameState) (pid : String) (p : Player)
    (dt : ℚ) (hdt : 0 ≤ dt) (h : WorldOK prims st) :
    WorldOK prims (applyLaserDamage prims st pid p dt) :=
  wok_foldl prims _ (fun acc tid hacc => wok_laserHitOne prims acc pid p dt hdt tid hacc)
    _ st h

theorem wok_firePhase (prims : Prims) (hok : HypotOK prims) (st1 : GameState)
    (pid : String) (p1 : Player) (h : WorldOK prims st1) :
    WorldOK prims (firePhase prims st1 pid p1) := by
  simp only [firePhase]
  split
  · split
    · exact wok_fireSpecialWeapon prims hok st1 pid p1 h
    · exact wok_updPlayer _ _ _ _ (wok_spawnProjectile prims st1 pid p1 _ _ h)
        (by exact fun q hq => hq)
  · exact h

theorem wok_laserPhase (prims : Prims) (dtMs dt : ℚ) (hdt : 0 ≤ dt) (st3 : GameState)
    (pid : String) (h : WorldOK prims st3) :
    WorldOK prims (laserPhase prims dtMs dt st3 pid) := by
  cases hq : st3.players.lookup pid with
  | none =>
    simp only [laserPhase, hq]
    exact h
  | some q =>
    simp only [laserPhase, hq]
    split
    · have hq1 : POKP prims ({ q with laserActiveMs := q.laserActiveMs + dtMs }) :=
        h.2.2.1 (pid, q) (mem_of_lookup _ _ _ hq)
      have hstA := wok_setPlayer prims st3 pid _ h hq1
      have hstB := wok_applyLaserDamage prims _ pid
        ({ q with laserActiveMs := q.laserActiveMs + dtMs }) dt hdt hstA
      split
      · refine wok_updPlayer _ _ _ _ hstB (fun r hr => ?_)
        by_cases hc : ({ r with specialUses := r.specialUses - 1, laserActiveMs := 0 } : Player).specialUses ≤ 0
        · simp only [if_pos hc]
          exact hr
        · simp only [if_neg hc]
          exact hr
      · exact hstB
    · exact wok_updPlayer _ _ _ _ h (by exact fun r hr => hr)

theorem wok_tickOnePlayer (prims : Prims) (hok : HypotOK prims) (dtMs dt : ℚ)
    (hdt : 0 ≤ dt) (st : GameState) (pid : String) (h : WorldOK prims st) :
    WorldOK prims (tickOnePlayer prims dtMs dt st pid) := by
  cases hl : st.players.lookup pid with
  | none =>
    simp only [tickOnePlayer, hl]
    exact h
  | some p =>
    simp only [tickOnePlayer, hl]
    split
    · exact h
    · have hp := h.2.2.1 (pid, p) (mem_of_lookup _ _ _ hl)
      have hmove : POKP prims (movePlayer prims dtMs dt st p) :=
        pok_movePlayer prims hok dtMs dt st p h.1 h.2.1 hp.1 hp.2.1
      have h1 := wok_setPlayer prims st pid _ h hmove
      have h2 := wok_firePhase prims hok _ pid (movePlayer prims dtMs dt st p) h1
      have h3 := wok_updPlayer prims _ pid (fun q =>
        { q with input := { q.input with firePressed := false, fireSeq := none } }) h2
        (by exact fun q hq => hq)
      exact wok_laserPhase prims dtMs dt hdt _ pid h3

theorem wok_tickPlayers (prims : Prims) (hok : HypotOK prims) (dtMs dt : ℚ)
    (hdt : 0 ≤ dt) (st : GameState) (h : WorldOK prims st) :
    WorldOK prims (tickPlayers prims dtMs dt st) :=
  wok_foldl prims _
    (fun acc pid hacc => wok_tickOnePlayer prims hok dtMs dt hdt acc pid hacc) _ st h

theorem wok_projStep (prims : Prims) (hok : HypotOK prims) (dtMs dt : ℚ)
    (acc : GameState × List Projectile) (pr0 : Projectile)
    (h : WorldOK prims acc.1) (hk : ∀ x ∈ acc.2, 0 ≤ x.damage) (hpr : 0 ≤ pr0.damage) :
    WorldOK prims (projStep prims dtMs dt acc pr0).1 ∧
    ∀ x ∈ (projStep prims dtMs dt acc pr0).2, 0 ≤ x.damage := by
  simp only [projStep]
  split
  · constructor
    · dsimp only
      split
      · exact wok_triggerBombExplosion prims hok _ _ h
      · exact h
    · dsimp only
      exact hk
  · split
    · constructor
      · dsimp only
        split
        · exact wok_triggerBombExplosion prims hok _ _ h
        · exact h
      · dsimp only
        exact hk
    · split
      · rename_i hf
        constructor
        · dsimp only
          exact h
        · dsimp only
          intro x hx
          rcases List.mem_append.mp hx with hx | hx
          · exact hk x hx
          · rw [List.mem_singleton.mp hx]
            exact hpr
      · rename_i t hf
        split
        · constructor
          · dsimp only
            exact wok_triggerBombExplosion prims hok _ _ h
          · dsimp only
            exact hk
        · constructor
          · dsimp only
            refine wok_damageChain prims _ t.1 _ t.2
              (List.mem_of_find?_eq_some hf) _ _ hpr _ h
          · dsimp only
            exact hk

theorem wok_foldl_proj (prims : Prims) (hok : HypotOK prims) (dtMs dt : ℚ) :
    ∀ (l : List Projectile) (acc : GameState × List Projectile),
    (∀ x ∈ l, 0 ≤ x.damage) → WorldOK prims acc.1 → (∀ x ∈ acc.2, 0 ≤ x.damage) →
    WorldOK prims (l.foldl (projStep prims dtMs dt) acc).1 ∧
    ∀ x ∈ (l.foldl (projStep prims dtMs dt) acc).2, 0 ≤ x.damage := by
  intro l
  induction l with
  | nil =>
    intro acc _ h1 h2
    exact ⟨h1, h2⟩
  | cons hd tl ih =>
    intro acc hl h1 h2
    have hstep := wok_projStep prims hok dtMs dt acc hd h1 h2
      (hl hd (List.mem_cons_self _ _))
    exact ih (projStep prims dtMs dt acc hd)
      (fun x hx => hl x (List.mem_cons_of_mem _ hx)) hstep.1 hstep.2

theorem wok_updateProjectiles (prims : Prims) (hok : HypotOK prims) (st : GameState)
    (dtMs : ℚ) (h : WorldOK prims st) : WorldOK prims (updateProjectiles prims st dtMs) := by
  have hres := wok_foldl_proj prims hok dtMs (dtMs / 1000) st.projectiles (st, [])
    h.2.2.2 h (by intro x hx; cases hx)
  exact ⟨hres.1.1, hres.1.2.1, hres.1.2.2.1, hres.2⟩

theorem wok_foldl_pair {α β : Type} (prims : Prims) (f : GameState × β → α → GameState × β)
    (h : ∀ acc x, WorldOK prims acc.1 → WorldOK prims (f acc x).1) (l : List α) :
    ∀ acc, WorldOK prims acc.1 → WorldOK prims ((l.foldl f acc).1) := by
  induction l with
  | nil => intro acc hacc; exact hacc
  | cons hd tl ih =>
    intro acc hacc
    exact ih (f acc hd) (h acc hd hacc)

theorem wok_collectPickups (prims : Prims) (st : GameState) (h : WorldOK prims st) :
    WorldOK prims (collectPickups st) := by
  have hres := wok_foldl_pair prims collectOne (fun acc pu hacc => ?_) st.pickups (st, []) h
  · exact ⟨hres.1, hres.2.1, hres.2.2.1, hres.2.2.2⟩
  · simp only [collectOne]
    split
    · exact hacc
    · exact wok_updPlayer _ _ _ _ hacc (by exact fun q hq => hq)

theorem spawnPickups_arena (prims : Prims) (st : GameState) :
    (spawnPickups prims st).arena = st.arena := by
  simp only [spawnPickups]
  repeat' split
  all_goals rfl

theorem resolveTerminal_arena (st : GameState) :
    (resolveTerminal st).arena = st.arena := by
  simp only [resolveTerminal]
  repeat' split
  all_goals rfl

theorem wok_spawnPickups (prims : Prims) (st : GameState) (h : WorldOK prims st) :
    WorldOK prims (spawnPickups prims st) := by
  refine ⟨?_, ?_, ?_, ?_⟩
  · rw [spawnPickups_arena]
    exact h.1
  · rw [spawnPickups_arena]
    exact h.2.1
  · rw [spawnPickups_players]
    exact h.2.2.1
  · rw [spawnPickups_projectiles]
    exact h.2.2.2

theorem wok_resolveTerminal (prims : Prims) (st : GameState) (h : WorldOK prims st) :
    WorldOK prims (resolveTerminal st) := by
  refine ⟨?_, ?_, ?_, ?_⟩
  · rw [resolveTerminal_arena]
    exact h.1
  · rw [resolveTerminal_arena]
    exact h.2.1
  · rw [resolveTerminal_players]
    exact h.2.2.1
  · rw [resolveTerminal_projectiles]
    exact h.2.2.2

theorem wok_advanceClock (prims : Prims) (st : GameState) (dtMs : ℚ)
    (h : WorldOK prims st) : WorldOK prims (advanceClock st dtMs) :=
  ⟨h.1, h.2.1, h.2.2.1, h.2.2.2⟩

theorem wok_expireEffects (prims : Prims) (st : GameState) (dtMs : ℚ)
    (h : WorldOK prims st) : WorldOK prims (expireEffects st dtMs) :=
  ⟨h.1, h.2.1, h.2.2.1, h.2.2.2⟩

theorem wok_tick (prims : Prims) (hok : HypotOK prims) (st : GameState) (dtMs : ℚ)
    (hdt : 0 ≤ dtMs) (h : WorldOK prims st) : WorldOK prims (tick prims st dtMs) := by
  simp only [tick]
  split
  · exact h
  · have hdt2 : (0 : ℚ) ≤ dtMs / 1000 := by positivity
    exact wok_resolveTerminal prims _ (wok_collectPickups prims _ (wok_spawnPickups prims _
      (wok_updateProjectiles prims hok _ dtMs (wok_tickPlayers prims hok dtMs (dtMs / 1000)
        hdt2 _ (wok_expireEffects prims _ dtMs (wok_advanceClock prims st dtMs h))))))

theorem wok_applyInput (prims : Prims) (st : GameState) (pid : String)
    (payload : InputPayload) (h : WorldOK prims st) :
    WorldOK prims (applyInput st pid payload) := by
  cases hl : st.players.lookup pid with
  | none =>
    simp only [applyInput, hl]
    exact h
  | some p =>
    simp only [applyInput, hl]
    split
    · exact h
    · exact wok_setPlayer prims st pid _ h (h.2.2.1 (pid, p) (mem_of_lookup _ _ _ hl))

theorem pokp_mkSpawn (prims : Prims) (hok : HypotOK prims) (id : String) (x y a : ℚ)
    (hx1 : CONFIG.playerRadius ≤ x) (hx2 : x ≤ CONFIG.arenaWidth - CONFIG.playerRadius)
    (hy1 : CONFIG.playerRadius ≤ y) (hy2 : y ≤ CONFIG.arenaHeight - CONFIG.playerRadius) :
    POKP prims (mkSpawnPlayer id x y a) := by
  refine ⟨?_, ?_, ?_, hx1, hx2, hy1, hy2⟩
  · show (0 : ℚ) ≤ CONFIG.maxHp
    norm_num [CONFIG.maxHp]
  · exact le_refl CONFIG.maxHp
  · show prims.hypot 0 0 ≤ CONFIG.maxSpeed + 1 / 10000
    rw [hypot_zero prims hok]
    norm_num [CONFIG.maxSpeed]

theorem pok_foldl_setV (prims : Prims) (g : String × (ℚ × ℚ × ℚ) → Player) :
    ∀ (l : List (String × (ℚ × ℚ × ℚ))) (acc : List (String × Player)),
    (∀ t ∈ acc, POKP prims t.2) → (∀ pr ∈ l, POKP prims (g pr)) →
    ∀ t ∈ l.foldl (fun a pr => setV pr.1 (g pr) a) acc, POKP prims t.2 := by
  intro l
  induction l with
  | nil =>
    intro acc ha _ t ht
    exact ha t ht
  | cons hd tl ih =>
    intro acc ha hl t ht
    refine ih (setV hd.1 (g hd) acc) ?_ (fun pr hpr => hl pr (List.mem_cons_of_mem _ hpr)) t ht
    intro t2 ht2
    rcases mem_setV _ _ _ _ ht2 with h2 | h2
    · rw [h2]
      exact hl hd (List.mem_cons_self _ _)
    · exact ha t2 h2

theorem wok_initState (prims : Prims) (hok : HypotOK prims) (ids : List String)
    (seed : ℚ) : WorldOK prims (initState prims ids seed) := by
  refine ⟨rfl, rfl, ?_, ?_⟩
  · intro t ht
    refine pok_foldl_setV prims
      (fun pr => mkSpawnPlayer pr.1 pr.2.1 pr.2.2.1 pr.2.2.2)
      ((ids.take 2).zip [((18 : ℚ), (50 : ℚ), (0 : ℚ)), (82, 50, prims.pi)]) []
      (by intro t2 ht2; cases ht2) ?_ t ht
    intro pr hpr
    have h2 := (List.of_mem_zip (a := pr.1) (b := pr.2) hpr).2
    rcases List.mem_cons.mp h2 with he | h2
    · show POKP prims (mkSpawnPlayer pr.1 pr.2.1 pr.2.2.1 pr.2.2.2)
      rw [he]
      refine pokp_mkSpawn prims hok pr.1 (18, 50, 0).1 (18, 50, 0).2.1 (18, 50, 0).2.2
        ?_ ?_ ?_ ?_ <;>
        norm_num [CONFIG.playerRadius, CONFIG.arenaWidth, CONFIG.arenaHeight]
    · show POKP prims (mkSpawnPlayer pr.1 pr.2.1 pr.2.2.1 pr.2.2.2)
      rw [List.mem_singleton.mp h2]
      refine pokp_mkSpawn prims hok pr.1 (82, 50, prims.pi).1 (82, 50, prims.pi).2.1
        (82, 50, prims.pi).2.2 ?_ ?_ ?_ ?_ <;>
        norm_num [CONFIG.playerRadius, CONFIG.arenaWidth, CONFIG.arenaHeight]
  · intro pr hpr
    rw [show (initState prims ids seed).projectiles = [] from rfl] at hpr
    cases hpr

/-- C2: in every state reachable from initState by any sequence of
applyInput calls and tick calls with non-negative frame times, every ship
satisfies 0 ≤ hp ≤ 100, has speed (as measured by Math.hypot, assumed to
satisfy the norm laws of HypotOK) at most maxSpeed = 32 plus one
quantization step 1/10000, and sits inside
[playerRadius, 100 - playerRadius] on both axes. -/
theorem ship_invariants (prims : Prims) (hok : HypotOK prims) (st : GameState)
    (hreach : Reachable prims st) :
    ∀ t ∈ st.players, 0 ≤ t.2.hp ∧ t.2.hp ≤ 100 ∧
      prims.hypot t.2.vx t.2.vy ≤ 32 + 1 / 10000 ∧
      CONFIG.playerRadius ≤ t.2.x ∧ t.2.x ≤ 100 - CONFIG.playerRadius ∧
      CONFIG.playerRadius ≤ t.2.y ∧ t.2.y ≤ 100 - CONFIG.playerRadius := by
  have hwok : WorldOK prims st := by
    induction hreach with
    | init ids seed => exact wok_initState prims hok ids seed
    | input st2 pid payload _ ih => exact wok_applyInput prims st2 pid payload ih
    | tick st2 dtMs hdt _ ih => exact wok_tick prims hok st2 dtMs hdt ih
  intro t ht
  exact hwok.2.2.1 t ht

/-- C2 witness: the invariant theorem applied after one 16 ms tick of a
fresh two-ship match, with the taxicab instantiation of Math.hypot. -/
theorem ship_invariants_witness :
    ((tick prims0 (initState prims0 ["a", "b"] 7) 16).players.all fun t =>
      decide (0 ≤ t.2.hp ∧ t.2.hp ≤ 100 ∧
        prims0.hypot t.2.vx t.2.vy ≤ 32 + 1 / 10000 ∧
        CONFIG.playerRadius ≤ t.2.x ∧ t.2.x ≤ 100 - CONFIG.playerRadius ∧
        CONFIG.playerRadius ≤ t.2.y ∧ t.2.y ≤ 100 - CONFIG.playerRadius)) = true := by
  have hmain := ship_invariants prims0
    ⟨fun a b => add_nonneg (abs_nonneg a) (abs_nonneg b),
     fun a b => le_refl _,
     fun a b s hs => by
       show |a * s| + |b * s| = s * (|a| + |b|)
       rw [abs_mul, abs_mul, abs_of_nonneg hs]
       ring,
     fun a b c d => by
       show |a + c| + |b + d| ≤ (|a| + |b|) + (|c| + |d|)
       have h1 := abs_add a c
       have h2 := abs_add b d
       linarith,
     fun a b c d h1 h2 => by
       show |a| + |b| ≤ |c| + |d|
       linarith⟩
    _ (Reachable.tick _ 16 (by norm_num) (Reachable.init ["a", "b"] 7))
  rw [List.all_eq_true]
  intro t ht
  exact decide_eq_true (hmain t ht)

theorem setId_ownerId (pr : Projectile) (i : String) : (setId pr i).ownerId = pr.ownerId := rfl

theorem setId_x (pr : Projectile) (i : String) : (setId pr i).x = pr.x := rfl

theorem setId_y (pr : Projectile) (i : String) : (setId pr i).y = pr.y := rfl

theorem setId_vx (pr : Projectile) (i : String) : (setId pr i).vx = pr.vx := rfl

theorem setId_vy (pr : Projectile) (i : String) : (setId pr i).vy = pr.vy := rfl

theorem setId_ttlMs (pr : Projectile) (i : String) : (setId pr i).ttlMs = pr.ttlMs := rfl

theorem setId_fireSeq (pr : Projectile) (i : String) : (setId pr i).fireSeq = pr.fireSeq := rfl

theorem setId_damage (pr : Projectile) (i : String) : (setId pr i).damage = pr.damage := rfl

theorem setId_isBomb (pr : Projectile) (i : String) : (setId pr i).isBomb = pr.isBomb := rfl

theorem setId_lagCompMs (pr : Projectile) (i : String) :
    (setId pr i).lagCompMs = pr.lagCompMs := rfl

theorem setId_id (pr : Projectile) (i : String) : (setId pr i).id = i := rfl

theorem setProj_phase (st : GameState) (P : List Projectile) : (setProj st P).phase = st.phase := rfl

theorem setProj_seed (st : GameState) (P : List Projectile) : (setProj st P).seed = st.seed := rfl

theorem setProj_tick (st : GameState) (P : List Projectile) : (setProj st P).tick = st.tick := rfl

theorem setProj_remainingMs (st : GameState) (P : List Projectile) :
    (setProj st P).remainingMs = st.remainingMs := rfl

theorem setProj_arena (st : GameState) (P : List Projectile) : (setProj st P).arena = st.arena := rfl

theorem setProj_players (st : GameState) (P : List Projectile) :
    (setProj st P).players = st.players := rfl

theorem setProj_projectiles (st : GameState) (P : List Projectile) :
    (setProj st P).projectiles = P := rfl

theorem setProj_pickups (st : GameState) (P : List Projectile) :
    (setProj st P).pickups = st.pickups := rfl

theorem setProj_effects (st : GameState) (P : List Projectile) :
    (setProj st P).effects = st.effects := rfl

theorem setProj_winnerIds (st : GameState) (P : List Projectile) :
    (setProj st P).winnerIds = st.winnerIds := rfl

theorem setProj_reason (st : GameState) (P : List Projectile) :
    (setProj st P).reason = st.reason := rfl

theorem setProj_randCalls (st : GameState) (P : List Projectile) :
    (setProj st P).randCalls = st.randCalls := rfl

theorem isOutOfArena_setProj (x y : ℚ) (st : GameState) (P : List Projectile) (rad : ℚ) :
    isOutOfArena x y (setProj st P) rad = isOutOfArena x y st rad := rfl

theorem forall₂_prEq_refl : ∀ (l : List Projectile), List.Forall₂ prEq l l
  | [] => List.Forall₂.nil
  | _ :: t => List.Forall₂.cons rfl (forall₂_prEq_refl t)

theorem prEq_append {l1 l2 l3 l4 : List Projectile} (h : List.Forall₂ prEq l1 l2)
    (h3 : List.Forall₂ prEq l3 l4) : List.Forall₂ prEq (l1 ++ l3) (l2 ++ l4) := by
  induction h with
  | nil => exact h3
  | cons hh _ ih => exact List.Forall₂.cons hh ih

/-! Commutation of the projectile-blind state transformers with a
projectile-list replacement, and their projectile-preservation laws. -/

theorem setPlayer_commute (st : GameState) (P : List Projectile) (pid : String) (p : Player) :
    setPlayer (setProj st P) pid p = setProj (setPlayer st pid p) P := rfl

theorem updPlayer_commute (st : GameState) (P : List Projectile) (pid : String)
    (f : Player → Player) :
    updPlayer (setProj st P) pid f = setProj (updPlayer st pid f) P := rfl

theorem setPlayer_projectiles (st : GameState) (pid : String) (p : Player) :
    (setPlayer st pid p).projectiles = st.projectiles := rfl

theorem updPlayer_projectiles (st : GameState) (pid : String) (f : Player → Player) :
    (updPlayer st pid f).projectiles = st.projectiles := rfl

theorem consumeSpecialUse_projectiles (st : GameState) (pid : String) (setCd : Player → Player) :
    (consumeSpecialUse st pid setCd).projectiles = st.projectiles := rfl

theorem foldl_commute {α : Type} (f g : GameState → α → GameState)
    (hfg : ∀ (st : GameState) (P : List Projectile) (x : α),
      g (setProj st P) x = setProj (f st x) P) :
    ∀ (l : List α) (st : GameState) (P : List Projectile),
      l.foldl g (setProj st P) = setProj (l.foldl f st) P
  | [], _, _ => rfl
  | x :: xs, st, P => by
    rw [List.foldl_cons, List.foldl_cons, hfg]
    exact foldl_commute f g hfg xs (f st x) P

theorem foldl_projectiles {α : Type} (f : GameState → α → GameState)
    (hf : ∀ (st : GameState) (x : α), (f st x).projectiles = st.projectiles) :
    ∀ (l : List α) (st : GameState), (l.foldl f st).projectiles = st.projectiles
  | [], _ => rfl
  | x :: xs, st => by
    rw [List.foldl_cons, foldl_projectiles f hf xs (f st x), hf]

theorem applyInput_commute (st : GameState) (P : List Projectile) (pid : String)
    (payload : InputPayload) :
    applyInput (setProj st P) pid payload = setProj (applyInput st pid payload) P := by
  simp only [applyInput, setProj_players]
  split
  · rfl
  · split_ifs <;> rfl

theorem applyInput_projectiles (st : GameState) (pid : String) (payload : InputPayload) :
    (applyInput st pid payload).projectiles = st.projectiles := by
  simp only [applyInput]
  split
  · rfl
  · split_ifs <;> rfl

theorem laserHitOne_commute (prims : Prims) (r : ℕ → String) (acc : GameState)
    (P : List Projectile) (pid : String) (p : Player) (dt : ℚ) (tid : String) :
    laserHitOne { prims with rand := r } (setProj acc P) pid p dt tid =
      setProj (laserHitOne prims acc pid p dt tid) P := by
  by_cases h1 : tid = pid
  · simp only [laserHitOne, if_pos h1]
  · simp only [laserHitOne, if_neg h1, setProj_players]
    split
    · rfl
    · split_ifs <;> rfl

theorem laserHitOne_projectiles (prims : Prims) (acc : GameState) (pid : String)
    (p : Player) (dt : ℚ) (tid : String) :
    (laserHitOne prims acc pid p dt tid).projectiles = acc.projectiles := by
  by_cases h1 : tid = pid
  · simp only [laserHitOne, if_pos h1]
  · simp only [laserHitOne, if_neg h1]
    split
    · rfl
    · split_ifs <;> rfl

theorem applyLaserDamage_commute (prims : Prims) (r : ℕ → String) (st : GameState)
    (P : List Projectile) (pid : String) (p : Player) (dt : ℚ) :
    applyLaserDamage { prims with rand := r } (setProj st P) pid p dt =
      setProj (applyLaserDamage prims st pid p dt) P := by
  simp only [applyLaserDamage, setProj_players]
  exact foldl_commute _ _ (fun s Q x => laserHitOne_commute prims r s Q pid p dt x) _ _ _

theorem applyLaserDamage_projectiles (prims : Prims) (st : GameState) (pid : String)
    (p : Player) (dt : ℚ) :
    (applyLaserDamage prims st pid p dt).projectiles = st.projectiles := by
  simp only [applyLaserDamage]
  exact foldl_projectiles _ (fun s x => laserHitOne_projectiles prims s pid p dt x) _ _

theorem laserPhase_commute (prims : Prims) (r : ℕ → String) (dtMs dt : ℚ)
    (st : GameState) (P : List Projectile) (pid : String) :
    laserPhase { prims with rand := r } dtMs dt (setProj st P) pid =
      setProj (laserPhase prims dtMs dt st pid) P := by
  simp only [laserPhase, setProj_players]
  split
  · rfl
  · split_ifs
    · rw [setPlayer_commute, applyLaserDamage_commute, updPlayer_commute]
    · rw [setPlayer_commute, applyLaserDamage_commute]
    · rw [updPlayer_commute]

theorem laserPhase_projectiles (prims : Prims) (dtMs dt : ℚ) (st : GameState) (pid : String) :
    (laserPhase prims dtMs dt st pid).projectiles = st.projectiles := by
  simp only [laserPhase]
  split
  · rfl
  · split_ifs <;>
      simp only [updPlayer_projectiles, applyLaserDamage_projectiles, setPlayer_projectiles]

theorem novaHitOne_commute (prims : Prims) (r : ℕ → String) (acc : GameState)
    (P : List Projectile) (pid : String) (p : Player) (tid : String) :
    novaHitOne { prims with rand := r } (setProj acc P) pid p tid =
      setProj (novaHitOne prims acc pid p tid) P := by
  by_cases h1 : tid = pid
  · simp only [novaHitOne, if_pos h1]
  · simp only [novaHitOne, if_neg h1, setProj_players]
    split
    · rfl
    · split_ifs <;> rfl

theorem novaHitOne_projectiles (prims : Prims) (acc : GameState) (pid : String)
    (p : Player) (tid : String) :
    (novaHitOne prims acc pid p tid).projectiles = acc.projectiles := by
  by_cases h1 : tid = pid
  · simp only [novaHitOne, if_pos h1]
  · simp only [novaHitOne, if_neg h1]
    split
    · rfl
    · split_ifs <;> rfl

theorem bombHitOne_commute (prims : Prims) (r : ℕ → String) (acc : GameState)
    (P : List Projectile) (pr pr' : Projectile) (h : prEq pr pr') (pid : String) :
    bombHitOne { prims with rand := r } (setProj acc P) pr' pid =
      setProj (bombHitOne prims acc pr pid) P := by
  have h2 : pr' = setId pr pr'.id := h
  rw [h2]
  simp only [bombHitOne, setProj_players, setId_ownerId, setId_x, setId_y, setId_lagCompMs]
  split
  · rfl
  · split_ifs <;> rfl

theorem bombHitOne_projectiles (prims : Prims) (acc : GameState) (pr : Projectile)
    (pid : String) : (bombHitOne prims acc pr pid).projectiles = acc.projectiles := by
  simp only [bombHitOne]
  split
  · rfl
  · split_ifs <;> rfl

theorem triggerBombExplosion_commute (prims : Prims) (r : ℕ → String) (st : GameState)
    (P : List Projectile) (pr pr' : Projectile) (h : prEq pr pr') :
    triggerBombExplosion { prims with rand := r } (setProj st P) pr' =
      setProj (triggerBombExplosion prims st pr) P := by
  have h2 : pr' = setId pr pr'.id := h
  rw [h2]
  simp only [triggerBombExplosion, setProj_players, setId_ownerId, setId_x, setId_y,
    setId_lagCompMs]
  rw [foldl_commute _ _
    (fun s Q x => bombHitOne_commute prims r s Q pr (setId pr pr'.id) rfl x)]
  rfl

theorem triggerBombExplosion_projectiles (prims : Prims) (st : GameState) (pr : Projectile) :
    (triggerBombExplosion prims st pr).projectiles = st.projectiles := by
  simp only [triggerBombExplosion]
  exact foldl_projectiles _ (fun s x => bombHitOne_projectiles prims s pr x) _ _

theorem spawnPickups_commute (prims : Prims) (r : ℕ → String) (st : GameState)
    (P : List Projectile) :
    spawnPickups { prims with rand := r } (setProj st P) = setProj (spawnPickups prims st) P := by
  simp only [spawnPickups, setProj_tick, setProj_pickups, setProj_seed, setProj_arena]
  split_ifs <;> rfl

theorem resolveTerminal_commute (st : GameState) (P : List Projectile) :
    resolveTerminal (setProj st P) = setProj (resolveTerminal st) P := by
  simp only [resolveTerminal, setProj_players, setProj_remainingMs]
  split_ifs <;> rfl

theorem collectOne_commute (st : GameState) (ks : List Pickup) (P : List Projectile)
    (pu : Pickup) :
    collectOne (setProj st P, ks) pu =
      (setProj (collectOne (st, ks) pu).1 P, (collectOne (st, ks) pu).2) := by
  simp only [collectOne, setProj_players]
  split
  · rfl
  · rfl

theorem collectPickups_fold_commute :
    ∀ (l : List Pickup) (st : GameState) (ks : List Pickup) (P : List Projectile),
      l.foldl collectOne (setProj st P, ks) =
        (setProj (l.foldl collectOne (st, ks)).1 P, (l.foldl collectOne (st, ks)).2)
  | [], _, _, _ => rfl
  | pu :: pus, st, ks, P => by
    rw [List.foldl_cons, List.foldl_cons, collectOne_commute]
    exact collectPickups_fold_commute pus (collectOne (st, ks) pu).1 (collectOne (st, ks) pu).2 P

theorem collectPickups_commute (st : GameState) (P : List Projectile) :
    collectPickups (setProj st P) = setProj (collectPickups st) P := by
  simp only [collectPickups, setProj_pickups]
  rw [collectPickups_fold_commute]
  rfl

/-! SEq congruence through the pipeline. -/

theorem seq_foldl {α : Type} (f g : GameState → α → GameState)
    (hstep : ∀ (A B : GameState) (x : α), SEq A B → SEq (f A x) (g B x)) :
    ∀ (l : List α) {A B : GameState}, SEq A B → SEq (l.foldl f A) (l.foldl g B)
  | [], _, _, h => h
  | x :: xs, A, B, h => by
    rw [List.foldl_cons, List.foldl_cons]
    exact seq_foldl f g hstep xs (hstep A B x h)

theorem seq_applyInput (pid : String) (payload : InputPayload) {X Y : GameState}
    (h : SEq X Y) : SEq (applyInput X pid payload) (applyInput Y pid payload) := by
  obtain ⟨h1, h2⟩ := h
  rw [h1, applyInput_commute]
  refine ⟨rfl, ?_⟩
  rw [applyInput_projectiles]
  exact h2

theorem seq_updPlayer (pid : String) (f : Player → Player) {X Y : GameState} (h : SEq X Y) :
    SEq (updPlayer X pid f) (updPlayer Y pid f) := by
  obtain ⟨h1, h2⟩ := h
  rw [h1]
  exact ⟨rfl, h2⟩

theorem seq_advanceClock (dtMs : ℚ) {X Y : GameState} (h : SEq X Y) :
    SEq (advanceClock X dtMs) (advanceClock Y dtMs) := by
  obtain ⟨h1, h2⟩ := h
  rw [h1]
  exact ⟨rfl, h2⟩

theorem seq_expireEffects (dtMs : ℚ) {X Y : GameState} (h : SEq X Y) :
    SEq (expireEffects X dtMs) (expireEffects Y dtMs) := by
  obtain ⟨h1, h2⟩ := h
  rw [h1]
  exact ⟨rfl, h2⟩

theorem seq_laserPhase (prims : Prims) (r : ℕ → String) (dtMs dt : ℚ) (pid : String)
    {X Y : GameState} (h : SEq X Y) :
    SEq (laserPhase prims dtMs dt X pid)
      (laserPhase { prims with rand := r } dtMs dt Y pid) := by
  obtain ⟨h1, h2⟩ := h
  rw [h1, laserPhase_commute]
  refine ⟨rfl, ?_⟩
  rw [laserPhase_projectiles]
  exact h2

theorem seq_spawnPickups (prims : Prims) (r : ℕ → String) {X Y : GameState} (h : SEq X Y) :
    SEq (spawnPickups prims X) (spawnPickups { prims with rand := r } Y) := by
  obtain ⟨h1, h2⟩ := h
  rw [h1, spawnPickups_commute]
  refine ⟨rfl, ?_⟩
  rw [spawnPickups_projectiles]
  exact h2

theorem seq_collectPickups {X Y : GameState} (h : SEq X Y) :
    SEq (collectPickups X) (collectPickups Y) := by
  obtain ⟨h1, h2⟩ := h
  rw [h1, collectPickups_commute]
  refine ⟨rfl, ?_⟩
  rw [collectPickups_projectiles]
  exact h2

theorem seq_resolveTerminal {X Y : GameState} (h : SEq X Y) :
    SEq (resolveTerminal X) (resolveTerminal Y) := by
  obtain ⟨h1, h2⟩ := h
  rw [h1, resolveTerminal_commute]
  refine ⟨rfl, ?_⟩
  rw [resolveTerminal_projectiles]
  exact h2

theorem seq_triggerBomb (prims : Prims) (r : ℕ → String) (pa pa' : Projectile)
    (hpa : prEq pa pa') (st : GameState) (P : List Projectile)
    (hf : List.Forall₂ prEq st.projectiles P) :
    SEq (triggerBombExplosion prims st pa)
      (triggerBombExplosion { prims with rand := r } (setProj st P) pa') := by
  rw [triggerBombExplosion_commute prims r st P pa pa' hpa]
  refine ⟨rfl, ?_⟩
  rw [triggerBombExplosion_projectiles]
  exact hf

theorem seq_spawnProjectile (prims : Prims) (r : ℕ → String) (ownerId : String) (p : Player)
    (lagCompMs : ℚ) (fs : Option ℤ) (st : GameState) (P : List Projectile)
    (hf : List.Forall₂ prEq st.projectiles P) :
    SEq (spawnProjectile prims st ownerId p lagCompMs fs)
      (spawnProjectile { prims with rand := r } (setProj st P) ownerId p lagCompMs fs) := by
  simp only [spawnProjectile, setProj_players, setProj_arena, setProj_tick,
    setProj_randCalls, setProj_projectiles]
  split_ifs with hlag
  · split
    · split
      · refine ⟨rfl, prEq_append hf (List.Forall₂.cons ?_ List.Forall₂.nil)⟩
        exact rfl
      · split_ifs <;>
          · refine ⟨rfl, prEq_append hf (List.Forall₂.cons ?_ List.Forall₂.nil)⟩
            exact rfl
    · refine ⟨rfl, prEq_append hf (List.Forall₂.cons ?_ List.Forall₂.nil)⟩
      exact rfl
  · refine ⟨rfl, prEq_append hf (List.Forall₂.cons ?_ List.Forall₂.nil)⟩
    exact rfl

theorem seq_fireSpecialWeapon (prims : Prims) (r : ℕ → String) (pid : String) (p : Player)
    (st : GameState) (P : List Projectile)
    (hf : List.Forall₂ prEq st.projectiles P) :
    SEq (fireSpecialWeapon prims st pid p)
      (fireSpecialWeapon { prims with rand := r } (setProj st P) pid p) := by
  cases hw : p.specialWeapon with
  | none =>
    simp only [fireSpecialWeapon, hw]
    exact ⟨rfl, hf⟩
  | some w =>
    simp only [fireSpecialWeapon, hw, setProj_players, setProj_arena, setProj_tick,
      setProj_projectiles, setProj_effects]
    split_ifs with hb hn hcd
    · refine ⟨rfl, prEq_append hf (List.Forall₂.cons ?_ List.Forall₂.nil)⟩
      exact rfl
    · rw [foldl_commute _ _ (fun s Q x => novaHitOne_commute prims r s Q pid p x)]
      refine ⟨rfl, ?_⟩
      simp only [consumeSpecialUse_projectiles, setProj_projectiles]
      rw [foldl_projectiles _ (fun s x => novaHitOne_projectiles prims s pid p x)]
      exact hf
    · exact ⟨rfl, hf⟩
    · exact ⟨rfl, hf⟩

theorem seq_firePhase (prims : Prims) (r : ℕ → String) (pid : String) (p1 : Player)
    (st : GameState) (P : List Projectile)
    (hf : List.Forall₂ prEq st.projectiles P) :
    SEq (firePhase prims st pid p1)
      (firePhase { prims with rand := r } (setProj st P) pid p1) := by
  simp only [firePhase]
  split_ifs with h1 h2
  · exact seq_fireSpecialWeapon prims r pid p1 st P hf
  · exact seq_updPlayer pid _
      (seq_spawnProjectile prims r pid p1 p1.input.lagCompMs p1.input.fireSeq st P hf)
  · exact ⟨rfl, hf⟩

theorem seq_tickOnePlayer (prims : Prims) (r : ℕ → String) (dtMs dt : ℚ) (pid : String)
    {X Y : GameState} (h : SEq X Y) :
    SEq (tickOnePlayer prims dtMs dt X pid)
      (tickOnePlayer { prims with rand := r } dtMs dt Y pid) := by
  obtain ⟨h1, h2⟩ := h
  rw [h1]
  cases hl : X.players.lookup pid with
  | none =>
    simp only [tickOnePlayer, setProj_players, hl]
    exact ⟨rfl, h2⟩
  | some p =>
    simp only [tickOnePlayer, setProj_players, hl]
    split_ifs with ha
    · exact ⟨rfl, h2⟩
    · have hmv : movePlayer { prims with rand := r } dtMs dt (setProj X Y.projectiles) p =
          movePlayer prims dtMs dt X p := rfl
      rw [hmv, setPlayer_commute]
      exact seq_laserPhase prims r dtMs dt pid
        (seq_updPlayer pid _
          (seq_firePhase prims r pid (movePlayer prims dtMs dt X p)
            (setPlayer X pid (movePlayer prims dtMs dt X p)) Y.projectiles h2))

theorem seq_tickPlayers (prims : Prims) (r : ℕ → String) (dtMs dt : ℚ)
    {X Y : GameState} (h : SEq X Y) :
    SEq (tickPlayers prims dtMs dt X) (tickPlayers { prims with rand := r } dtMs dt Y) := by
  obtain ⟨h1, h2⟩ := h
  rw [h1]
  simp only [tickPlayers, setProj_players]
  exact seq_foldl _ _ (fun A B x hAB => seq_tickOnePlayer prims r dtMs dt x hAB) _ ⟨rfl, h2⟩

theorem seq_projStep (prims : Prims) (r : ℕ → String) (dtMs dt : ℚ)
    (A B : GameState × List Projectile) (pr pr' : Projectile)
    (hst : SEq A.1 B.1) (hkept : List.Forall₂ prEq A.2 B.2) (hpr : prEq pr pr') :
    SEq (projStep prims dtMs dt A pr).1
        (projStep { prims with rand := r } dtMs dt B pr').1 ∧
    List.Forall₂ prEq (projStep prims dtMs dt A pr).2
        (projStep { prims with rand := r } dtMs dt B pr').2 := by
  obtain ⟨a1, a2⟩ := A
  obtain ⟨b1, b2⟩ := B
  obtain ⟨h1, h2⟩ := hst
  dsimp only at h1 h2 hkept
  have h3 : pr' = setId pr pr'.id := hpr
  rw [h3, h1]
  simp only [projStep, quantizeProjectileState, setProj_players, setProj_arena,
    setProj_projectiles, isOutOfArena_setProj, setId_id, setId_x, setId_y, setId_vx,
    setId_vy, setId_ttlMs, setId_isBomb, setId_damage, setId_ownerId, setId_lagCompMs,
    setId_fireSeq]
  split_ifs
  all_goals try exact ⟨⟨rfl, h2⟩, hkept⟩
  all_goals try (refine ⟨seq_triggerBomb prims r _ _ ?_ a1 b1.projectiles h2, hkept⟩
                 exact rfl)
  all_goals try split
  all_goals try (rename_i hfind
                 simp only [hfind])
  all_goals try (refine ⟨⟨rfl, h2⟩,
                   prEq_append hkept (List.Forall₂.cons ?_ List.Forall₂.nil)⟩
                 exact rfl)
  all_goals try split_ifs
  all_goals try exact ⟨⟨rfl, h2⟩, hkept⟩
  all_goals try (refine ⟨seq_triggerBomb prims r _ _ ?_ a1 b1.projectiles h2, hkept⟩
                 exact rfl)

theorem seq_updateProjectiles (prims : Prims) (r : ℕ → String) (dtMs : ℚ)
    {X Y : GameState} (h : SEq X Y) :
    SEq (updateProjectiles prims X dtMs)
      (updateProjectiles { prims with rand := r } Y dtMs) := by
  obtain ⟨h1, h2⟩ := h
  have key : ∀ (lA lB : List Projectile), List.Forall₂ prEq lA lB →
      ∀ (A B : GameState × List Projectile), SEq A.1 B.1 → List.Forall₂ prEq A.2 B.2 →
      SEq (lA.foldl (projStep prims dtMs (dtMs / 1000)) A).1
          (lB.foldl (projStep { prims with rand := r } dtMs (dtMs / 1000)) B).1 ∧
      List.Forall₂ prEq
          (lA.foldl (projStep prims dtMs (dtMs / 1000)) A).2
          (lB.foldl (projStep { prims with rand := r } dtMs (dtMs / 1000)) B).2 := by
    intro lA lB hl
    induction hl with
    | nil => intro A B hA hB; exact ⟨hA, hB⟩
    | cons hpr htl ih =>
      intro A B hA hB
      rw [List.foldl_cons, List.foldl_cons]
      obtain ⟨s1, s2⟩ := seq_projStep prims r dtMs (dtMs / 1000) A B _ _ hA hB hpr
      exact ih _ _ s1 s2
  simp only [updateProjectiles]
  obtain ⟨⟨k11, k12⟩, k2⟩ := key X.projectiles Y.projectiles h2 (X, []) (Y, []) ⟨h1, h2⟩
    List.Forall₂.nil
  refine ⟨?_, k2⟩
  rw [k11]
  rfl

theorem seq_tick (prims : Prims) (r : ℕ → String) (dtMs : ℚ) {X Y : GameState}
    (h : SEq X Y) : SEq (tick prims X dtMs) (tick { prims with rand := r } Y dtMs) := by
  obtain ⟨h1, h2⟩ := h
  rw [h1]
  simp only [tick, setProj_phase]
  split_ifs with hp
  · exact ⟨rfl, h2⟩
  · exact seq_resolveTerminal (seq_collectPickups (seq_spawnPickups prims r
      (seq_updateProjectiles prims r dtMs (seq_tickPlayers prims r dtMs (dtMs / 1000)
        (seq_expireEffects dtMs (seq_advanceClock dtMs ⟨rfl, h2⟩))))))

theorem seq_runStep (prims : Prims) (r : ℕ → String) (s : SimStep) {X Y : GameState}
    (h : SEq X Y) : SEq (runStep prims X s) (runStep { prims with rand := r } Y s) := by
  cases s with
  | input pid payload =>
    simp only [runStep]
    exact seq_applyInput pid payload h
  | tick dtMs =>
    simp only [runStep]
    exact seq_tick prims r dtMs h

/-- C1 counterexample: two runs from the same seed and player ids, fed the
same input and the same tick(16), end in different states when the two
runs' Math.random streams differ (prims0 and prims1 agree on every
deterministic primitive and differ only in Math.random): the projectile id
embeds Math.random, so the states are not bit-identical. -/
theorem runSim_rand_counterexample :
    runSim prims0 ["a", "b"] 7 [SimStep.input "a" firePayload0, SimStep.tick 16] ≠
      runSim prims1 ["a", "b"] 7 [SimStep.input "a" firePayload0, SimStep.tick 16] := by
  intro h
  have h2 := congrArg (fun st => st.projectiles.map Projectile.id) h
  exact absurd h2 (by with_unfolding_all decide)

/-- C1 (amended): for two runs started with initState on the same seed and
player ids and fed the same sequence of applyInput and tick(dtMs) calls,
where the second run draws an arbitrary different Math.random stream (all
deterministic primitives equal), the world state after every step is
bit-identical except for the Math.random-derived projectile id strings:
every non-projectile component is equal, the projectile lists have the
same length and order, and corresponding projectiles agree on every field
except possibly id. -/
theorem determinism_up_to_projectile_ids (prims : Prims) (r : ℕ → String)
    (playerIds : List String) (seed : ℚ) (steps : List SimStep) :
    SEq (runSim prims playerIds seed steps)
      (runSim { prims with rand := r } playerIds seed steps) := by
  simp only [runSim]
  exact seq_foldl (runStep prims) (runStep { prims with rand := r })
    (fun A B x hAB => seq_runStep prims r x hAB) steps ⟨rfl, List.Forall₂.nil⟩

/-- C1 witness: the amended determinism theorem applied to the concrete
pair of runs of the counterexample. -/
theorem determinism_up_to_projectile_ids_witness :
    SEq (runSim prims0 ["a", "b"] 7 [SimStep.input "a" firePayload0, SimStep.tick 16])
      (runSim prims1 ["a", "b"] 7 [SimStep.input "a" firePayload0, SimStep.tick 16]) :=
  determinism_up_to_projectile_ids prims0 (fun _ => "bbbbb") ["a", "b"] 7
    [SimStep.input "a" firePayload0, SimStep.tick 16]

end SpaceCraft
